import Mathlib

/-!
# Verification of the massa consensus block-graph subsystem

Shallow embedding, in Lean 4, of the parts of the repository relevant to the
frozen claims: the ledger-change accumulator (`src/consensus/src/ledger.rs`),
and the block-graph maintenance, pruning, validation and bootstrap-codec code
(`src/consensus/src/block_graph.rs`).

Conventions of the embedding:
* `BlockId`, `Address`, `OperationId` are content hashes in the source; they
  are embedded as `Nat` (their 32-byte big-endian value where a byte encoding
  is needed).
* Rust `u64`/`u32` arithmetic is embedded as `Nat` with explicit bounds
  (`u64Max`, `u32Max`) where the source uses checked arithmetic.
* `HashMap`/`HashSet` are embedded as association lists / lists; Rust leaves
  their iteration order unspecified, so the embedding fixes one.  All claim
  statements are phrased so that they do not depend on that choice.
* fallible code (`Result`) is embedded with `Option`/`Except`.
-/

/-- `u64::MAX`. -/
def u64Max : Nat := 2 ^ 64 - 1

/-- `u64::checked_add` on the embedded `Nat` values. -/
def checkedAdd (a b : Nat) : Option Nat :=
  if a + b ≤ u64Max then some (a + b) else none

/-- `u64::checked_sub` on the embedded `Nat` values. -/
def checkedSub (a b : Nat) : Option Nat :=
  if b ≤ a then some (a - b) else none

/-! ## Ledger changes (`src/consensus/src/ledger.rs`) -/

/-- `LedgerChange` (ledger.rs lines 84-88): an unsigned balance delta plus a
direction flag.  `Amount` (a `u64` fixed-point wrapper from the `models`
crate, not under `src/`) is embedded as `Nat` bounded by `u64Max`. -/
structure LedgerChange where
  balance_delta : Nat
  balance_increment : Bool
  deriving DecidableEq, Repr

/-- `LedgerChange::default()` (ledger.rs lines 90-97): zero delta, increment. -/
def LedgerChange.default : LedgerChange := ⟨0, true⟩

/-- `LedgerChange::chain` (ledger.rs lines 99-120), embedded with `Option` for
the `Result`: same direction adds the deltas (checked); opposite directions
subtract the smaller from the larger, flipping the direction when the incoming
delta dominates; a zero result is re-normalised to `balance_increment = true`. -/
def LedgerChange.chain (self change : LedgerChange) : Option LedgerChange :=
  let step : Option LedgerChange :=
    if self.balance_increment = change.balance_increment then
      (checkedAdd self.balance_delta change.balance_delta).map
        (fun d => ⟨d, self.balance_increment⟩)
    else if self.balance_delta < change.balance_delta then
      (checkedSub change.balance_delta self.balance_delta).map
        (fun d => ⟨d, !self.balance_increment⟩)
    else
      (checkedSub self.balance_delta change.balance_delta).map
        (fun d => ⟨d, self.balance_increment⟩)
  step.map (fun r =>
    if r.balance_delta = 0 then { r with balance_increment := true } else r)

/-- The signed algebraic value of a ledger change. -/
def LedgerChange.signedValue (d : LedgerChange) : Int :=
  if d.balance_increment then (d.balance_delta : Int) else -(d.balance_delta : Int)

/-- The canonical (normalised) ledger change of a signed value. -/
def canonChange (z : Int) : LedgerChange :=
  if 0 ≤ z then ⟨z.toNat, true⟩ else ⟨(-z).toNat, false⟩

/-- A ledger change is normalised when a zero delta carries the increment
flag, as `chain` and `default` always produce. -/
def LedgerChange.normalised (d : LedgerChange) : Prop :=
  d.balance_delta = 0 → d.balance_increment = true

theorem chain_eq (d1 d2 : LedgerChange) :
    LedgerChange.chain d1 d2 =
      if d1.balance_increment = d2.balance_increment ∧
          u64Max < d1.balance_delta + d2.balance_delta
      then none
      else some (canonChange (d1.signedValue + d2.signedValue)) := by
  rcases d1 with ⟨a, i1⟩
  rcases d2 with ⟨b, i2⟩
  simp only [LedgerChange.chain, checkedAdd, checkedSub, canonChange,
    LedgerChange.signedValue]
  rcases i1 <;> rcases i2 <;>
    simp only [Bool.false_eq_true, Bool.true_eq_false, if_true, if_false,
      ite_true, ite_false, Bool.not_false, Bool.not_true, reduceCtorEq] <;>
    split_ifs <;>
    simp_all [Option.map, LedgerChange.mk.injEq] <;>
    first
      | omega
      | (split_ifs <;> simp_all [LedgerChange.mk.injEq] <;> omega)

theorem signedValue_canonChange (z : Int) : (canonChange z).signedValue = z := by
  by_cases h : 0 ≤ z
  all_goals simp [canonChange, LedgerChange.signedValue, h]
  all_goals omega

theorem chain_some (d1 d2 d : LedgerChange)
    (h : LedgerChange.chain d1 d2 = some d) :
    d = canonChange (d1.signedValue + d2.signedValue) := by
  rw [chain_eq] at h
  split_ifs at h
  exact (Option.some.inj h).symm

theorem canonChange_signedValue (d : LedgerChange) (hn : d.normalised) :
    canonChange d.signedValue = d := by
  rcases d with ⟨a, i⟩
  rcases i
  · rcases Nat.eq_zero_or_pos a with h0 | h0
    · exact absurd (hn h0) (by simp)
    · have h1 : LedgerChange.signedValue ⟨a, false⟩ = -(a : Int) := by
        simp [LedgerChange.signedValue]
      rw [h1]
      unfold canonChange
      rw [if_neg (by omega)]
      have h2 : ((- -(a : Int)).toNat) = a := by omega
      simp [h2]
  · have h1 : LedgerChange.signedValue ⟨a, true⟩ = (a : Int) := by
      simp [LedgerChange.signedValue]
    rw [h1]
    unfold canonChange
    rw [if_pos (by omega)]
    simp

/-- C6 counterexample: the zero change `(delta 0, increment true)` is *not* a
two-sided identity for `chain` on the nose: chaining it onto the
(reachable, e.g. deserialised or zero-fee) change `(delta 0, increment false)`
re-normalises the flag, so the result differs from the input. -/
theorem c6_chain_identity_counterexample :
    LedgerChange.chain ⟨0, false⟩ LedgerChange.default = some ⟨0, true⟩ ∧
    ((⟨0, true⟩ : LedgerChange) ≠ ⟨0, false⟩) := by
  constructor
  · rfl
  · decide

/-- C6 (amended): `LedgerChange::chain` computes the signed algebraic sum of
the two deltas whenever it succeeds; it is commutative on the nose and
associative where both sides are defined; and the zero change
`(delta 0, increment true)` is a two-sided identity for every representable
change whose representation is normalised (a zero delta carries
`increment = true`). -/
theorem c6_chain_algebra :
    (∀ d1 d2 d : LedgerChange, LedgerChange.chain d1 d2 = some d →
        d.signedValue = d1.signedValue + d2.signedValue) ∧
    (∀ d1 d2 : LedgerChange,
        LedgerChange.chain d1 d2 = LedgerChange.chain d2 d1) ∧
    (∀ d1 d2 d3 e f g k : LedgerChange,
        LedgerChange.chain d1 d2 = some e → LedgerChange.chain e d3 = some f →
        LedgerChange.chain d2 d3 = some g → LedgerChange.chain d1 g = some k →
        f = k) ∧
    (∀ d : LedgerChange, d.balance_delta ≤ u64Max → d.normalised →
        LedgerChange.chain d LedgerChange.default = some d ∧
        LedgerChange.chain LedgerChange.default d = some d) := by
  refine ⟨?_, ?_, ?_, ?_⟩
  · intro d1 d2 d h
    rw [chain_some d1 d2 d h]
    exact signedValue_canonChange _
  · intro d1 d2
    rw [chain_eq, chain_eq]
    have hc : (d1.balance_increment = d2.balance_increment ∧
          u64Max < d1.balance_delta + d2.balance_delta) ↔
        (d2.balance_increment = d1.balance_increment ∧
          u64Max < d2.balance_delta + d1.balance_delta) := by
      constructor <;> rintro ⟨h1, h2⟩ <;> exact ⟨h1.symm, by omega⟩
    rw [if_congr hc rfl (by rw [Int.add_comm])]
  · intro d1 d2 d3 e f g k h12 hf h23 hk
    have he := chain_some _ _ _ h12
    have hg := chain_some _ _ _ h23
    have hf2 := chain_some _ _ _ hf
    have hk2 := chain_some _ _ _ hk
    rw [hf2, hk2, he, hg, signedValue_canonChange, signedValue_canonChange,
      Int.add_assoc]
  · intro d hb hn
    constructor
    · rw [chain_eq, if_neg ?_]
      · rw [show LedgerChange.default.signedValue = 0 from rfl, Int.add_zero,
          canonChange_signedValue d hn]
      · rintro ⟨h1, h2⟩
        simp only [LedgerChange.default] at h2
        omega
    · rw [chain_eq, if_neg ?_]
      · rw [show LedgerChange.default.signedValue = 0 from rfl, Int.zero_add,
          canonChange_signedValue d hn]
      · rintro ⟨h1, h2⟩
        simp only [LedgerChange.default] at h2
        omega

/-- Witness for `c6_chain_algebra` at concrete inputs. -/
theorem c6_chain_algebra_witness :
    (LedgerChange.signedValue ⟨2, true⟩ =
      LedgerChange.signedValue ⟨5, true⟩ + LedgerChange.signedValue ⟨3, false⟩) ∧
    ((⟨4, true⟩ : LedgerChange) = ⟨4, true⟩) ∧
    (LedgerChange.chain ⟨7, false⟩ LedgerChange.default = some ⟨7, false⟩) := by
  have h := c6_chain_algebra
  refine ⟨h.1 ⟨5, true⟩ ⟨3, false⟩ ⟨2, true⟩ (by rfl), ?_, ?_⟩
  · exact h.2.2.1 ⟨1, true⟩ ⟨2, true⟩ ⟨1, true⟩ ⟨3, true⟩ ⟨4, true⟩ ⟨3, true⟩
      ⟨4, true⟩ (by rfl) (by rfl) (by rfl) (by rfl)
  · exact (h.2.2.2 ⟨7, false⟩ (by decide)
      (fun hz => absurd hz (by decide))).1

/-! ## Block-graph data model (`src/consensus/src/block_graph.rs`)

`BlockId` and `Address` are embedded as `Nat`.  A block's header is embedded
by the fields the embedded functions read: its slot, its parent list and its
creator (already as the derived address; signature checking is out of scope
per spec section 1).  `HashMap`s become association lists, `HashSet`s become
(deduplicated) lists. -/

/-- `Slot` (models crate): a `(period, thread)` pair. -/
structure Slot where
  period : Nat
  thread : Nat
  deriving DecidableEq, Repr

/-- Lexicographic `Ord` on slots, as derived in the models crate. -/
def Slot.le (a b : Slot) : Bool :=
  a.period < b.period || (a.period == b.period && a.thread ≤ b.thread)

/-- `DiscardReason` (block_graph.rs lines 387-395). -/
inductive DiscardReason
  | invalid (msg : String)
  | stale
  | final
  deriving DecidableEq, Repr

/-- A block header, embedded by the fields the graph code reads
(block_graph.rs uses `header.content.slot`, `header.content.parents`,
`header.content.creator`; the creator public key is embedded directly as its
derived address). -/
structure BlockHeaderE where
  slot : Slot
  parents : List Nat
  creator : Nat
  deriving DecidableEq, Repr

/-- `HeaderOrBlock` (block_graph.rs lines 28-42); a full block is embedded by
its header (its operations play no role in the embedded control paths). -/
inductive HeaderOrBlockE
  | header (h : BlockHeaderE)
  | fullBlock (h : BlockHeaderE)
  deriving DecidableEq, Repr

/-- `HeaderOrBlock::get_slot` (block_graph.rs lines 35-41). -/
def HeaderOrBlockE.get_slot : HeaderOrBlockE → Slot
  | .header h => h.slot
  | .fullBlock h => h.slot

/-- `ActiveBlock` (block_graph.rs lines 44-56), restricted to the fields the
embedded functions read.  `children` is one association list (child id →
period) per thread; `block_ledger_change` is one association list
(address → change) per thread. -/
structure ActiveBlockE where
  slot : Slot
  parents : List (Nat × Nat)
  children : List (List (Nat × Nat))
  dependencies : List Nat
  descendants : List Nat
  is_final : Bool
  block_ledger_change : List (List (Nat × LedgerChange))
  deriving DecidableEq, Repr

/-- `ActiveBlock::fitness` (block_graph.rs lines 59-72): constantly 1 (the
endorsement count is commented out in the source). -/
def ActiveBlockE.fitness (_ : ActiveBlockE) : Nat := 1

/-- `BlockStatus` (block_graph.rs lines 397-412); a `Discarded` entry is
embedded by its header's slot, its reason and its sequence number. -/
inductive BlockStatusE
  | incoming (hob : HeaderOrBlockE)
  | waitingForSlot (hob : HeaderOrBlockE)
  | waitingForDependencies (hob : HeaderOrBlockE) (unsatisfied : List Nat)
      (seq : Nat)
  | active (ab : ActiveBlockE)
  | discarded (slot : Slot) (reason : DiscardReason) (seq : Nat)
  deriving DecidableEq, Repr

/-! Association-list embedding of `HashMap`. -/

/-- `HashMap::get`. -/
def alistLookup {α : Type} (l : List (Nat × α)) (k : Nat) : Option α :=
  (l.find? (fun p => p.1 == k)).map (·.2)

/-- `HashMap::remove` (drops the binding). -/
def alistRemove {α : Type} (l : List (Nat × α)) (k : Nat) : List (Nat × α) :=
  l.filter (fun p => ¬ p.1 == k)

/-- `HashMap::insert` (bind `k` to `v`, dropping any previous binding; the
position of the new binding is immaterial, `HashMap` iteration order being
unspecified). -/
def alistInsert {α : Type} (l : List (Nat × α)) (k : Nat) (v : α) :
    List (Nat × α) :=
  (k, v) :: alistRemove l k

/-- `HashMap::get_mut` followed by an in-place update. -/
def alistUpdate {α : Type} (l : List (Nat × α)) (k : Nat) (f : α → α) :
    List (Nat × α) :=
  l.map (fun p => if p.1 == k then (p.1, f p.2) else p)

/-- A loop of `get_mut`-updates with the same update function, one per key. -/
def alistUpdateMany {α : Type} (l : List (Nat × α)) (ks : List Nat)
    (f : α → α) : List (Nat × α) :=
  ks.foldl (fun acc k => alistUpdate acc k f) l

/-- In-place update of the `i`-th element of a vector (`children[thread]`). -/
def setIdx {α : Type} : List α → Nat → (α → α) → List α
  | [], _, _ => []
  | x :: xs, 0, f => f x :: xs
  | x :: xs, n + 1, f => x :: setIdx xs n f

/-- Insertion sort (used to embed `sort_unstable*`; all embedded uses sort
keys that are distinct, where every correct sort agrees). -/
def insertBy {α : Type} (le : α → α → Bool) (x : α) : List α → List α
  | [] => [x]
  | y :: ys => if le x y then x :: y :: ys else y :: insertBy le x ys

/-- See `insertBy`. -/
def sortListBy {α : Type} (le : α → α → Bool) (l : List α) : List α :=
  l.foldr (insertBy le) []

/-! ## `prune_discarded` (block_graph.rs lines 3630-3656) -/

/-- The `(sequence_number, hash)` pairs of all `Discarded` entries
(block_graph.rs lines 3631-3643). -/
def discardedSeqIds (s : List (Nat × BlockStatusE)) : List (Nat × Nat) :=
  s.filterMap (fun p => match p.2 with
    | .discarded _ _ seq => some (seq, p.1)
    | _ => none)

/-- Lexicographic comparison on `(sequence_number, hash)` pairs (sequence
numbers are issued by a monotone counter, so keys are distinct in any
reachable state). -/
def seqIdLe (x y : Nat × Nat) : Bool :=
  x.1 < y.1 || (x.1 == y.1 && x.2 ≤ y.2)

/-- `prune_discarded` (block_graph.rs lines 3630-3656): collect the
`(sequence_number, hash)` pairs of Discarded entries; if they number more
than `max_discarded_blocks`, sort ascending, truncate the sorted list to the
first `max_discarded_blocks` entries and remove those from `block_statuses`. -/
def pruneDiscarded (maxDiscardedBlocks : Nat)
    (s : List (Nat × BlockStatusE)) : List (Nat × BlockStatusE) :=
  let discardHashes := discardedSeqIds s
  if discardHashes.length ≤ maxDiscardedBlocks then s
  else
    let toRemove := (sortListBy seqIdLe discardHashes).take maxDiscardedBlocks
    s.filter (fun p => ¬ toRemove.any (fun q => q.2 == p.1))

/-- A concrete state with three Discarded entries (sequence numbers 0, 1, 2)
and `max_discarded_blocks = 1`. -/
def c4Statuses : List (Nat × BlockStatusE) :=
  [(10, .discarded ⟨1, 0⟩ .stale 0),
   (11, .discarded ⟨2, 0⟩ .stale 1),
   (12, .discarded ⟨3, 0⟩ .stale 2)]

/-- C4 failing input: with `max_discarded_blocks = 1` and three Discarded
entries, `prune_discarded` removes the single *oldest* entry (it truncates
the sorted list to `max_discarded_blocks` elements and removes those),
leaving two Discarded entries — still above the limit.  The claim (and the
surrounding guard `len <= max_discarded_blocks`) require removing entries
until the remaining count is within the limit, i.e. removing
`len - max_discarded_blocks` of them. -/
theorem c4_prune_discarded_bug :
    pruneDiscarded 1 c4Statuses =
      [(11, .discarded ⟨2, 0⟩ .stale 1), (12, .discarded ⟨3, 0⟩ .stale 2)] ∧
    (discardedSeqIds (pruneDiscarded 1 c4Statuses)).length = 2 := by
  constructor
  · rfl
  · rfl

/-! ## Final-block selection (block_graph.rs lines 3041-3102) -/

/-- `BlockGraph::get_full_active_block` (block_graph.rs lines 1756-1764). -/
def getFullActiveBlock (s : List (Nat × BlockStatusE)) (id : Nat) :
    Option ActiveBlockE :=
  match alistLookup s id with
  | some (.active ab) => some ab
  | _ => none

/-- Ascending clique-size comparison used for
`indices.sort_unstable_by_key(|&i| self.max_cliques[i].len())`
(block_graph.rs line 3049). -/
def cliqueSizeLe (maxCliques : List (List Nat)) (i j : Nat) : Bool :=
  (maxCliques.getD i []).length ≤ (maxCliques.getD j []).length

/-- The final-candidate computation of `add_block_to_graph`
(block_graph.rs lines 3047-3056): indices are sorted by ascending clique
size, the candidate set starts from the smallest clique
(`max_cliques[indices[0]]`), and the loop then retains, for each
`i in 1..indices.len()`, the members of `max_cliques[i]` — the loop body
indexes the clique vector with the loop counter `i`, not with `indices[i]`.
(The source's early `break` when the candidate set becomes empty does not
change the result: filtering an empty list yields an empty list.) -/
def listFinalCandidates (maxCliques : List (List Nat)) : List Nat :=
  let indices := sortListBy (cliqueSizeLe maxCliques)
    (List.range maxCliques.length)
  let fc0 := maxCliques.getD (indices.getD 0 0) []
  (List.range' 1 (indices.length - 1)).foldl
    (fun fc i => fc.filter (fun v => (maxCliques.getD i []).contains v)) fc0

/-- The total fitness of the candidate's descendants within the clique
(block_graph.rs lines 3082-3093); a non-active descendant contributes 0,
a missing candidate is `MissingBlock`. -/
def descFitness (s : List (Nat × BlockStatusE)) (clique : List Nat)
    (cand : Nat) : Option Nat :=
  (getFullActiveBlock s cand).map (fun ab =>
    ((ab.descendants.dedup.filter (fun h => clique.contains h)).map (fun h =>
        match getFullActiveBlock s h with
        | some ab2 => ab2.fitness
        | none => 0)).sum)

/-- Inner loop of the finality check (block_graph.rs lines 3080-3099): each
candidate whose in-clique descendant fitness exceeds `delta_f0` moves from
the candidate set to the final set. -/
def finalLoopCands (s : List (Nat × BlockStatusE)) (clique : List Nat)
    (deltaF0 : Nat) :
    List Nat → List Nat → List Nat → Option (List Nat × List Nat)
  | [], fc, fb => some (fc, fb)
  | cand :: rest, fc, fb =>
    match descFitness s clique cand with
    | none => none
    | some df =>
      if deltaF0 < df then
        finalLoopCands s clique deltaF0 rest (fc.filter (fun v => v ≠ cand))
          (fb ++ [cand])
      else finalLoopCands s clique deltaF0 rest fc fb

/-- Outer loop of the finality check (block_graph.rs lines 3066-3100) over
cliques in descending fitness order. -/
def finalLoopCliques (s : List (Nat × BlockStatusE))
    (maxCliques : List (List Nat)) (deltaF0 : Nat) :
    List Nat → List Nat → List Nat → Option (List Nat)
  | [], _, fb => some fb
  | cliqueI :: rest, fc, fb =>
    if fc = [] then some fb
    else
      match finalLoopCands s (maxCliques.getD cliqueI []) deltaF0 fc fc fb with
      | none => none
      | some (fc', fb') => finalLoopCliques s maxCliques deltaF0 rest fc' fb'

/-- `final_blocks` of `add_block_to_graph` (block_graph.rs lines 3046-3102):
the candidates of `listFinalCandidates` are checked against the cliques of
fitness above `delta_f0`, in descending fitness order. -/
def listFinalBlocks (s : List (Nat × BlockStatusE))
    (maxCliques : List (List Nat)) (fitnesses : List Nat) (deltaF0 : Nat) :
    Option (List Nat) :=
  let fc := listFinalCandidates maxCliques
  let indices := sortListBy
    (fun i j => fitnesses.getD j 0 ≤ fitnesses.getD i 0)
    ((sortListBy (cliqueSizeLe maxCliques)
        (List.range maxCliques.length)).filter
      (fun i => deltaF0 < fitnesses.getD i 0))
  finalLoopCliques s maxCliques deltaF0 indices fc []

/-- C1 failing input: two surviving cliques `[[1,2,3],[4]]`.  The loop is
meant (per its own comment, "short-circuiting intersection of cliques") to
intersect all cliques, but indexing with the loop counter skips clique 0
whenever the smallest clique is not at index 0: here the candidate set comes
out as `[4]` although block 4 is not in every clique (the true intersection
is empty). -/
theorem c1_final_candidates_bug :
    listFinalCandidates [[1, 2, 3], [4]] = [4] ∧
    ¬ (∀ c ∈ ([[1, 2, 3], [4]] : List (List Nat)), 4 ∈ c) := by
  constructor
  · rfl
  · decide

/-! ## Graph state and stale elimination (block_graph.rs lines 2941-3039)

`GraphState` embeds the `BlockGraph` fields (block_graph.rs lines 794-808)
that the stale-elimination and finalisation code reads and writes.
`to_propagate` / `attack_attempts` are untouched by that code and omitted. -/

structure GraphState where
  genesis_hashes : List Nat := []
  sequence_counter : Nat
  block_statuses : List (Nat × BlockStatusE)
  latest_final_blocks_periods : List (Nat × Nat)
  best_parents : List Nat
  gi_head : List (Nat × List Nat)
  max_cliques : List (List Nat)
  new_final_blocks : List Nat
  new_stale_blocks : List (Nat × Slot)
  deriving DecidableEq, Repr

/-- `list_stale_blocks` (block_graph.rs lines 2941-2977): the fitness
threshold is `blockclique_fitness - delta_f0` (saturating); cliques are
partitioned into a high set (fitness at or above the threshold, their members
accumulated into `high_set`) and a low set (members accumulated into
`low_set`, cliques dropped via `keep_mask`); the stale ids are
`low_set \ high_set`.  The iteration order over `indices` (sorted by
descending clique size, a reallocation optimisation) does not affect the
resulting sets; the parallel `clique_fitnesses.retain` is also embedded
(its `blockclique_i` adjustment is dead after this point and omitted).
Returns `(stale ids, kept cliques, kept fitnesses)`. -/
def listStaleBlocks (maxCliques : List (List Nat)) (fitnesses : List Nat)
    (blockcliqueI deltaF0 : Nat) :
    List Nat × List (List Nat) × List Nat :=
  let fitnessThreshold := fitnesses.getD blockcliqueI 0 - deltaF0
  let indices := sortListBy
    (fun i j => (maxCliques.getD j []).length ≤ (maxCliques.getD i []).length)
    (List.range maxCliques.length)
  let highSet := indices.foldl (fun acc i =>
    if fitnessThreshold ≤ fitnesses.getD i 0 then acc ++ maxCliques.getD i []
    else acc) []
  let lowSet := indices.foldl (fun acc i =>
    if fitnessThreshold ≤ fitnesses.getD i 0 then acc
    else acc ++ maxCliques.getD i []) []
  let keptCliques := (List.range maxCliques.length).filterMap (fun i =>
    if fitnessThreshold ≤ fitnesses.getD i 0 then some (maxCliques.getD i [])
    else none)
  let keptFitnesses := (List.range maxCliques.length).filterMap (fun i =>
    if fitnessThreshold ≤ fitnesses.getD i 0 then some (fitnesses.getD i 0)
    else none)
  ((lowSet.filter (fun v => ¬ highSet.contains v)).dedup, keptCliques,
    keptFitnesses)

/-- Removal of a block from the `thread`-th `children` map of an active
status value (`children[thread].remove(&stale_block_hash)`,
block_graph.rs lines 3012-3017); non-active statuses are left alone
(the source's `if let` pattern). -/
def childTrim (thread staleH : Nat) : BlockStatusE → BlockStatusE
  | .active ab =>
    let ch := setIdx ab.children thread
      (fun cl => cl.filter (fun c => ¬ c.1 == staleH))
    .active { ab with children := ch }
  | other => other

/-- The removal of a stale block from its parents' `children` maps
(block_graph.rs lines 3010-3018). -/
def removeFromChildren (statuses : List (Nat × BlockStatusE))
    (parents : List (Nat × Nat)) (thread staleH : Nat) :
    List (Nat × BlockStatusE) :=
  alistUpdateMany statuses (parents.map (fun p => p.1)) (childTrim thread staleH)

/-- Removal of a block id from one incompatibility set
(`other_incomp_lst.remove(&stale_block_hash)`, block_graph.rs line 2995). -/
def giTrim (h : Nat) (l : List Nat) : List Nat :=
  l.filter (fun v => ¬ v == h)

/-- Demotion of one stale block (block_graph.rs lines 2983-3038): the status
entry is removed and must be a non-final `Active` (a final one is a
`ContainerInconsistency`); the id is removed from `gi_head` as a key and from
the sets of its `gi_head` partners, removed from every clique (dropping empty
cliques but keeping at least one), removed from its parents' children maps in
its own thread, recorded in `new_stale_blocks`, and re-inserted as
`Discarded{Stale}` with a fresh sequence number. -/
def markedStaleState (st : GraphState) (staleBlockHash : Nat)
    (active_block : ActiveBlockE) : GraphState :=
  let statuses0 := alistRemove st.block_statuses staleBlockHash
  let partners := (alistLookup st.gi_head staleBlockHash).getD []
  let gi1 := alistRemove st.gi_head staleBlockHash
  let gi2 := alistUpdateMany gi1 partners (giTrim staleBlockHash)
  let mc1 := st.max_cliques.map
    (fun c => c.filter (fun v => ¬ v == staleBlockHash))
  let mc2 := mc1.filter (fun c => ¬ c.isEmpty)
  let mc3 := if mc2.isEmpty then [[]] else mc2
  let statuses1 := removeFromChildren statuses0 active_block.parents
    active_block.slot.thread staleBlockHash
  let newStale := alistInsert st.new_stale_blocks staleBlockHash
    active_block.slot
  let statuses2 := alistInsert statuses1 staleBlockHash
    (.discarded active_block.slot .stale st.sequence_counter)
  { st with
    block_statuses := statuses2
    gi_head := gi2
    max_cliques := mc3
    new_stale_blocks := newStale
    sequence_counter := st.sequence_counter + 1 }

/-- See the doc comment above `markedStaleState`. -/
def markOneStale (st : GraphState) (staleBlockHash : Nat) :
    Except String GraphState :=
  match alistLookup st.block_statuses staleBlockHash with
  | some (.active active_block) =>
    if active_block.is_final then
      .error "stale block was already final"
    else
      .ok (markedStaleState st staleBlockHash active_block)
  | _ => .error "stale block missing"

/-- The demotion loop over all stale ids (block_graph.rs lines 2983-3039). -/
def markStaleList : GraphState → List Nat → Except String GraphState
  | st, [] => .ok st
  | st, h :: rest =>
    match markOneStale st h with
    | .error e => .error e
    | .ok st' => markStaleList st' rest

/-- Stale elimination inside `add_block_to_graph`
(block_graph.rs lines 2941-3039): list the stale ids, shrink
`max_cliques`/`clique_fitnesses` to the high cliques, then demote every
stale id.  Returns the new state, the stale ids and the kept fitnesses. -/
def staleEliminate (deltaF0 blockcliqueI : Nat) (fitnesses : List Nat)
    (st : GraphState) : Except String (GraphState × List Nat × List Nat) :=
  let r := listStaleBlocks st.max_cliques fitnesses blockcliqueI deltaF0
  match markStaleList { st with max_cliques := r.2.1 } r.1 with
  | .error e => .error e
  | .ok st' => .ok (st', r.1, r.2.2)

/-! ### Association-list and sorting lemmas -/

theorem alistLookup_cons {α : Type} (x : Nat × α) (xs : List (Nat × α))
    (b : Nat) :
    alistLookup (x :: xs) b = if x.1 = b then some x.2 else alistLookup xs b := by
  by_cases h : x.1 = b
  · simp [alistLookup, List.find?_cons, h]
  · simp only [alistLookup, List.find?_cons]
    have hb : (x.1 == b) = false := by simpa using h
    simp [hb, h]

theorem alistLookup_remove {α : Type} (l : List (Nat × α)) (k b : Nat) :
    alistLookup (alistRemove l k) b =
      if b = k then none else alistLookup l b := by
  induction l with
  | nil =>
    simp [alistLookup, alistRemove]
  | cons p t ih =>
    by_cases hpk : p.1 = k
    · have he : alistRemove (p :: t) k = alistRemove t k := by
        simp [alistRemove, List.filter_cons, hpk]
      rw [he, ih, alistLookup_cons]
      by_cases hbk : b = k
      · simp [hbk]
      · have hne : ¬ p.1 = b := by omega
        simp [hne, hbk]
    · have he : alistRemove (p :: t) k = p :: alistRemove t k := by
        have hf : (p.1 == k) = false := by simpa using hpk
        simp [alistRemove, List.filter_cons, hf, hpk]
      rw [he, alistLookup_cons, alistLookup_cons, ih]
      by_cases hbp : p.1 = b
      · have hbk : ¬ b = k := by omega
        simp [hbp, hbk]
      · simp [hbp]

theorem alistLookup_insert {α : Type} (l : List (Nat × α)) (k : Nat) (v : α)
    (b : Nat) :
    alistLookup (alistInsert l k v) b =
      if b = k then some v else alistLookup l b := by
  unfold alistInsert
  rw [alistLookup_cons, alistLookup_remove]
  by_cases hbk : b = k
  · simp [hbk]
  · have : ¬ (k : Nat) = b := by omega
    simp [this, hbk]

theorem alistLookup_update {α : Type} (l : List (Nat × α)) (k : Nat)
    (f : α → α) (b : Nat) :
    alistLookup (alistUpdate l k f) b =
      if b = k then (alistLookup l b).map f else alistLookup l b := by
  induction l with
  | nil => simp [alistLookup, alistUpdate]
  | cons p t ih =>
    have he : alistUpdate (p :: t) k f =
        (if p.1 == k then (p.1, f p.2) else p) :: alistUpdate t k f := by
      simp [alistUpdate]
    rw [he]
    by_cases hpk : p.1 = k
    · have h1 : (p.1 == k) = true := by simpa using hpk
      rw [if_pos h1, alistLookup_cons, alistLookup_cons]
      by_cases hbp : p.1 = b
      · have hbk : b = k := by omega
        simp [hbp, hbk]
      · have hbk : ¬ b = k := by omega
        simp only [hbp, if_false, ih, hbk]
    · have h1 : (p.1 == k) = false := by simpa using hpk
      rw [if_neg (by simp [h1]), alistLookup_cons, alistLookup_cons, ih]
      by_cases hbp : p.1 = b
      · have hbk : ¬ b = k := by omega
        simp [hbp, hbk]
      · simp [hbp]

theorem lookup_updateMany_notMem {α : Type} (l : List (Nat × α))
    (ks : List Nat) (f : α → α) (b : Nat) (hb : b ∉ ks) :
    alistLookup (alistUpdateMany l ks f) b = alistLookup l b := by
  induction ks generalizing l with
  | nil => rfl
  | cons k t ih =>
    have hbk : ¬ b = k := fun h => hb (h ▸ List.mem_cons_self _ _)
    have hbt : b ∉ t := fun h => hb (List.mem_cons_of_mem _ h)
    show alistLookup (alistUpdateMany (alistUpdate l k f) t f) b = _
    rw [ih _ hbt, alistLookup_update, if_neg hbk]

theorem lookup_updateMany_mem {α : Type} (l : List (Nat × α))
    (ks : List Nat) (f : α → α) (b : Nat)
    (hidem : ∀ v, f (f v) = f v) (hb : b ∈ ks) :
    alistLookup (alistUpdateMany l ks f) b = (alistLookup l b).map f := by
  induction ks generalizing l with
  | nil => cases hb
  | cons k t ih =>
    show alistLookup (alistUpdateMany (alistUpdate l k f) t f) b = _
    by_cases hbt : b ∈ t
    · rw [ih _ hbt, alistLookup_update]
      by_cases hbk : b = k
      · rw [if_pos hbk]
        cases hlb : alistLookup l b <;> simp [hidem]
      · rw [if_neg hbk]
    · have hbk : b = k := by
        rcases List.mem_cons.mp hb with h | h
        · exact h
        · exact absurd h hbt
      rw [lookup_updateMany_notMem _ _ _ _ hbt, alistLookup_update, if_pos hbk]

theorem lookup_updateMany_or {α : Type} (l : List (Nat × α))
    (ks : List Nat) (f : α → α) (b : Nat) (hidem : ∀ v, f (f v) = f v) :
    alistLookup (alistUpdateMany l ks f) b = alistLookup l b ∨
      alistLookup (alistUpdateMany l ks f) b = (alistLookup l b).map f := by
  by_cases hb : b ∈ ks
  · exact Or.inr (lookup_updateMany_mem l ks f b hidem hb)
  · exact Or.inl (lookup_updateMany_notMem l ks f b hb)

theorem mem_insertBy {α : Type} (le : α → α → Bool) (x y : α) (l : List α) :
    y ∈ insertBy le x l ↔ y = x ∨ y ∈ l := by
  induction l with
  | nil => simp [insertBy]
  | cons z t ih =>
    by_cases h : le x z = true
    · simp [insertBy, h]
    · simp only [insertBy]
      rw [if_neg h]
      simp only [List.mem_cons, ih]
      tauto

theorem mem_sortListBy {α : Type} (le : α → α → Bool) (y : α) (l : List α) :
    y ∈ sortListBy le l ↔ y ∈ l := by
  induction l with
  | nil => simp [sortListBy]
  | cons z t ih =>
    show y ∈ insertBy le z (sortListBy le t) ↔ _
    rw [mem_insertBy]
    simp only [List.mem_cons, ih]

theorem mem_foldl_filteredUnion (g : Nat → List Nat) (p : Nat → Bool)
    (idxs : List Nat) (init : List Nat) (b : Nat) :
    b ∈ idxs.foldl
        (fun acc i => if p i then acc ++ g i else acc) init ↔
      b ∈ init ∨ ∃ i ∈ idxs, p i ∧ b ∈ g i := by
  induction idxs generalizing init with
  | nil => simp
  | cons j t ih =>
    show b ∈ t.foldl _ (if p j then init ++ g j else init) ↔ _
    rw [ih]
    by_cases hpj : p j = true
    · simp only [hpj, if_true, List.mem_append, List.mem_cons]
      constructor
      · rintro ((h | h) | ⟨i, hi, hp, hb⟩)
        · exact Or.inl h
        · exact Or.inr ⟨j, Or.inl rfl, hpj, h⟩
        · exact Or.inr ⟨i, Or.inr hi, hp, hb⟩
      · rintro (h | ⟨i, (rfl | hi), hp, hb⟩)
        · exact Or.inl (Or.inl h)
        · exact Or.inl (Or.inr hb)
        · exact Or.inr ⟨i, hi, hp, hb⟩
    · have h2 : p j = false := by simpa using hpj
      simp only [h2, if_false, List.mem_cons]
      constructor
      · rintro (h | ⟨i, hi, hp, hb⟩)
        · exact Or.inl h
        · exact Or.inr ⟨i, Or.inr hi, hp, hb⟩
      · rintro (h | ⟨i, (rfl | hi), hp, hb⟩)
        · exact Or.inl h
        · rw [h2] at hp
          cases hp
        · exact Or.inr ⟨i, hi, hp, hb⟩

/-! ### Per-step lemmas about `markedStaleState` -/

/-- An active status with its `children` field blanked; two statuses with the
same strip differ at most in their children maps. -/
def stripChildren : BlockStatusE → BlockStatusE
  | .active ab => .active { ab with children := [] }
  | s => s

theorem setIdx_setIdx {α : Type} (l : List α) (i : Nat) (f g : α → α) :
    setIdx (setIdx l i f) i g = setIdx l i (fun x => g (f x)) := by
  induction l generalizing i with
  | nil => cases i <;> rfl
  | cons x xs ih =>
    cases i with
    | zero => rfl
    | succ n => simp [setIdx, ih]

theorem getD_setIdx_self {α : Type} (l : List α) (i : Nat) (f : α → α)
    (d : α) :
    (setIdx l i f).getD i d = if i < l.length then f (l.getD i d) else d := by
  induction l generalizing i with
  | nil => cases i <;> simp [setIdx]
  | cons x xs ih =>
    cases i with
    | zero => simp [setIdx]
    | succ n => simpa [setIdx] using ih n

theorem getD_setIdx_ne {α : Type} (l : List α) (i j : Nat) (f : α → α)
    (d : α) (hij : i ≠ j) :
    (setIdx l i f).getD j d = l.getD j d := by
  induction l generalizing i j with
  | nil => cases i <;> simp [setIdx]
  | cons x xs ih =>
    cases i with
    | zero =>
      cases j with
      | zero => omega
      | succ m => simp [setIdx]
    | succ n =>
      cases j with
      | zero => simp [setIdx]
      | succ m => simpa [setIdx] using ih n m (by omega)

theorem childTrim_idem (th hh : Nat) (v : BlockStatusE) :
    childTrim th hh (childTrim th hh v) = childTrim th hh v := by
  cases v <;> simp [childTrim, setIdx_setIdx, List.filter_filter]

theorem giTrim_idem (hh : Nat) (v : List Nat) :
    giTrim hh (giTrim hh v) = giTrim hh v := by
  simp [giTrim, List.filter_filter]

theorem strip_childTrim (th hh : Nat) (v : BlockStatusE) :
    stripChildren (childTrim th hh v) = stripChildren v := by
  cases v <;> rfl

theorem strip_eq_discarded (v : BlockStatusE) (sl : Slot) (r : DiscardReason)
    (q : Nat) (h : stripChildren v = .discarded sl r q) :
    v = .discarded sl r q := by
  cases v with
  | active ab => simp [stripChildren] at h
  | incoming hob => exact h
  | waitingForSlot hob => exact h
  | waitingForDependencies hob u s => exact h
  | discarded sl2 r2 q2 => exact h

theorem strip_eq_active (v : BlockStatusE) (ab : ActiveBlockE)
    (h : stripChildren v = .active ab) :
    ∃ ab0, v = .active ab0 ∧ ab0.slot = ab.slot ∧
      ab0.is_final = ab.is_final ∧ ab0.parents = ab.parents ∧
      ab0.descendants = ab.descendants := by
  cases v with
  | active ab0 =>
    refine ⟨ab0, rfl, ?_⟩
    simp only [stripChildren, BlockStatusE.active.injEq] at h
    rw [← h]
    simp
  | incoming hob => simp [stripChildren] at h
  | waitingForSlot hob => simp [stripChildren] at h
  | waitingForDependencies hob u s => simp [stripChildren] at h
  | discarded sl2 r2 q2 => simp [stripChildren] at h

/-- The `max_cliques` field after one stale demotion. -/
def staleCliques (mc : List (List Nat)) (h : Nat) : List (List Nat) :=
  let mc2 := (mc.map (fun c => c.filter (fun v => ¬ v == h))).filter
    (fun c => ¬ c.isEmpty)
  if mc2.isEmpty then [[]] else mc2

theorem markedStaleState_def (st : GraphState) (h : Nat)
    (ab : ActiveBlockE) :
    markedStaleState st h ab = { st with
      block_statuses := alistInsert
        (removeFromChildren (alistRemove st.block_statuses h) ab.parents
          ab.slot.thread h) h
        (.discarded ab.slot .stale st.sequence_counter)
      gi_head := alistUpdateMany (alistRemove st.gi_head h)
        ((alistLookup st.gi_head h).getD []) (giTrim h)
      max_cliques := staleCliques st.max_cliques h
      new_stale_blocks := alistInsert st.new_stale_blocks h ab.slot
      sequence_counter := st.sequence_counter + 1 } := rfl

theorem markedStale_statuses_self (st : GraphState) (h : Nat)
    (ab : ActiveBlockE) :
    alistLookup (markedStaleState st h ab).block_statuses h =
      some (.discarded ab.slot .stale st.sequence_counter) := by
  rw [markedStaleState_def]
  show alistLookup (alistInsert _ h _) h = _
  rw [alistLookup_insert, if_pos rfl]

theorem markedStale_statuses_other (st : GraphState) (h : Nat)
    (ab : ActiveBlockE) (b : Nat) (hbh : b ≠ h) :
    alistLookup (markedStaleState st h ab).block_statuses b =
      alistLookup (removeFromChildren (alistRemove st.block_statuses h)
        ab.parents ab.slot.thread h) b := by
  rw [markedStaleState_def]
  show alistLookup (alistInsert _ h _) b = _
  rw [alistLookup_insert, if_neg hbh]

theorem markedStale_gi_def (st : GraphState) (h : Nat) (ab : ActiveBlockE) :
    (markedStaleState st h ab).gi_head =
      alistUpdateMany (alistRemove st.gi_head h)
        ((alistLookup st.gi_head h).getD []) (giTrim h) := rfl

theorem markedStale_cliques_def (st : GraphState) (h : Nat)
    (ab : ActiveBlockE) :
    (markedStaleState st h ab).max_cliques =
      staleCliques st.max_cliques h := rfl

theorem markedStale_newStale_def (st : GraphState) (h : Nat)
    (ab : ActiveBlockE) :
    (markedStaleState st h ab).new_stale_blocks =
      alistInsert st.new_stale_blocks h ab.slot := rfl

theorem markedStale_strip (st : GraphState) (h : Nat) (ab : ActiveBlockE)
    (b : Nat) (hbh : b ≠ h) :
    (alistLookup (markedStaleState st h ab).block_statuses b).map
        stripChildren =
      (alistLookup st.block_statuses b).map stripChildren := by
  rw [markedStale_statuses_other st h ab b hbh]
  unfold removeFromChildren
  rcases lookup_updateMany_or (alistRemove st.block_statuses h)
      (ab.parents.map (fun p => p.1)) (childTrim ab.slot.thread h) b
      (childTrim_idem _ _) with hc | hc <;>
    rw [hc, alistLookup_remove, if_neg hbh]
  cases alistLookup st.block_statuses b <;>
    simp [strip_childTrim]

theorem markedStale_childAbsent (st : GraphState) (h : Nat)
    (ab : ActiveBlockE) (p : Nat) (hp : p ∈ ab.parents.map (fun q => q.1))
    (ab2 : ActiveBlockE)
    (hl : alistLookup (markedStaleState st h ab).block_statuses p =
      some (.active ab2)) :
    ∀ e ∈ ab2.children.getD ab.slot.thread [], ¬ e.1 = h := by
  by_cases hph : p = h
  · rw [hph, markedStale_statuses_self] at hl
    cases hl
  · rw [markedStale_statuses_other st h ab p hph] at hl
    unfold removeFromChildren at hl
    rw [lookup_updateMany_mem _ _ _ _ (childTrim_idem _ _) hp] at hl
    rcases hw : alistLookup (alistRemove st.block_statuses h) p with _ | w
    · rw [hw] at hl
      cases hl
    · rw [hw] at hl
      simp only [Option.map_some'] at hl
      cases w with
      | active aw =>
        simp only [childTrim, Option.some.injEq, BlockStatusE.active.injEq] at hl
        intro e he
        have hch : ab2.children = setIdx aw.children ab.slot.thread
            (fun cl => cl.filter (fun c => ¬ c.1 == h)) := by
          rw [← hl]
        rw [hch, getD_setIdx_self] at he
        by_cases hlen : ab.slot.thread < aw.children.length
        · rw [if_pos hlen] at he
          have := List.of_mem_filter he
          simpa using this
        · rw [if_neg hlen] at he
          cases he
      | incoming hob => simp [childTrim] at hl
      | waitingForSlot hob => simp [childTrim] at hl
      | waitingForDependencies hob u s => simp [childTrim] at hl
      | discarded sl2 r2 q2 => simp [childTrim] at hl

theorem markedStale_childAbsent_pres (st : GraphState) (h : Nat)
    (ab : ActiveBlockE) (b th : Nat) (pids : List Nat)
    (hpre : ∀ p ∈ pids, ∀ ab2,
      alistLookup st.block_statuses p = some (.active ab2) →
      ∀ e ∈ ab2.children.getD th [], ¬ e.1 = b) :
    ∀ p ∈ pids, ∀ ab2,
      alistLookup (markedStaleState st h ab).block_statuses p =
        some (.active ab2) →
      ∀ e ∈ ab2.children.getD th [], ¬ e.1 = b := by
  intro p hp ab2 hl
  by_cases hph : p = h
  · rw [hph, markedStale_statuses_self] at hl
    cases hl
  · rw [markedStale_statuses_other st h ab p hph] at hl
    unfold removeFromChildren at hl
    rcases lookup_updateMany_or (alistRemove st.block_statuses h)
        (ab.parents.map (fun q => q.1)) (childTrim ab.slot.thread h) p
        (childTrim_idem _ _) with hc | hc <;>
      rw [hc, alistLookup_remove, if_neg hph] at hl
    · exact hpre p hp ab2 hl
    · rcases hw : alistLookup st.block_statuses p with _ | w
      · rw [hw] at hl
        cases hl
      · rw [hw] at hl
        simp only [Option.map_some'] at hl
        cases w with
        | active aw =>
          simp only [childTrim, Option.some.injEq, BlockStatusE.active.injEq] at hl
          intro e he
          have hch : ab2.children = setIdx aw.children ab.slot.thread
              (fun cl => cl.filter (fun c => ¬ c.1 == h)) := by
            rw [← hl]
          rw [hch] at he
          have hmem : e ∈ aw.children.getD th [] := by
            by_cases hth : ab.slot.thread = th
            · rw [hth, getD_setIdx_self] at he
              by_cases hlen : th < aw.children.length
              · rw [if_pos hlen] at he
                exact List.mem_of_mem_filter he
              · rw [if_neg hlen] at he
                cases he
            · rwa [getD_setIdx_ne _ _ _ _ _ hth] at he
          exact hpre p hp aw hw e hmem
        | incoming hob => simp [childTrim] at hl
        | waitingForSlot hob => simp [childTrim] at hl
        | waitingForDependencies hob u s => simp [childTrim] at hl
        | discarded sl2 r2 q2 => simp [childTrim] at hl

theorem markedStale_gi_self (st : GraphState) (h : Nat) (ab : ActiveBlockE) :
    alistLookup (markedStaleState st h ab).gi_head h = none := by
  rw [markedStale_gi_def]
  rcases lookup_updateMany_or (alistRemove st.gi_head h)
      ((alistLookup st.gi_head h).getD []) (giTrim h) h (giTrim_idem _) with
    hc | hc <;> rw [hc, alistLookup_remove, if_pos rfl]
  rfl

theorem markedStale_gi_partners (st : GraphState) (h : Nat)
    (ab : ActiveBlockE) (y : Nat)
    (hy : y ∈ (alistLookup st.gi_head h).getD []) :
    ∀ l, alistLookup (markedStaleState st h ab).gi_head y = some l →
      h ∉ l := by
  intro l hl
  rw [markedStale_gi_def,
    lookup_updateMany_mem _ _ _ _ (giTrim_idem _) hy] at hl
  rcases hw : alistLookup (alistRemove st.gi_head h) y with _ | w <;>
    rw [hw] at hl
  · cases hl
  · simp only [Option.map_some', Option.some.injEq] at hl
    rw [← hl]
    intro hmem
    have := List.of_mem_filter hmem
    simp at this

theorem markedStale_gi_none_pres (st : GraphState) (h : Nat)
    (ab : ActiveBlockE) (b : Nat)
    (hb : alistLookup st.gi_head b = none) :
    alistLookup (markedStaleState st h ab).gi_head b = none := by
  rw [markedStale_gi_def]
  rcases lookup_updateMany_or (alistRemove st.gi_head h)
      ((alistLookup st.gi_head h).getD []) (giTrim h) b (giTrim_idem _) with
    hc | hc <;>
    · rw [hc, alistLookup_remove]
      by_cases hbh : b = h
      · simp [hbh]
      · simp [hbh, hb]

theorem markedStale_gi_notMem_pres (st : GraphState) (h : Nat)
    (ab : ActiveBlockE) (b y : Nat)
    (hb : ∀ l, alistLookup st.gi_head y = some l → b ∉ l) :
    ∀ l, alistLookup (markedStaleState st h ab).gi_head y = some l →
      b ∉ l := by
  intro l hl
  rw [markedStale_gi_def] at hl
  rcases lookup_updateMany_or (alistRemove st.gi_head h)
      ((alistLookup st.gi_head h).getD []) (giTrim h) y (giTrim_idem _) with
    hc | hc <;> rw [hc, alistLookup_remove] at hl
  · by_cases hyh : y = h
    · rw [if_pos hyh] at hl
      cases hl
    · rw [if_neg hyh] at hl
      exact hb l hl
  · by_cases hyh : y = h
    · rw [if_pos hyh] at hl
      cases hl
    · rw [if_neg hyh] at hl
      rcases hw : alistLookup st.gi_head y with _ | w <;> rw [hw] at hl
      · cases hl
      · simp only [Option.map_some', Option.some.injEq] at hl
        intro hmem
        rw [← hl] at hmem
        exact hb w hw (List.mem_of_mem_filter hmem)

theorem markedStale_gi_shrink (st : GraphState) (h : Nat)
    (ab : ActiveBlockE) (b : Nat) (hbh : b ≠ h) :
    ∀ y ∈ (alistLookup st.gi_head b).getD [],
      y ∈ (alistLookup (markedStaleState st h ab).gi_head b).getD [] ∨
        y = h := by
  intro y hy
  rw [markedStale_gi_def]
  rcases lookup_updateMany_or (alistRemove st.gi_head h)
      ((alistLookup st.gi_head h).getD []) (giTrim h) b (giTrim_idem _) with
    hc | hc <;> rw [hc, alistLookup_remove, if_neg hbh]
  · exact Or.inl hy
  · rcases hw : alistLookup st.gi_head b with _ | w
    · rw [hw] at hy
      cases hy
    · rw [hw] at hy
      by_cases hyh : y = h
      · exact Or.inr hyh
      · refine Or.inl ?_
        simp only [Option.getD_some, Option.map_some']
        unfold giTrim
        apply List.mem_filter.mpr
        refine ⟨hy, ?_⟩
        simpa using hyh

theorem mem_staleCliques (mc : List (List Nat)) (h : Nat)
    (c : List Nat) (hc : c ∈ staleCliques mc h) :
    c = [] ∨ ∃ c0 ∈ mc, c = c0.filter (fun v => ¬ v == h) := by
  unfold staleCliques at hc
  by_cases he : ((mc.map (fun c => c.filter (fun v => ¬ v == h))).filter
      (fun c => ¬ c.isEmpty)).isEmpty
  · rw [if_pos he] at hc
    have hce : c = [] := by simpa using hc
    exact Or.inl hce
  · rw [if_neg he] at hc
    have h1 := List.mem_of_mem_filter hc
    rcases List.mem_map.mp h1 with ⟨c0, hc0mem, hc0⟩
    exact Or.inr ⟨c0, hc0mem, hc0.symm⟩

theorem markedStale_cliques_self (st : GraphState) (h : Nat)
    (ab : ActiveBlockE) :
    ∀ c ∈ (markedStaleState st h ab).max_cliques, h ∉ c := by
  intro c hc
  rw [markedStale_cliques_def] at hc
  rcases mem_staleCliques _ _ _ hc with hce | ⟨c0, _, hcf⟩
  · rw [hce]
    simp
  · rw [hcf]
    intro hmem
    have := List.of_mem_filter hmem
    simp at this

theorem markedStale_cliques_pres (st : GraphState) (h : Nat)
    (ab : ActiveBlockE) (b : Nat)
    (hb : ∀ c ∈ st.max_cliques, b ∉ c) :
    ∀ c ∈ (markedStaleState st h ab).max_cliques, b ∉ c := by
  intro c hc
  rw [markedStale_cliques_def] at hc
  rcases mem_staleCliques _ _ _ hc with hce | ⟨c0, hc0mem, hcf⟩
  · rw [hce]
    simp
  · rw [hcf]
    intro hmem
    exact hb c0 hc0mem (List.mem_of_mem_filter hmem)

theorem markedStale_newStale_self (st : GraphState) (h : Nat)
    (ab : ActiveBlockE) :
    alistLookup (markedStaleState st h ab).new_stale_blocks h =
      some ab.slot := by
  rw [markedStale_newStale_def, alistLookup_insert, if_pos rfl]

theorem markedStale_newStale_other (st : GraphState) (h : Nat)
    (ab : ActiveBlockE) (b : Nat) (hbh : b ≠ h) :
    alistLookup (markedStaleState st h ab).new_stale_blocks b =
      alistLookup st.new_stale_blocks b := by
  rw [markedStale_newStale_def, alistLookup_insert, if_neg hbh]

/-! ### Fold-level lemmas for the stale-demotion loop -/

theorem markStaleList_nil (st0 stEnd : GraphState)
    (hok : markStaleList st0 [] = .ok stEnd) : st0 = stEnd := by
  simpa [markStaleList] using hok

theorem markOneStale_ok (st : GraphState) (h : Nat) (st1 : GraphState)
    (hone : markOneStale st h = .ok st1) :
    ∃ ab, alistLookup st.block_statuses h = some (.active ab) ∧
      ab.is_final = false ∧ st1 = markedStaleState st h ab := by
  unfold markOneStale at hone
  split at hone
  · split at hone
    · cases hone
    · rename_i ab heq hf
      exact ⟨ab, heq, by simpa using hf, (Except.ok.inj hone).symm⟩
  · cases hone

theorem markStaleList_ok_cons (st : GraphState) (h : Nat) (rest : List Nat)
    (stEnd : GraphState)
    (hok : markStaleList st (h :: rest) = .ok stEnd) :
    ∃ ab, alistLookup st.block_statuses h = some (.active ab) ∧
      ab.is_final = false ∧
      markStaleList (markedStaleState st h ab) rest = .ok stEnd := by
  have hcons : markStaleList st (h :: rest) =
      match markOneStale st h with
      | .error e => .error e
      | .ok st' => markStaleList st' rest := rfl
  rw [hcons] at hok
  rcases hone : markOneStale st h with e | st1 <;> rw [hone] at hok
  · cases hok
  · rcases markOneStale_ok st h st1 hone with ⟨ab, heq, hf, hst1⟩
    exact ⟨ab, heq, hf, by rw [← hst1]; exact hok⟩

theorem markStaleList_pres (L : List Nat) (st0 stEnd : GraphState)
    (hok : markStaleList st0 L = .ok stEnd) :
    (∀ b, alistLookup st0.gi_head b = none →
      alistLookup stEnd.gi_head b = none) ∧
    (∀ b y, (∀ l, alistLookup st0.gi_head y = some l → b ∉ l) →
      ∀ l, alistLookup stEnd.gi_head y = some l → b ∉ l) ∧
    (∀ b, (∀ c ∈ st0.max_cliques, b ∉ c) →
      ∀ c ∈ stEnd.max_cliques, b ∉ c) ∧
    (∀ (b th : Nat) (pids : List Nat),
      (∀ p ∈ pids, ∀ ab2,
        alistLookup st0.block_statuses p = some (.active ab2) →
        ∀ e ∈ ab2.children.getD th [], ¬ e.1 = b) →
      ∀ p ∈ pids, ∀ ab2,
        alistLookup stEnd.block_statuses p = some (.active ab2) →
        ∀ e ∈ ab2.children.getD th [], ¬ e.1 = b) := by
  induction L generalizing st0 with
  | nil =>
    obtain rfl := markStaleList_nil st0 stEnd hok
    refine ⟨?_, ?_, ?_, ?_⟩
    · exact fun b hb => hb
    · exact fun b y hb => hb
    · exact fun b hb => hb
    · exact fun b th pids hb => hb
  | cons h rest ih =>
    rcases markStaleList_ok_cons st0 h rest stEnd hok with ⟨ab, _, _, hrest⟩
    rcases ih (markedStaleState st0 h ab) hrest with ⟨p1, p2, p3, p4⟩
    refine ⟨?_, ?_, ?_, ?_⟩
    · intro b hb
      exact p1 b (markedStale_gi_none_pres st0 h ab b hb)
    · intro b y hb
      exact p2 b y (markedStale_gi_notMem_pres st0 h ab b y hb)
    · intro b hb
      exact p3 b (markedStale_cliques_pres st0 h ab b hb)
    · intro b th pids hb
      exact p4 b th pids (markedStale_childAbsent_pres st0 h ab b th pids hb)

theorem markStaleList_strip (L : List Nat) (st0 stEnd : GraphState)
    (hok : markStaleList st0 L = .ok stEnd) (id : Nat) (hid : id ∉ L) :
    (alistLookup stEnd.block_statuses id).map stripChildren =
      (alistLookup st0.block_statuses id).map stripChildren ∧
    alistLookup stEnd.new_stale_blocks id =
      alistLookup st0.new_stale_blocks id := by
  induction L generalizing st0 with
  | nil =>
    obtain rfl := markStaleList_nil st0 stEnd hok
    exact ⟨rfl, rfl⟩
  | cons h rest ih =>
    rcases markStaleList_ok_cons st0 h rest stEnd hok with ⟨ab, _, _, hrest⟩
    have hidh : id ≠ h := fun he => hid (he ▸ List.mem_cons_self _ _)
    have hidr : id ∉ rest := fun he => hid (List.mem_cons_of_mem _ he)
    rcases ih (markedStaleState st0 h ab) hrest hidr with ⟨hs, hn⟩
    exact ⟨hs.trans (markedStale_strip st0 h ab id hidh),
      hn.trans (markedStale_newStale_other st0 h ab id hidh)⟩

theorem markStaleList_facts (L : List Nat) (st0 stEnd : GraphState)
    (hnd : L.Nodup) (hok : markStaleList st0 L = .ok stEnd) :
    ∀ b ∈ L, ∃ ab,
      alistLookup st0.block_statuses b = some (.active ab) ∧
      ab.is_final = false ∧
      (∃ seq, alistLookup stEnd.block_statuses b =
        some (.discarded ab.slot .stale seq)) ∧
      alistLookup stEnd.gi_head b = none ∧
      (∀ y ∈ (alistLookup st0.gi_head b).getD [],
        ∀ l, alistLookup stEnd.gi_head y = some l → b ∉ l) ∧
      (∀ c ∈ stEnd.max_cliques, b ∉ c) ∧
      (∀ p ∈ ab.parents.map (fun q => q.1), ∀ ab2,
        alistLookup stEnd.block_statuses p = some (.active ab2) →
        ∀ e ∈ ab2.children.getD ab.slot.thread [], ¬ e.1 = b) ∧
      alistLookup stEnd.new_stale_blocks b = some ab.slot := by
  induction L generalizing st0 with
  | nil => intro b hb; cases hb
  | cons h rest ih =>
    have hh : h ∉ rest := (List.nodup_cons.mp hnd).1
    have hndr : rest.Nodup := (List.nodup_cons.mp hnd).2
    rcases markStaleList_ok_cons st0 h rest stEnd hok with
      ⟨ab, hlook, hfin, hrest⟩
    set st1 := markedStaleState st0 h ab with hst1
    rcases markStaleList_pres rest st1 stEnd hrest with ⟨p1, p2, p3, p4⟩
    have hginoneh : alistLookup stEnd.gi_head h = none :=
      p1 h (markedStale_gi_self st0 h ab)
    intro b hb
    rcases List.mem_cons.mp hb with hbh | hbr
    · subst hbh
      refine ⟨ab, hlook, hfin, ?_, hginoneh, ?_, ?_, ?_, ?_⟩
      · rcases markStaleList_strip rest st1 stEnd hrest b hh with ⟨hs, _⟩
        rw [markedStale_statuses_self st0 b ab] at hs
        simp only [Option.map_some', stripChildren] at hs
        rcases he : alistLookup stEnd.block_statuses b with _ | v <;>
          rw [he] at hs
        · cases hs
        · simp only [Option.map_some', Option.some.injEq] at hs
          exact ⟨st0.sequence_counter, by
            rw [strip_eq_discarded v ab.slot .stale st0.sequence_counter hs]⟩
      · intro y hy l hl
        exact p2 b y (markedStale_gi_partners st0 b ab y hy) l hl
      · exact p3 b (markedStale_cliques_self st0 b ab)
      · exact p4 b ab.slot.thread (ab.parents.map (fun q => q.1))
          (fun p hp ab2 hl => markedStale_childAbsent st0 b ab p hp ab2 hl)
      · rcases markStaleList_strip rest st1 stEnd hrest b hh with ⟨_, hn⟩
        rw [hn, markedStale_newStale_self st0 b ab]
    · have hbnh : b ≠ h := fun he => hh (he ▸ hbr)
      rcases ih st1 hndr hrest b hbr with
        ⟨ab1, hlook1, hfin1, hdisc1, hginone1, hgipart1, hcl1, hchild1, hns1⟩
      have hstrip := markedStale_strip st0 h ab b hbnh
      rw [hlook1] at hstrip
      simp only [Option.map_some', stripChildren] at hstrip
      rcases he : alistLookup st0.block_statuses b with _ | v <;>
        rw [he] at hstrip
      · cases hstrip
      · simp only [Option.map_some', Option.some.injEq] at hstrip
        rcases strip_eq_active v _ hstrip.symm with
          ⟨ab0, hv, hslot, hfin0, hpar0, _⟩
        have hslot' : ab0.slot = ab1.slot := hslot
        have hfin0' : ab0.is_final = false := by
          rw [hfin0]
          exact hfin1
        have hpar0' : ab0.parents = ab1.parents := hpar0
        refine ⟨ab0, by rw [hv], hfin0', ?_, hginone1, ?_, hcl1, ?_, ?_⟩
        · rcases hdisc1 with ⟨seq, hd⟩
          exact ⟨seq, by rw [hd, hslot']⟩
        · intro y hy l hl
          rcases markedStale_gi_shrink st0 h ab b hbnh y hy with hy1 | hyh
          · exact hgipart1 y hy1 l hl
          · subst hyh
            rw [hginoneh] at hl
            cases hl
        · intro p hp ab2 hl e hem
          rw [hpar0'] at hp
          rw [hslot'] at hem
          exact hchild1 p hp ab2 hl e hem
        · rw [hns1, hslot']

theorem mem_foldl_unionIf (g : Nat → List Nat) (P : Nat → Prop)
    [DecidablePred P] (idxs : List Nat) (init : List Nat) (b : Nat) :
    b ∈ idxs.foldl (fun acc i => if P i then acc ++ g i else acc) init ↔
      b ∈ init ∨ ∃ i ∈ idxs, P i ∧ b ∈ g i := by
  induction idxs generalizing init with
  | nil => simp
  | cons j t ih =>
    show b ∈ t.foldl _ (if P j then init ++ g j else init) ↔ _
    rw [ih]
    by_cases hpj : P j
    · simp only [hpj, if_true, List.mem_append, List.mem_cons]
      constructor
      · rintro ((h | h) | ⟨i, hi, hp, hb⟩)
        · exact Or.inl h
        · exact Or.inr ⟨j, Or.inl rfl, hpj, h⟩
        · exact Or.inr ⟨i, Or.inr hi, hp, hb⟩
      · rintro (h | ⟨i, (rfl | hi), hp, hb⟩)
        · exact Or.inl (Or.inl h)
        · exact Or.inl (Or.inr hb)
        · exact Or.inr ⟨i, hi, hp, hb⟩
    · simp only [hpj, if_false, List.mem_cons]
      constructor
      · rintro (h | ⟨i, hi, hp, hb⟩)
        · exact Or.inl h
        · exact Or.inr ⟨i, Or.inr hi, hp, hb⟩
      · rintro (h | ⟨i, (rfl | hi), hp, hb⟩)
        · exact Or.inl h
        · exact absurd hp hpj
        · exact Or.inr ⟨i, hi, hp, hb⟩

theorem mem_foldl_unionElse (g : Nat → List Nat) (P : Nat → Prop)
    [DecidablePred P] (idxs : List Nat) (init : List Nat) (b : Nat) :
    b ∈ idxs.foldl (fun acc i => if P i then acc else acc ++ g i) init ↔
      b ∈ init ∨ ∃ i ∈ idxs, ¬ P i ∧ b ∈ g i := by
  induction idxs generalizing init with
  | nil => simp
  | cons j t ih =>
    show b ∈ t.foldl _ (if P j then init else init ++ g j) ↔ _
    rw [ih]
    by_cases hpj : P j
    · simp only [hpj, if_true, List.mem_cons]
      constructor
      · rintro (h | ⟨i, hi, hp, hb⟩)
        · exact Or.inl h
        · exact Or.inr ⟨i, Or.inr hi, hp, hb⟩
      · rintro (h | ⟨i, (rfl | hi), hp, hb⟩)
        · exact Or.inl h
        · exact absurd hpj hp
        · exact Or.inr ⟨i, hi, hp, hb⟩
    · simp only [hpj, if_false, List.mem_append, List.mem_cons]
      constructor
      · rintro ((h | h) | ⟨i, hi, hp, hb⟩)
        · exact Or.inl h
        · exact Or.inr ⟨j, Or.inl rfl, hpj, h⟩
        · exact Or.inr ⟨i, Or.inr hi, hp, hb⟩
      · rintro (h | ⟨i, (rfl | hi), hp, hb⟩)
        · exact Or.inl (Or.inl h)
        · exact Or.inl (Or.inr hb)
        · exact Or.inr ⟨i, hi, hp, hb⟩

theorem listStaleBlocks_mem (mc : List (List Nat)) (fit : List Nat)
    (bc d b : Nat) :
    b ∈ (listStaleBlocks mc fit bc d).1 ↔
      ((∃ i < mc.length, fit.getD i 0 < fit.getD bc 0 - d ∧
          b ∈ mc.getD i []) ∧
       ¬ ∃ i < mc.length, fit.getD bc 0 - d ≤ fit.getD i 0 ∧
          b ∈ mc.getD i []) := by
  unfold listStaleBlocks
  simp only [List.mem_dedup, List.mem_filter]
  rw [mem_foldl_unionElse (fun i => mc.getD i [])
      (fun i => fit.getD bc 0 - d ≤ fit.getD i 0)]
  constructor
  · rintro ⟨hlow, hhigh⟩
    rcases hlow with h | ⟨i, hi, hp, hb⟩
    · cases h
    · refine ⟨⟨i, ?_, by omega, hb⟩, ?_⟩
      · rw [← List.mem_range]
        exact (mem_sortListBy _ _ _).mp hi
      · rintro ⟨i2, hi2, hp2, hb2⟩
        have hmem : b ∈ (sortListBy
            (fun i j => decide ((mc.getD j []).length ≤ (mc.getD i []).length))
            (List.range mc.length)).foldl
            (fun acc i => if fit.getD bc 0 - d ≤ fit.getD i 0
              then acc ++ mc.getD i [] else acc) [] := by
          rw [mem_foldl_unionIf (fun i => mc.getD i [])
            (fun i => fit.getD bc 0 - d ≤ fit.getD i 0)]
          refine Or.inr ⟨i2, ?_, hp2, hb2⟩
          rw [mem_sortListBy, List.mem_range]
          exact hi2
        simp only [decide_eq_true_eq] at hhigh
        exact hhigh (List.elem_iff.mpr hmem)
  · rintro ⟨⟨i, hi, hp, hb⟩, hhigh⟩
    constructor
    · refine Or.inr ⟨i, ?_, by omega, hb⟩
      rw [mem_sortListBy, List.mem_range]
      exact hi
    · simp only [decide_eq_true_eq]
      intro hmem0
      have hmem := List.elem_iff.mp hmem0
      rw [mem_foldl_unionIf (fun i => mc.getD i [])
        (fun i => fit.getD bc 0 - d ≤ fit.getD i 0)] at hmem
      rcases hmem with h | ⟨i2, hi2, hp2, hb2⟩
      · cases h
      · refine hhigh ⟨i2, ?_, hp2, hb2⟩
        rw [← List.mem_range, ← mem_sortListBy
          (fun i j => decide ((mc.getD j []).length ≤ (mc.getD i []).length))]
        exact hi2

/-- C2: stale elimination in `add_block_to_graph`
(block_graph.rs lines 2941-3039).  When the stale-elimination phase succeeds:
(1) the demoted set is exactly the union of the members of cliques with
fitness strictly below `blockclique_fitness - delta_f0` minus the union of
the members of cliques at or above that threshold; (2) every demoted block
was a non-final active block and is re-inserted as `Discarded{Stale}`,
removed from `gi_head` in both directions (it is no longer a key, and it is
gone from the set of each of its former partners), removed from every
remaining clique, removed from its parents' children maps in its own
thread, and recorded in `new_stale_blocks`; (3) no other id is demoted
(statuses of other ids change at most in their children maps, and their
`new_stale_blocks` entries are untouched). -/
theorem c2_stale_elimination
    (deltaF0 blockcliqueI : Nat) (fitnesses : List Nat)
    (st st' : GraphState) (stale keptFit : List Nat)
    (hok : staleEliminate deltaF0 blockcliqueI fitnesses st =
      .ok (st', stale, keptFit)) :
    (∀ b, b ∈ stale ↔
      ((∃ i < st.max_cliques.length,
          fitnesses.getD i 0 <
            fitnesses.getD blockcliqueI 0 - deltaF0 ∧
          b ∈ st.max_cliques.getD i []) ∧
       ¬ ∃ i < st.max_cliques.length,
          fitnesses.getD blockcliqueI 0 - deltaF0 ≤ fitnesses.getD i 0 ∧
          b ∈ st.max_cliques.getD i [])) ∧
    (∀ b ∈ stale, ∃ ab,
      alistLookup st.block_statuses b = some (.active ab) ∧
      ab.is_final = false ∧
      (∃ seq, alistLookup st'.block_statuses b =
        some (.discarded ab.slot .stale seq)) ∧
      alistLookup st'.gi_head b = none ∧
      (∀ y ∈ (alistLookup st.gi_head b).getD [],
        ∀ l, alistLookup st'.gi_head y = some l → b ∉ l) ∧
      (∀ c ∈ st'.max_cliques, b ∉ c) ∧
      (∀ p ∈ ab.parents.map (fun q => q.1), ∀ ab2,
        alistLookup st'.block_statuses p = some (.active ab2) →
        ∀ e ∈ ab2.children.getD ab.slot.thread [], ¬ e.1 = b) ∧
      alistLookup st'.new_stale_blocks b = some ab.slot) ∧
    (∀ id, id ∉ stale →
      (alistLookup st'.block_statuses id).map stripChildren =
        (alistLookup st.block_statuses id).map stripChildren ∧
      alistLookup st'.new_stale_blocks id =
        alistLookup st.new_stale_blocks id) := by
  unfold staleEliminate at hok
  simp only [] at hok
  split at hok
  · cases hok
  · rename_i st2 heq
    have h3 := Except.ok.inj hok
    simp only [Prod.mk.injEq] at h3
    obtain ⟨h3a, h3b, _⟩ := h3
    subst h3a
    subst h3b
    have hnd : (listStaleBlocks st.max_cliques fitnesses blockcliqueI
        deltaF0).1.Nodup := by
      unfold listStaleBlocks
      exact List.nodup_dedup _
    refine ⟨?_, ?_, ?_⟩
    · intro b
      exact listStaleBlocks_mem st.max_cliques fitnesses blockcliqueI
        deltaF0 b
    · have hfacts := markStaleList_facts _ _ _ hnd heq
      exact hfacts
    · intro id hid
      have hs := markStaleList_strip _ _ _ heq id hid
      exact hs

/-- A five-block scenario exercising stale elimination: blocks 1 and 2 are
mutually incompatible tips of cliques `[1]` (fitness 2, the blockclique) and
`[2]` (fitness 1); with `delta_f0 = 0` the threshold is 2 and block 2's
clique is eliminated. -/
def c2St : GraphState :=
  { sequence_counter := 5
    block_statuses :=
      [(0, .active ⟨⟨0, 0⟩, [], [[(2, 1)]], [], [2], true, [[]]⟩),
       (1, .active ⟨⟨1, 0⟩, [(0, 0)], [[]], [0], [], false, [[]]⟩),
       (2, .active ⟨⟨1, 0⟩, [(0, 0)], [[]], [0], [], false, [[]]⟩)]
    latest_final_blocks_periods := [(0, 0)]
    best_parents := [1]
    gi_head := [(1, [2]), (2, [1])]
    max_cliques := [[1], [2]]
    new_final_blocks := []
    new_stale_blocks := [] }

/-- The state produced by `staleEliminate 0 0 [2, 1] c2St`. -/
def c2Post : GraphState :=
  { sequence_counter := 6
    block_statuses :=
      [(2, .discarded ⟨1, 0⟩ .stale 5),
       (0, .active ⟨⟨0, 0⟩, [], [[]], [], [2], true, [[]]⟩),
       (1, .active ⟨⟨1, 0⟩, [(0, 0)], [[]], [0], [], false, [[]]⟩)]
    latest_final_blocks_periods := [(0, 0)]
    best_parents := [1]
    gi_head := [(1, [])]
    max_cliques := [[1]]
    new_final_blocks := []
    new_stale_blocks := [(2, ⟨1, 0⟩)] }

/-- Witness for `c2_stale_elimination` at the concrete scenario. -/
theorem c2_stale_elimination_witness :
    alistLookup c2Post.gi_head 2 = none ∧
    alistLookup c2Post.new_stale_blocks 2 = some ⟨1, 0⟩ := by
  have h := c2_stale_elimination 0 0 [2, 1] c2St c2Post [2] [2] (by rfl)
  rcases h.2.1 2 (by decide) with ⟨ab, hab, _, _, hgi, _, _, _, hns⟩
  have h2 : some (BlockStatusE.active ab) =
      some (BlockStatusE.active
        (⟨⟨1, 0⟩, [(0, 0)], [[]], [0], [], false, [[]]⟩ : ActiveBlockE)) :=
    hab.symm.trans (by rfl)
  have habv := BlockStatusE.active.inj (Option.some.inj h2)
  rw [habv] at hns
  exact ⟨hgi, hns⟩

/-! ## Finalisation marking (block_graph.rs lines 3107-3158) -/

/-- Marking one block final (block_graph.rs lines 3112-3158): remove it from
`gi_head` in both directions and from all cliques (keeping at least one
clique), set `is_final`, and bump `latest_final_blocks_periods` in the
block's thread when the new period exceeds the stored one; a missing or
non-active status is a `ContainerInconsistency`. -/
def markOneFinal (st : GraphState) (final_block_hash : Nat) :
    Except String GraphState :=
  let partners := (alistLookup st.gi_head final_block_hash).getD []
  let gi1 := alistRemove st.gi_head final_block_hash
  let gi2 := alistUpdateMany gi1 partners (giTrim final_block_hash)
  let mc3 := staleCliques st.max_cliques final_block_hash
  match alistLookup st.block_statuses final_block_hash with
  | some (.active ab) =>
    let statuses2 := alistInsert st.block_statuses final_block_hash
      (.active { ab with is_final := true })
    let latest2 :=
      if (st.latest_final_blocks_periods.getD ab.slot.thread (0, 0)).2 <
          ab.slot.period
      then st.latest_final_blocks_periods.set ab.slot.thread
        (final_block_hash, ab.slot.period)
      else st.latest_final_blocks_periods
    .ok { st with
      gi_head := gi2
      max_cliques := mc3
      block_statuses := statuses2
      latest_final_blocks_periods := latest2
      new_final_blocks := st.new_final_blocks ++ [final_block_hash] }
  | _ => .error "final block missing"

/-- The finalisation loop over `final_blocks`
(block_graph.rs lines 3112-3158). -/
def markFinalList : GraphState → List Nat → Except String GraphState
  | st, [] => .ok st
  | st, h :: rest =>
    match markOneFinal st h with
    | .error e => .error e
    | .ok st' => markFinalList st' rest

theorem getD_set {α : Type} (l : List α) (i : Nat) (v : α) (t : Nat)
    (d : α) :
    (l.set i v).getD t d =
      if i = t ∧ i < l.length then v else l.getD t d := by
  induction l generalizing i t with
  | nil => cases i <;> cases t <;> simp
  | cons x xs ih =>
    cases i with
    | zero =>
      cases t with
      | zero => simp
      | succ m => simp
    | succ n =>
      cases t with
      | zero => simp
      | succ m =>
        rw [show (x :: xs).set (n + 1) v = x :: xs.set n v from rfl]
        show (xs.set n v).getD m d = _
        rw [ih n m]
        simp only [List.length_cons, List.getD_cons_succ]
        by_cases he : n = m ∧ n < xs.length
        · rw [if_pos he, if_pos (by omega)]
        · rw [if_neg he, if_neg (by omega)]

theorem markOneFinal_latest_mono (st st' : GraphState) (h : Nat)
    (hok : markOneFinal st h = .ok st') (t : Nat) :
    (st.latest_final_blocks_periods.getD t (0, 0)).2 ≤
      (st'.latest_final_blocks_periods.getD t (0, 0)).2 := by
  unfold markOneFinal at hok
  split at hok
  · rename_i ab heq
    have hst' := (Except.ok.inj hok).symm
    rw [hst']
    show (st.latest_final_blocks_periods.getD t (0, 0)).2 ≤
      ((if (st.latest_final_blocks_periods.getD ab.slot.thread (0, 0)).2 <
            ab.slot.period
        then st.latest_final_blocks_periods.set ab.slot.thread
          (h, ab.slot.period)
        else st.latest_final_blocks_periods).getD t (0, 0)).2
    by_cases hlt : (st.latest_final_blocks_periods.getD
        ab.slot.thread (0, 0)).2 < ab.slot.period
    · rw [if_pos hlt, getD_set]
      by_cases he : ab.slot.thread = t ∧
          ab.slot.thread < st.latest_final_blocks_periods.length
      · rw [if_pos he]
        have := he.1
        subst this
        omega
      · rw [if_neg he]
    · rw [if_neg hlt]
  · cases hok

/-- C9: across the finalisation loop — the only code writing
`latest_final_blocks_periods` reachable from `incoming_header`,
`incoming_block` or `slot_tick` (block_graph.rs lines 3143-3152; the only
other writers are the constructor and the bootstrap import) — each thread's
latest final period never decreases. -/
theorem c9_latest_final_monotonic (L : List Nat) (st st' : GraphState)
    (hok : markFinalList st L = .ok st') :
    ∀ t, (st.latest_final_blocks_periods.getD t (0, 0)).2 ≤
      (st'.latest_final_blocks_periods.getD t (0, 0)).2 := by
  induction L generalizing st with
  | nil =>
    have he : st = st' := by simpa [markFinalList] using hok
    rw [he]
    exact fun t => le_refl _
  | cons h rest ih =>
    intro t
    have hcons : markFinalList st (h :: rest) =
        match markOneFinal st h with
        | .error e => .error e
        | .ok st1 => markFinalList st1 rest := rfl
    rw [hcons] at hok
    rcases hone : markOneFinal st h with e | st1 <;> rw [hone] at hok
    · cases hok
    · exact le_trans (markOneFinal_latest_mono st st1 h hone t)
        (ih st1 hok t)

/-- Witness for `c9_latest_final_monotonic`: finalising block 1 (period 3,
thread 0) raises the latest final period of thread 0 from 1 to 3. -/
theorem c9_latest_final_monotonic_witness :
    (c2St.latest_final_blocks_periods.getD 0 (0, 0)).2 ≤
      ((((markFinalList c2St [1]).toOption.getD
        c2St).latest_final_blocks_periods.getD 0 (0, 0)).2) := by
  have hok : markFinalList c2St [1] =
      .ok ((markFinalList c2St [1]).toOption.getD c2St) := by rfl
  exact c9_latest_final_monotonic [1] c2St _ hok 0

/-! ## Header validation (block_graph.rs lines 1789-2083) -/

/-- `HeaderCheckOutcome` (the four-way validator result). -/
inductive HeaderCheckOutcome
  | proceed (parents_hash_period : List (Nat × Nat))
      (dependencies : List Nat) (incompatibilities : List Nat)
      (inherited_incompatibilities_count : Nat)
  | discard (reason : DiscardReason)
  | waitForSlot
  | waitForDependencies (missing : List Nat)
  deriving DecidableEq, Repr

/-- Result of `ProofOfStake::draw` as the graph sees it
(block_graph.rs lines 1837-1844): an address, `PosCycleUnavailable`, or a
fatal error.  (`Address::from_public_key(creator)` is embedded as the
identity: `BlockHeaderE.creator` stores the derived address.) -/
inductive DrawResult
  | addr (a : Nat)
  | cycleUnavailable
  | fatal
  deriving DecidableEq, Repr

/-- The configuration fields read by the embedded validator
(`ConsensusConfig`). -/
structure ConsensusCfg where
  thread_count : Nat
  future_block_processing_max_periods : Nat
  deriving DecidableEq, Repr

/-- Lexicographic strict order on slots (derived `Ord` on
`(period, thread)`). -/
def slotLt (x y : Slot) : Bool :=
  x.period < y.period || (x.period == y.period && x.thread < y.thread)

/-- `Some(slot) > current_slot` on `Option<Slot>` (`None < Some _`). -/
def optSlotGt (a : Slot) (cur : Option Slot) : Bool :=
  match cur with
  | none => true
  | some c => slotLt c a

/-- `HashSet`-style insertion into a duplicate-free list. -/
def setInsert (l : List Nat) (v : Nat) : List Nat :=
  if l.contains v then l else l ++ [v]

/-- `HashSet::extend` over a duplicate-free accumulator. -/
def setUnion (l xs : List Nat) : List Nat := xs.foldl setInsert l

/-- `get_active_block_and_descendants` (block_graph.rs lines 1770-1787):
collection of a block and all its children, transitively; a non-active
block is a `ContainerInconsistency`.  The `while` loop is embedded with
explicit fuel; the claims below never depend on the fuel value. -/
def gabdLoop (s : List (Nat × BlockStatusE)) :
    Nat → List Nat → List Nat → Except String (List Nat)
  | 0, _, _ => .error "out of fuel"
  | _ + 1, [], result => .ok result
  | fuel + 1, h :: to_visit, result =>
    if result.contains h then gabdLoop s fuel to_visit result
    else
      match getFullActiveBlock s h with
      | none => .error "inconsistency in descendants traversal"
      | some ab =>
        gabdLoop s fuel
          ((ab.children.map (fun tc => tc.map (fun c => c.1))).flatten ++
            to_visit)
          (result ++ [h])

/-- See `gabdLoop`. -/
def getActiveBlockAndDescendants (s : List (Nat × BlockStatusE))
    (fuel : Nat) (block_id : Nat) : Except String (List Nat) :=
  gabdLoop s fuel [block_id] []

/-- Step 6 of the header check (block_graph.rs lines 1862-1915): resolve
each parent in thread order, short-circuiting on a discarded parent, a
malformed parent slot, a non-mutually-compatible parent pair or a missing
genesis parent; otherwise accumulate `(id, period)` pairs, inherited
incompatibilities and missing dependencies. -/
def resolveParents (st : GraphState) (header : BlockHeaderE)
    (parent_set : List Nat) :
    List Nat → List (Nat × Nat) → List Nat → List Nat →
    (HeaderCheckOutcome ⊕ (List (Nat × Nat) × List Nat × List Nat))
  | [], parents, incomp, missing => .inr (parents, incomp, missing)
  | parent_thread :: rest, parents, incomp, missing =>
    let parent_hash := header.parents.getD parent_thread 0
    match alistLookup st.block_statuses parent_hash with
    | some (.discarded _ reason _) =>
      .inl (.discard (match reason with
        | .invalid r => .invalid
            ("discarded because a parent was discarded for the following reason: "
              ++ r)
        | r => r))
    | some (.active parent) =>
      if parent.slot.thread ≠ parent_thread ∨
          ¬ slotLt parent.slot header.slot then
        .inl (.discard (.invalid "Bad parent thread or slot"))
      else
        match alistLookup st.gi_head parent_hash with
        | some p_incomp =>
          if ¬ (p_incomp.filter (fun v => parent_set.contains v)).isEmpty then
            .inl (.discard (.invalid "Parent not mutually compatible"))
          else
            resolveParents st header parent_set rest
              (parents ++ [(parent_hash, parent.slot.period)])
              (setUnion incomp p_incomp) missing
        | none =>
          resolveParents st header parent_set rest
            (parents ++ [(parent_hash, parent.slot.period)]) incomp missing
    | _ =>
      if st.genesis_hashes.contains parent_hash then
        .inl (.discard .stale)
      else
        resolveParents st header parent_set rest parents incomp
          (setInsert missing parent_hash)

/-- Inner loop of the parent topology check
(block_graph.rs lines 1944-1977): for each other thread, resolve the
grandparent, propagate a discarded grandparent's reason, track the maximum
observed period per thread, and reject a backward reference from a later
parent. -/
def gpLoopInner (st : GraphState) (parent : ActiveBlockE) (parent_i : Nat) :
    List Nat → List Nat → List Nat → List Nat →
    (HeaderCheckOutcome ⊕ (List Nat × List Nat × List Nat))
  | [], gp_max, deps, missing => .inr (gp_max, deps, missing)
  | gp_i :: rest, gp_max, deps, missing =>
    if gp_i = parent_i then
      gpLoopInner st parent parent_i rest gp_max deps missing
    else
      let gp_h := (parent.parents.getD gp_i (0, 0)).1
      let deps2 := setInsert deps gp_h
      match alistLookup st.block_statuses gp_h with
      | some (.discarded _ reason _) => .inl (.discard reason)
      | some (.active gp) =>
        if gp_max.getD gp_i 0 < gp.slot.period then
          if gp_i < parent_i then
            .inl (.discard (.invalid "grandpa error: gp_i < parent_i"))
          else
            gpLoopInner st parent parent_i rest
              (gp_max.set gp_i gp.slot.period) deps2 missing
        else gpLoopInner st parent parent_i rest gp_max deps2 missing
      | _ =>
        if st.genesis_hashes.contains gp_h then .inl (.discard .stale)
        else
          gpLoopInner st parent parent_i rest gp_max deps2
            (setInsert missing gp_h)

/-- Outer loop of the parent topology check
(block_graph.rs lines 1921-1982), over the parent threads. -/
def gpLoopOuter (st : GraphState) (parents : List (Nat × Nat)) (T : Nat) :
    List Nat → List Nat → List Nat → List Nat →
    Except String (HeaderCheckOutcome ⊕ (List Nat × List Nat))
  | [], _, deps, missing => .ok (.inr (deps, missing))
  | parent_i :: rest, gp_max, deps, missing =>
    let pp := parents.getD parent_i (0, 0)
    match getFullActiveBlock st.block_statuses pp.1 with
    | none => .error "inconsistency searching parent"
    | some parent =>
      if pp.2 < gp_max.getD parent_i 0 then
        .ok (.inl (.discard (.invalid
          "a parent is earlier than a block known by another parent in that thread")))
      else
        let gp_max1 := gp_max.set parent_i pp.2
        if pp.2 = 0 then gpLoopOuter st parents T rest gp_max1 deps missing
        else
          match gpLoopInner st parent parent_i (List.range T) gp_max1 deps
              missing with
          | .inl out => .ok (.inl out)
          | .inr (gp_max2, deps2, missing2) =>
            gpLoopOuter st parents T rest gp_max2 deps2 missing2

/-- Thread-incompatibility accumulation (block_graph.rs lines 1996-2003):
the block is incompatible with every other child of its own-thread parent in
its thread, and with their descendants. -/
def threadIncompLoop (st : GraphState) (fuel : Nat) (block_id : Nat) :
    List Nat → List Nat → Except String (List Nat)
  | [], incomp => .ok incomp
  | sib :: rest, incomp =>
    if sib = block_id then threadIncompLoop st fuel block_id rest incomp
    else
      match getActiveBlockAndDescendants st.block_statuses fuel sib with
      | .error e => .error e
      | .ok ds => threadIncompLoop st fuel block_id rest (setUnion incomp ds)

/-- Grandpa-incompatibility exploration for one thread `tau`
(block_graph.rs lines 2009-2046): descendants of the parent-in-`tau` are
traversed; from generation 2 onward, a descendant whose own-thread parent is
older than the block's own-thread parent is flagged together with its
descendants, and flagged subtrees are not traversed further.
(`cur_b.block.header.content.parents[thread]` coincides with
`cur_b.parents[thread].0` for the non-genesis blocks reached at
generation 2.) -/
def gpiExplore (st : GraphState) (tau ownPeriod slotThread : Nat) :
    Nat → List (Nat × Nat) → List Nat → Except String (List Nat)
  | 0, _, _ => .error "out of fuel"
  | _ + 1, [], incomp => .ok incomp
  | fuel + 1, (cur_gen, cur_h) :: stack, incomp =>
    match getFullActiveBlock st.block_statuses cur_h with
    | none => .error "inconsistency in gpi traversal"
    | some cur_b =>
      if cur_gen ≤ 1 then
        gpiExplore st tau ownPeriod slotThread fuel
          (((cur_b.children.getD tau []).map
            (fun c => (cur_gen + 1, c.1))) ++ stack) incomp
      else
        match getFullActiveBlock st.block_statuses
            (cur_b.parents.getD slotThread (0, 0)).1 with
        | none => .error "inconsistency in gpi parent lookup"
        | some gp_own =>
          if gp_own.slot.period < ownPeriod then
            match getActiveBlockAndDescendants st.block_statuses fuel
                cur_h with
            | .error e => .error e
            | .ok ds =>
              gpiExplore st tau ownPeriod slotThread fuel stack
                (setUnion incomp ds)
          else gpiExplore st tau ownPeriod slotThread fuel stack incomp

/-- The grandpa-incompatibility test over all other threads
(block_graph.rs lines 2006-2047). -/
def gpiAll (st : GraphState) (fuel : Nat) (header : BlockHeaderE)
    (ownPeriod : Nat) :
    List Nat → List Nat → Except String (List Nat)
  | [], incomp => .ok incomp
  | tau :: rest, incomp =>
    if tau = header.slot.thread then
      gpiAll st fuel header ownPeriod rest incomp
    else
      match gpiExplore st tau ownPeriod header.slot.thread fuel
          [(0, header.parents.getD tau 0)] incomp with
      | .error e => .error e
      | .ok incomp2 => gpiAll st fuel header ownPeriod rest incomp2

/-- `check_header` (block_graph.rs lines 1789-2083), with the proof-of-stake
draw supplied as an oracle function and the graph-traversal loops given
ample fuel by the caller.  The steps, in source order: structural checks;
stale-versus-final; too-far-in-the-future (`WaitForSlot`); the draw (cycle
unavailable is `WaitForSlot`, a wrong creator is Invalid); the current-slot
gate; parent resolution; parent topology; thread incompatibility; grandpa
incompatibility; incompatibility-with-a-parent; incompatibility-with-a-
final-block. -/
def checkHeader (cfg : ConsensusCfg) (st : GraphState)
    (draw : Slot → DrawResult) (fuel : Nat) (current_slot : Option Slot)
    (block_id : Nat) (header : BlockHeaderE) :
    Except String HeaderCheckOutcome :=
  if header.parents.length ≠ cfg.thread_count ∨ header.slot.period = 0 ∨
      cfg.thread_count ≤ header.slot.thread then
    .ok (.discard (.invalid "Basic structural header checks failed"))
  else if header.slot.period ≤
      (st.latest_final_blocks_periods.getD header.slot.thread (0, 0)).2 then
    .ok (.discard .stale)
  else if (match current_slot with
      | some cur => decide (cur.period +
          cfg.future_block_processing_max_periods < header.slot.period)
      | none => false) then
    .ok .waitForSlot
  else
    match draw header.slot with
    | .cycleUnavailable => .ok .waitForSlot
    | .fatal => .error "pos draw error"
    | .addr slot_draw_address =>
      if header.creator ≠ slot_draw_address then
        .ok (.discard (.invalid "Bad creator turn for the slot"))
      else if optSlotGt header.slot current_slot then
        .ok .waitForSlot
      else
        let parent_set := header.parents.dedup
        match resolveParents st header parent_set
            (List.range cfg.thread_count) [] [] [] with
        | .inl out => .ok out
        | .inr (parents, incomp, missing) =>
          if ¬ missing.isEmpty then .ok (.waitForDependencies missing)
          else
            let inherited_incomp_count := incomp.length
            match gpLoopOuter st parents cfg.thread_count
                (List.range cfg.thread_count)
                (List.replicate cfg.thread_count 0) parent_set [] with
            | .error e => .error e
            | .ok (.inl out) => .ok out
            | .ok (.inr (deps1, missing1)) =>
              if ¬ missing1.isEmpty then .ok (.waitForDependencies missing1)
              else
                match getFullActiveBlock st.block_statuses
                    (parents.getD header.slot.thread (0, 0)).1 with
                | none => .error "inconsistency searching own-thread parent"
                | some parent_in_own_thread =>
                  match threadIncompLoop st fuel block_id
                      ((parent_in_own_thread.children.getD
                        header.slot.thread []).map (fun c => c.1))
                      incomp with
                  | .error e => .error e
                  | .ok incomp1 =>
                    match gpiAll st fuel header
                        parent_in_own_thread.slot.period
                        (List.range cfg.thread_count) incomp1 with
                    | .error e => .error e
                    | .ok incomp2 =>
                      if ¬ (incomp2.filter (fun v =>
                          (parents.map (fun p => p.1)).contains v)).isEmpty
                      then
                        .ok (.discard (.invalid
                          "Block incompatible with a parent"))
                      else if ¬ (incomp2.filter (fun v =>
                          match getFullActiveBlock st.block_statuses v with
                          | some a => a.is_final
                          | none => false)).isEmpty then
                        .ok (.discard .stale)
                      else
                        .ok (.proceed parents deps1 incomp2
                          inherited_incomp_count)

/-! ## Header admission: `process` on an incoming header
(block_graph.rs lines 1448-1539) and `promote_dep_tree` (3419-3454). -/

/-- Exploration phase of `promote_dep_tree` (block_graph.rs lines
3420-3438): collect the `WaitingForDependencies` closure of a block along
unsatisfied dependencies, with each block's `(slot, sequence_number)`. -/
def promoteExplore (s : List (Nat × BlockStatusE)) :
    Nat → List Nat → List (Nat × (Slot × Nat)) → List (Nat × (Slot × Nat))
  | 0, _, acc => acc
  | _ + 1, [], acc => acc
  | fuel + 1, h :: to_explore, acc =>
    if (alistLookup acc h).isSome then promoteExplore s fuel to_explore acc
    else
      match alistLookup s h with
      | some (.waitingForDependencies hob deps seq) =>
        promoteExplore s fuel (deps ++ to_explore)
          (acc ++ [(h, (hob.get_slot, seq))])
      | _ => promoteExplore s fuel to_explore acc

/-- Ordering of the promotion list `(slot, sequence_number, id)`
(derived lexicographic `Ord`, `sort_unstable`). -/
def promoteLe (x y : Slot × Nat × Nat) : Bool :=
  slotLt x.1 y.1 || (x.1 == y.1 &&
    (x.2.1 < y.2.1 || (x.2.1 == y.2.1 && x.2.2 ≤ y.2.2)))

/-- `promote_dep_tree` (block_graph.rs lines 3419-3454): re-number the
dependency closure of `hash` in `(slot, sequence)` order with fresh
sequence numbers. -/
def promoteDepTree (st : GraphState) (fuel : Nat) (hash : Nat) :
    GraphState :=
  let to_promote := promoteExplore st.block_statuses fuel [hash] []
  let sorted := sortListBy promoteLe
    (to_promote.map (fun p => (p.2.1, p.2.2, p.1)))
  sorted.foldl (fun st p =>
    match alistLookup st.block_statuses p.2.2 with
    | some (.waitingForDependencies hob deps _) =>
      { st with
        block_statuses := alistInsert st.block_statuses p.2.2
          (.waitingForDependencies hob deps st.sequence_counter)
        sequence_counter := st.sequence_counter + 1 }
    | _ => st) st

/-- The `Incoming(Header)` arm of `process` (block_graph.rs lines
1448-1539): remove the incoming header, run `check_header`, and store the
block under the status the outcome dictates (`Proceed` waits on itself;
`WaitForDependencies` adds itself to the missing set; `WaitForSlot` stores
`WaitingForSlot`; `Discard` stores `Discarded`, counting stale blocks). -/
def processIncomingHeader (cfg : ConsensusCfg) (draw : Slot → DrawResult)
    (fuel : Nat) (current_slot : Option Slot) (st : GraphState)
    (block_id : Nat) : Except String GraphState :=
  match alistLookup st.block_statuses block_id with
  | some (.incoming (.header header)) =>
    let st := { st with
      block_statuses := alistRemove st.block_statuses block_id }
    match checkHeader cfg st draw fuel current_slot block_id header with
    | .error e => .error e
    | .ok (.proceed _ _ _ _) =>
      let st1 := { st with
        block_statuses := alistInsert st.block_statuses block_id
          (.waitingForDependencies (.header header) [block_id]
            st.sequence_counter)
        sequence_counter := st.sequence_counter + 1 }
      .ok (promoteDepTree st1 fuel block_id)
    | .ok (.waitForDependencies deps) =>
      let st1 := { st with
        block_statuses := alistInsert st.block_statuses block_id
          (.waitingForDependencies (.header header)
            (setInsert deps block_id) st.sequence_counter)
        sequence_counter := st.sequence_counter + 1 }
      .ok (promoteDepTree st1 fuel block_id)
    | .ok .waitForSlot =>
      .ok { st with
        block_statuses := alistInsert st.block_statuses block_id
          (.waitingForSlot (.header header)) }
    | .ok (.discard reason) =>
      .ok { st with
        block_statuses := alistInsert st.block_statuses block_id
          (.discarded header.slot reason st.sequence_counter)
        sequence_counter := st.sequence_counter + 1
        new_stale_blocks :=
          if reason = .stale then
            alistInsert st.new_stale_blocks block_id header.slot
          else st.new_stale_blocks }
  | _ => .error "not an incoming header"

/-! ## C7: future-slot classification -/

/-- Concrete configuration for the C7 instances: 2 threads, at most 10
periods in the future. -/
def c7Cfg : ConsensusCfg := ⟨2, 10⟩

/-- A structurally invalid far-future header: an empty parent list. -/
def c7BadHeader : BlockHeaderE := ⟨⟨100, 0⟩, [], 7⟩

/-- A structurally well-formed far-future header. -/
def c7GoodHeader : BlockHeaderE := ⟨⟨100, 0⟩, [5, 6], 7⟩

/-- A graph state holding both far-future headers as incoming. -/
def c7St : GraphState :=
  { sequence_counter := 0
    block_statuses := [(99, .incoming (.header c7GoodHeader)),
      (98, .incoming (.header c7BadHeader))]
    latest_final_blocks_periods := [(0, 0), (1, 0)]
    best_parents := [0, 1]
    gi_head := []
    max_cliques := [[]]
    new_final_blocks := []
    new_stale_blocks := [] }

/-- **C7, counterexample to the claim as stated.**  A far-future header
(period 100, current period 0, allowance 10) that fails the structural
checks (no parents) is NOT classified `WaitForSlot`: the structural check
precedes the future-slot check, so `check_header` discards it as Invalid
and the pipeline stores it as `Discarded`, not `WaitingForSlot`. -/
theorem c7_future_slot_counterexample :
    (0 : Nat) + c7Cfg.future_block_processing_max_periods <
      c7BadHeader.slot.period ∧
    checkHeader c7Cfg c7St (fun _ => .addr 7) 32 (some ⟨0, 0⟩) 98
        c7BadHeader =
      .ok (.discard (.invalid "Basic structural header checks failed")) ∧
    checkHeader c7Cfg c7St (fun _ => .addr 7) 32 (some ⟨0, 0⟩) 98
        c7BadHeader ≠ .ok .waitForSlot ∧
    (processIncomingHeader c7Cfg (fun _ => .addr 7) 32 (some ⟨0, 0⟩)
        c7St 98).map (fun st => alistLookup st.block_statuses 98) =
      .ok (some (.discarded ⟨100, 0⟩
        (.invalid "Basic structural header checks failed") 0)) :=
 by
  have hEq : checkHeader c7Cfg c7St (fun _ => .addr 7) 32 (some ⟨0, 0⟩) 98
      c7BadHeader =
      .ok (.discard (.invalid "Basic structural header checks failed")) := rfl
  refine ⟨by decide, hEq, ?_, rfl⟩
  rw [hEq]
  simp

/-! ## C3: ledger at parents (block_graph.rs lines 2603-2723) -/

/-- `LedgerData` (ledger.rs lines 25-27): a single balance. -/
structure LedgerData where
  balance : Nat
  deriving DecidableEq, Repr

/-- `LedgerData::apply_change` (ledger.rs lines 61-76): checked add or
subtract of the delta. -/
def LedgerData.apply_change (d : LedgerData) (change : LedgerChange) :
    Except String LedgerData :=
  if change.balance_increment then
    match checkedAdd d.balance change.balance_delta with
    | some b => .ok ⟨b⟩
    | none => .error "balance overflow in apply_change"
  else
    match checkedSub d.balance change.balance_delta with
    | some b => .ok ⟨b⟩
    | none => .error "balance underflow in apply_change"

/-- `LedgerSubset::apply_change` (ledger.rs lines 695-716): apply to the
existing entry (removing it when the balance becomes zero), or to a
default zero entry (inserting it when nonzero). -/
def ledgerApplyChange (sub : List (Nat × LedgerData)) (addr : Nat)
    (change : LedgerChange) : Except String (List (Nat × LedgerData)) :=
  match alistLookup sub addr with
  | some d =>
    match d.apply_change change with
    | .error e => .error e
    | .ok d2 =>
      .ok (if d2.balance = 0 then alistRemove sub addr
        else alistInsert sub addr d2)
  | none =>
    match (LedgerData.mk 0).apply_change change with
    | .error e => .error e
    | .ok d2 =>
      .ok (if d2.balance = 0 then sub else alistInsert sub addr d2)

/-- The involved-thread precondition of `get_ledger_at_parents`
(block_graph.rs lines 2608-2632): only the threads of queried addresses
are checked — a parent in an uninvolved thread is never inspected here. -/
def involvedCheck (st : GraphState) (parents : List Nat) :
    List Nat → Except String Unit
  | [] => .ok ()
  | thread :: rest =>
    match alistLookup st.block_statuses (parents.getD thread 0) with
    | some (.active b) =>
      if b.slot.period <
          (st.latest_final_blocks_periods.getD thread (0, 0)).2 then
        .error "asking for operations in a thread for which the given parent is older than the latest final block of that thread"
      else involvedCheck st parents rest
    | _ => .error "parent block missing or in non-active state"

/-- Backtrack stop periods (block_graph.rs lines 2634-2656): per target
thread, the periods one past the latest final block's parents, with the
diagonal one past the latest final period itself. -/
def stopPeriodsLoop (st : GraphState) :
    List Nat → List (List Nat) → Except String (List (List Nat))
  | [], sp => .ok sp
  | target_thread :: rest, sp =>
    let tf := st.latest_final_blocks_periods.getD target_thread (0, 0)
    match alistLookup st.block_statuses tf.1 with
    | some (.active b) =>
      let row := if b.parents.isEmpty then sp.getD target_thread []
        else b.parents.map (fun p => p.2 + 1)
      stopPeriodsLoop st rest (sp.set target_thread (row.set target_thread
        (tf.2 + 1)))
    | _ => .error "last final block missing or in non-active state"

/-- Inner loop of the change accumulation (block_graph.rs lines
2693-2705): chain a scanned block's per-thread changes into the
accumulator, restricted to the queried addresses. -/
def accumAddrs (query_addrs : List Nat) :
    List (Nat × LedgerChange) → List (Nat × LedgerChange) →
    Except String (List (Nat × LedgerChange))
  | [], accThread => .ok accThread
  | (addr, changes) :: rest, accThread =>
    if ¬ query_addrs.contains addr then
      accumAddrs query_addrs rest accThread
    else
      match alistLookup accThread addr with
      | some occ =>
        match occ.chain changes with
        | none => .error "overflow chaining ledger changes"
        | some c =>
          accumAddrs query_addrs rest (alistInsert accThread addr c)
      | none => accumAddrs query_addrs rest (alistInsert accThread addr changes)

/-- Per-thread accumulation for one scanned block (block_graph.rs lines
2683-2706): threads whose stop period exceeds the block's period are
skipped; any accumulating thread marks the block's parents for
exploration. -/
def accumThreads (query_addrs : List Nat) (stop : List (List Nat))
    (scan_b : ActiveBlockE) :
    List Nat → Bool → List (List (Nat × LedgerChange)) →
    Except String (Bool × List (List (Nat × LedgerChange)))
  | [], explore, acc => .ok (explore, acc)
  | thread :: rest, explore, acc =>
    if scan_b.slot.period <
        ((stop.getD thread []).getD scan_b.slot.thread 0) then
      accumThreads query_addrs stop scan_b rest explore acc
    else
      match accumAddrs query_addrs
          (scan_b.block_ledger_change.getD thread [])
          (acc.getD thread []) with
      | .error e => .error e
      | .ok accT =>
        accumThreads query_addrs stop scan_b rest true (acc.set thread accT)

/-- Ancestry backtrack (block_graph.rs lines 2658-2712), the `Vec`
pop/extend stack embedded head-first with explicit fuel. -/
def backtrackLoop (st : GraphState) (query_addrs : List Nat)
    (stop : List (List Nat)) (T : Nat) :
    Nat → List Nat → List Nat → List (List (Nat × LedgerChange)) →
    Except String (List (List (Nat × LedgerChange)))
  | 0, _, _, _ => .error "out of fuel"
  | _ + 1, [], _, acc => .ok acc
  | fuel + 1, scan_id :: rest, ancestry, acc =>
    if ancestry.contains scan_id then
      backtrackLoop st query_addrs stop T fuel rest ancestry acc
    else
      match alistLookup st.block_statuses scan_id with
      | some (.active scan_b) =>
        match accumThreads query_addrs stop scan_b (List.range T) false
            acc with
        | .error e => .error e
        | .ok (explore, acc2) =>
          backtrackLoop st query_addrs stop T fuel
            (if explore then
              (scan_b.parents.map (fun p => p.1)).reverse ++ rest
            else rest)
            (ancestry ++ [scan_id]) acc2
      | _ => .error "missing or not active block during ancestry traversal"

/-- Final change application (block_graph.rs lines 2714-2720) for one
thread's accumulator. -/
def applyAccum : List (Nat × LedgerData) → List (Nat × LedgerChange) →
    Except String (List (Nat × LedgerData))
  | sub, [] => .ok sub
  | sub, (addr, change) :: rest =>
    match ledgerApplyChange sub addr change with
    | .error e => .error e
    | .ok sub2 => applyAccum sub2 rest

/-- `get_ledger_at_parents` (block_graph.rs lines 2603-2723).  The address
thread derivation (`Address::get_thread`, in the models crate, absent from
src/) and the final ledger (`Ledger::get_final_ledger_subset`, a database
read) are supplied as oracles `addrThread` and `finalBalance`;
`get_final_ledger_subset` yields one entry per queried address, defaulting
to a zero balance (ledger.rs lines 643-670). -/
def getLedgerAtParents (st : GraphState) (T fuel : Nat)
    (addrThread : Nat → Nat) (finalBalance : Nat → Nat)
    (parents : List Nat) (query_addrs : List Nat) :
    Except String (List (Nat × LedgerData)) :=
  let involved_threads := (query_addrs.map addrThread).dedup
  match involvedCheck st parents involved_threads with
  | .error e => .error e
  | .ok () =>
    match stopPeriodsLoop st (List.range T)
        (List.replicate T (List.replicate T 0)) with
    | .error e => .error e
    | .ok stop =>
      match backtrackLoop st query_addrs stop T fuel parents.reverse []
          (List.replicate T []) with
      | .error e => .error e
      | .ok acc =>
        let sub0 := query_addrs.map
          (fun a => (a, LedgerData.mk (finalBalance a)))
        (List.range T).foldl (fun res thread =>
          match res with
          | .error e => .error e
          | .ok sub => applyAccum sub (acc.getD thread [])) (.ok sub0)

/-- If some involved thread `t` has an active parent older than that
thread's latest final period, the involved-thread check fails (with this
or an earlier thread's error). -/
theorem involvedCheck_error (st : GraphState) (parents : List Nat)
    (l : List Nat) (t : Nat) (b : ActiveBlockE)
    (ht : t ∈ l)
    (hb : alistLookup st.block_statuses (parents.getD t 0) =
      some (.active b))
    (hold : b.slot.period <
      (st.latest_final_blocks_periods.getD t (0, 0)).2) :
    ∃ msg, involvedCheck st parents l = .error msg := by
  induction l with
  | nil => cases ht
  | cons h rest ih =>
    by_cases hht : h = t
    · subst hht
      refine ⟨"asking for operations in a thread for which the given parent is older than the latest final block of that thread", ?_⟩
      unfold involvedCheck
      rw [hb]
      simp only []
      rw [if_pos hold]
    · have hr : t ∈ rest := by
        rcases List.mem_cons.mp ht with he | hr
        · exact absurd he.symm hht
        · exact hr
      unfold involvedCheck
      split
      · split
        · exact ⟨_, rfl⟩
        · exact ih hr
      · exact ⟨_, rfl⟩

/-- **C3** (amended).  `get_ledger_at_parents` returns an error whenever
some queried address belongs to a thread `t` whose supplied parent is an
active block older than that thread's latest final period.  The original
claim's "regardless of which addresses are queried" is dropped: the check
only covers the threads of the queried addresses
(`c3_ledger_parent_check_counterexample`). -/
theorem c3_ledger_parent_check (st : GraphState) (T fuel : Nat)
    (addrThread finalBalance : Nat → Nat)
    (parents query_addrs : List Nat) (a t : Nat) (b : ActiveBlockE)
    (ha : a ∈ query_addrs) (hat : addrThread a = t)
    (hb : alistLookup st.block_statuses (parents.getD t 0) =
      some (.active b))
    (hold : b.slot.period <
      (st.latest_final_blocks_periods.getD t (0, 0)).2) :
    ∃ msg, getLedgerAtParents st T fuel addrThread finalBalance parents
        query_addrs = .error msg := by
  have ht : t ∈ (query_addrs.map addrThread).dedup := by
    rw [List.mem_dedup]
    exact hat ▸ List.mem_map_of_mem addrThread ha
  rcases involvedCheck_error st parents _ t b ht hb hold with ⟨msg, hmsg⟩
  refine ⟨msg, ?_⟩
  unfold getLedgerAtParents
  simp only []
  rw [hmsg]

/-- Active non-final block in thread 1 at period 1, older than thread 1's
latest final period 2. -/
def c3Block11 : ActiveBlockE :=
  ⟨⟨1, 1⟩, [(1, 0), (2, 0)], [[], []], [], [], false, [[], []]⟩

/-- Active block in thread 0 at period 5. -/
def c3Block10 : ActiveBlockE :=
  ⟨⟨5, 0⟩, [(1, 2), (2, 2)], [[], []], [], [], false, [[], []]⟩

/-- Latest final block of thread 0 (period 2, no parents). -/
def c3Final1 : ActiveBlockE :=
  ⟨⟨2, 0⟩, [], [[], []], [], [], true, [[], []]⟩

/-- Latest final block of thread 1 (period 2, no parents). -/
def c3Final2 : ActiveBlockE :=
  ⟨⟨2, 1⟩, [], [[], []], [], [], true, [[], []]⟩

/-- State for the C3 instances: latest finals at period 2 in both
threads; candidate parents 10 (thread 0, period 5) and 11 (thread 1,
period 1 — older than thread 1's latest final). -/
def c3St : GraphState :=
  { sequence_counter := 0
    block_statuses := [(1, .active c3Final1), (2, .active c3Final2),
      (10, .active c3Block10), (11, .active c3Block11)]
    latest_final_blocks_periods := [(1, 2), (2, 2)]
    best_parents := [10, 11]
    gi_head := []
    max_cliques := [[]]
    new_final_blocks := []
    new_stale_blocks := [] }

/-- **C3, counterexample to the claim as stated.**  In `c3St` the thread-1
parent (block 11, period 1) is strictly older than thread 1's latest final
period 2, yet querying only a thread-0 address succeeds: the parent check
only covers the threads of the queried addresses, so the call does not
return an error "regardless of which addresses are queried". -/
theorem c3_ledger_parent_check_counterexample :
    alistLookup c3St.block_statuses ([10, 11].getD 1 0) =
      some (.active c3Block11) ∧
    c3Block11.slot.period <
      (c3St.latest_final_blocks_periods.getD 1 (0, 0)).2 ∧
    getLedgerAtParents c3St 2 20 (fun _ => 0) (fun _ => 7) [10, 11]
        [100] = .ok [(100, ⟨7⟩)] :=
  ⟨rfl, by decide, rfl⟩

/-- Witness for `c3_ledger_parent_check`: querying a thread-1 address in
`c3St` hits the old thread-1 parent and errors. -/
theorem c3_ledger_parent_check_witness :
    ∃ msg, getLedgerAtParents c3St 2 20 (fun _ => 1) (fun _ => 7)
        [10, 11] [200] = .error msg :=
  c3_ledger_parent_check c3St 2 20 (fun _ => 1) (fun _ => 7) [10, 11]
    [200] 200 1 c3Block11 (by decide) rfl rfl (by decide)

/-! ## C10: pruning of dependency waiters
(block_graph.rs lines 3456-3603 and 1286-1325) -/

/-- Worst discard reason among already-discarded dependencies
(block_graph.rs lines 3470-3486): an Invalid dependency short-circuits;
Stale and Final both map to Stale. -/
def worstDiscardedDepReason (s : List (Nat × BlockStatusE)) :
    List Nat → Option DiscardReason → Bool → (Option DiscardReason × Bool)
  | [], acc, found => (acc, found)
  | dep :: rest, acc, found =>
    match alistLookup s dep with
    | some (.discarded _ reason _) =>
      match reason with
      | .invalid r =>
        (some (.invalid
          ("discarded because depend on a block with discard reason:" ++ r)),
          true)
      | _ => worstDiscardedDepReason s rest (some .stale) true
    | _ => worstDiscardedDepReason s rest acc found

/-- First pass of `prune_waiting_for_dependencies`
(block_graph.rs lines 3461-3503): split the dependency waiters into
`to_discard` (discarded dependency, or at or below the thread's latest
final period) and `to_keep`. -/
def pwdClassify (st : GraphState) :
    List (Nat × BlockStatusE) →
    List (Nat × Option DiscardReason) → List (Nat × (Nat × Slot)) →
    (List (Nat × Option DiscardReason) × List (Nat × (Nat × Slot)))
  | [], to_discard, to_keep => (to_discard, to_keep)
  | (hash, status) :: rest, to_discard, to_keep =>
    match status with
    | .waitingForDependencies hob deps seq =>
      let rf := worstDiscardedDepReason st.block_statuses deps none false
      if rf.2 then
        pwdClassify st rest (alistInsert to_discard hash rf.1) to_keep
      else if hob.get_slot.period ≤
          (st.latest_final_blocks_periods.getD hob.get_slot.thread
            (0, 0)).2 then
        pwdClassify st rest (alistInsert to_discard hash (some .stale))
          to_keep
      else
        pwdClassify st rest to_discard
          (alistInsert to_keep hash (seq, hob.get_slot))
    | _ => pwdClassify st rest to_discard to_keep

/-- Worst pending reason among dependencies already in `to_discard`
(block_graph.rs lines 3515-3534): a `None` verdict is propagated as
`None`. -/
def pwdDepReason (to_discard : List (Nat × Option DiscardReason)) :
    List Nat → Option DiscardReason → Bool → (Option DiscardReason × Bool)
  | [], acc, found => (acc, found)
  | dep :: rest, acc, found =>
    match alistLookup to_discard dep with
    | some (some (.invalid r)) =>
      (some (.invalid
        ("discarded because depend on a block with discard reason:" ++ r)),
        true)
    | some (some _) => pwdDepReason to_discard rest (some .stale) true
    | some none => pwdDepReason to_discard rest acc true
    | none => pwdDepReason to_discard rest acc found

/-- The in-chain discard pass over a snapshot of `to_keep`
(block_graph.rs lines 3508-3541). -/
def pwdChainPass (s : List (Nat × BlockStatusE)) :
    List Nat →
    (List (Nat × Option DiscardReason) × List (Nat × (Nat × Slot))) →
    (List (Nat × Option DiscardReason) × List (Nat × (Nat × Slot)))
  | [], td_tk => td_tk
  | hash :: rest, (to_discard, to_keep) =>
    match alistLookup s hash with
    | some (.waitingForDependencies _ deps _) =>
      let rf := pwdDepReason to_discard deps none false
      if rf.2 then
        pwdChainPass s rest
          (alistInsert to_discard hash rf.1, alistRemove to_keep hash)
      else pwdChainPass s rest (to_discard, to_keep)
    | _ => pwdChainPass s rest (to_discard, to_keep)

/-- The `(sequence_number, slot, hash)` triples eligible for the size
drop (block_graph.rs lines 3545-3558). -/
def pwdRemoveCandidates (s : List (Nat × BlockStatusE))
    (to_keep : List (Nat × (Nat × Slot))) : List (Nat × Slot × Nat) :=
  to_keep.filterMap (fun p =>
    match alistLookup s p.1 with
    | some (.waitingForDependencies hob _ seq) =>
      some (seq, hob.get_slot, p.1)
    | _ => none)

/-- Lexicographic order on `(sequence_number, slot, hash)` (derived
`Ord`, used by `.min()`). -/
def pwdMinLe (x y : Nat × Slot × Nat) : Bool :=
  x.1 < y.1 || (x.1 == y.1 &&
    (slotLt x.2.1 y.2.1 || (x.2.1 == y.2.1 && x.2.2 ≤ y.2.2)))

/-- `Iterator::min` as the head of an insertion sort. -/
def listMinBy {α : Type} (le : α → α → Bool) (l : List α) : Option α :=
  (sortListBy le l).head?

/-- The discard-or-size `while` loop of `prune_waiting_for_dependencies`
(block_graph.rs lines 3506-3568), with explicit fuel: run the chain pass,
then drop the minimal `(sequence, slot, hash)` waiter with a `None`
verdict while the kept count exceeds `max_dependency_blocks`. -/
def pwdLoop (st : GraphState) (max_dependency_blocks : Nat) :
    Nat → List (Nat × Option DiscardReason) → List (Nat × (Nat × Slot)) →
    List (Nat × Option DiscardReason)
  | 0, to_discard, _ => to_discard
  | fuel + 1, to_discard, to_keep =>
    if to_keep.isEmpty then to_discard
    else
      let td_tk := pwdChainPass st.block_statuses
        (to_keep.map (fun p => p.1)) (to_discard, to_keep)
      if max_dependency_blocks < td_tk.2.length then
        match listMinBy pwdMinLe
            (pwdRemoveCandidates st.block_statuses td_tk.2) with
        | some m =>
          pwdLoop st max_dependency_blocks fuel
            (alistInsert td_tk.1 m.2.2 none) (alistRemove td_tk.2 m.2.2)
        | none => td_tk.1
      else td_tk.1

/-- The final transition pass (block_graph.rs lines 3571-3600): every
verdict removes the waiter from `block_statuses`; only a `Some` reason
re-inserts it as `Discarded` (counting stale blocks); a `None` verdict
just drops it. -/
def pwdFinalize : GraphState → List (Nat × Option DiscardReason) →
    GraphState
  | st, [] => st
  | st, (hash, reason_opt) :: rest =>
    match alistLookup st.block_statuses hash with
    | some (.waitingForDependencies hob _ _) =>
      let st1 := { st with
        block_statuses := alistRemove st.block_statuses hash }
      match reason_opt with
      | some reason =>
        pwdFinalize { st1 with
          block_statuses := alistInsert st1.block_statuses hash
            (.discarded hob.get_slot reason st1.sequence_counter)
          sequence_counter := st1.sequence_counter + 1
          new_stale_blocks :=
            if reason = .stale then
              alistInsert st1.new_stale_blocks hash hob.get_slot
            else st1.new_stale_blocks } rest
      | none => pwdFinalize st1 rest
    | _ => pwdFinalize st rest

/-- The discard verdicts computed by `prune_waiting_for_dependencies`
before the transition pass. -/
def pwdDecisions (st : GraphState) (max_dependency_blocks fuel : Nat) :
    List (Nat × Option DiscardReason) :=
  let ctk := pwdClassify st st.block_statuses [] []
  pwdLoop st max_dependency_blocks fuel ctk.1 ctk.2

/-- `prune_waiting_for_dependencies` (block_graph.rs lines 3456-3603). -/
def pruneWaitingForDependencies (st : GraphState)
    (max_dependency_blocks fuel : Nat) : GraphState :=
  pwdFinalize st (pwdDecisions st max_dependency_blocks fuel)

/-- The status-map entry logic of `incoming_header`
(block_graph.rs lines 1286-1325): a non-genesis hash with no entry is
inserted as `Incoming(Header)` and acknowledged for processing (the
returned flag); a `Discarded` entry is re-sequenced; a dependency waiter
is promoted. -/
def incomingHeaderEntry (st : GraphState) (fuel hash : Nat)
    (header : BlockHeaderE) : GraphState × Bool :=
  if st.genesis_hashes.contains hash then (st, false)
  else
    match alistLookup st.block_statuses hash with
    | none =>
      ({ st with block_statuses := alistInsert st.block_statuses hash (.incoming (.header header)) }, true)
    | some (.discarded slot reason _) =>
      ({ st with
        block_statuses := alistInsert st.block_statuses hash
          (.discarded slot reason st.sequence_counter)
        sequence_counter := st.sequence_counter + 1 }, false)
    | some (.waitingForDependencies _ _ _) =>
      (promoteDepTree st fuel hash, false)
    | some _ => (st, false)

/-- A verdict list entirely avoiding a block id leaves that id's status,
its stale record and the genesis list untouched in the transition pass. -/
theorem pwdFinalize_absent (td : List (Nat × Option DiscardReason))
    (st : GraphState) (i : Nat) (hni : i ∉ td.map Prod.fst) :
    alistLookup (pwdFinalize st td).block_statuses i =
      alistLookup st.block_statuses i ∧
    alistLookup (pwdFinalize st td).new_stale_blocks i =
      alistLookup st.new_stale_blocks i ∧
    (pwdFinalize st td).genesis_hashes = st.genesis_hashes := by
  induction td generalizing st with
  | nil => exact ⟨rfl, rfl, rfl⟩
  | cons p rest ih =>
    obtain ⟨hash, reason_opt⟩ := p
    have hne : ¬ i = hash := by
      intro h
      exact hni (by simp [h])
    have hni2 : i ∉ rest.map Prod.fst := fun h => hni (by simp [h])
    unfold pwdFinalize
    split
    · simp only []
      split
      · rcases ih _ hni2 with ⟨h1, h2, h3⟩
        refine ⟨?_, ?_, h3⟩
        · rw [h1]
          simp only [alistLookup_insert, alistLookup_remove, if_neg hne]
        · rw [h2]
          simp only []
          split
          · rw [alistLookup_insert, if_neg hne]
          · rfl
      · rcases ih _ hni2 with ⟨h1, h2, h3⟩
        refine ⟨?_, ?_, h3⟩
        · rw [h1]
          simp only [alistLookup_remove, if_neg hne]
        · exact h2
    · exact ih _ hni2

/-- A waiter whose verdict is `None` (a size drop, or a dependency chain
ending in one) is removed from `block_statuses` outright by the
transition pass: no `Discarded` entry, no stale record, genesis list
unchanged. -/
theorem pwdFinalize_none (td : List (Nat × Option DiscardReason))
    (st : GraphState) (i : Nat) (hob : HeaderOrBlockE) (deps : List Nat)
    (seq : Nat)
    (hnd : (td.map Prod.fst).Nodup)
    (hdrop : alistLookup td i = some none)
    (hwfd : alistLookup st.block_statuses i =
      some (.waitingForDependencies hob deps seq)) :
    alistLookup (pwdFinalize st td).block_statuses i = none ∧
    alistLookup (pwdFinalize st td).new_stale_blocks i =
      alistLookup st.new_stale_blocks i ∧
    (pwdFinalize st td).genesis_hashes = st.genesis_hashes := by
  induction td generalizing st with
  | nil => simp [alistLookup] at hdrop
  | cons p rest ih =>
    obtain ⟨hash, ro⟩ := p
    by_cases hih : hash = i
    · have hro : ro = none := by
        rw [alistLookup_cons] at hdrop
        simpa [hih] using hdrop
      subst hro
      have hni : i ∉ rest.map Prod.fst := by
        simp only [List.map_cons, List.nodup_cons] at hnd
        exact hih ▸ hnd.1
      unfold pwdFinalize
      rw [hih, hwfd]
      simp only []
      rcases pwdFinalize_absent rest
          { st with block_statuses := alistRemove st.block_statuses i }
          i hni with ⟨h1, h2, h3⟩
      refine ⟨?_, h2, h3⟩
      rw [h1]
      simp [alistLookup_remove]
    · have hne : ¬ i = hash := fun h => hih h.symm
      have hdrop2 : alistLookup rest i = some none := by
        rw [alistLookup_cons] at hdrop
        simpa [hih] using hdrop
      have hnd2 : (rest.map Prod.fst).Nodup := by
        simp only [List.map_cons, List.nodup_cons] at hnd
        exact hnd.2
      have key : ∀ stA : GraphState,
          alistLookup stA.block_statuses i =
            some (.waitingForDependencies hob deps seq) →
          alistLookup stA.new_stale_blocks i =
            alistLookup st.new_stale_blocks i →
          stA.genesis_hashes = st.genesis_hashes →
          alistLookup (pwdFinalize stA rest).block_statuses i = none ∧
          alistLookup (pwdFinalize stA rest).new_stale_blocks i =
            alistLookup st.new_stale_blocks i ∧
          (pwdFinalize stA rest).genesis_hashes = st.genesis_hashes := by
        intro stA hA hB hC
        rcases ih stA hnd2 hdrop2 hA with ⟨h1, h2, h3⟩
        exact ⟨h1, h2.trans hB, h3.trans hC⟩
      unfold pwdFinalize
      split
      · simp only []
        split
        · apply key
          · simp only [alistLookup_insert, alistLookup_remove, if_neg hne]
            exact hwfd
          · simp only []
            split
            · rw [alistLookup_insert, if_neg hne]
            · rfl
          · rfl
        · apply key
          · simp only [alistLookup_remove, if_neg hne]
            exact hwfd
          · rfl
          · rfl
      · exact key st hwfd rfl rfl

/-- Removal keeps the key list duplicate-free. -/
theorem alistRemove_keys_nodup {α : Type} (l : List (Nat × α)) (k : Nat)
    (h : (l.map Prod.fst).Nodup) :
    ((alistRemove l k).map Prod.fst).Nodup :=
  List.Nodup.sublist (List.Sublist.map Prod.fst (List.filter_sublist l)) h

/-- The removed key is gone from the key list. -/
theorem alistRemove_keys_notMem {α : Type} (l : List (Nat × α)) (k : Nat) :
    k ∉ (alistRemove l k).map Prod.fst := by
  intro h
  rcases List.mem_map.mp h with ⟨p, hp, hpk⟩
  have := List.of_mem_filter hp
  simp [hpk] at this

/-- Insertion keeps the key list duplicate-free. -/
theorem alistInsert_keys_nodup {α : Type} (l : List (Nat × α)) (k : Nat)
    (v : α) (h : (l.map Prod.fst).Nodup) :
    ((alistInsert l k v).map Prod.fst).Nodup := by
  unfold alistInsert
  rw [List.map_cons, List.nodup_cons]
  exact ⟨alistRemove_keys_notMem l k, alistRemove_keys_nodup l k h⟩

/-- The classification pass keeps the verdict keys duplicate-free. -/
theorem pwdClassify_keys_nodup (st : GraphState)
    (l : List (Nat × BlockStatusE)) (td : List (Nat × Option DiscardReason))
    (tk : List (Nat × (Nat × Slot)))
    (h : (td.map Prod.fst).Nodup) :
    (((pwdClassify st l td tk).1.map Prod.fst)).Nodup := by
  induction l generalizing td tk with
  | nil => exact h
  | cons p rest ih =>
    obtain ⟨hash, status⟩ := p
    unfold pwdClassify
    split
    · simp only []
      split
      · exact ih _ _ (alistInsert_keys_nodup _ _ _ h)
      · split
        · exact ih _ _ (alistInsert_keys_nodup _ _ _ h)
        · exact ih _ _ h
    · exact ih _ _ h

/-- The chain pass keeps the verdict keys duplicate-free. -/
theorem pwdChainPass_keys_nodup (s : List (Nat × BlockStatusE))
    (l : List Nat)
    (td : List (Nat × Option DiscardReason)) (tk : List (Nat × (Nat × Slot)))
    (h : (td.map Prod.fst).Nodup) :
    (((pwdChainPass s l (td, tk)).1.map Prod.fst)).Nodup := by
  induction l generalizing td tk with
  | nil => exact h
  | cons hash rest ih =>
    unfold pwdChainPass
    split
    · simp only []
      split
      · exact ih _ _ (alistInsert_keys_nodup _ _ _ h)
      · exact ih _ _ h
    · exact ih _ _ h

/-- The size-drop loop keeps the verdict keys duplicate-free. -/
theorem pwdLoop_keys_nodup (st : GraphState) (mx : Nat) (fuel : Nat)
    (td : List (Nat × Option DiscardReason)) (tk : List (Nat × (Nat × Slot)))
    (h : (td.map Prod.fst).Nodup) :
    ((pwdLoop st mx fuel td tk).map Prod.fst).Nodup := by
  induction fuel generalizing td tk with
  | zero => exact h
  | succ n ih =>
    unfold pwdLoop
    split
    · exact h
    · simp only []
      have hcp := pwdChainPass_keys_nodup st.block_statuses
        (tk.map (fun p => p.1)) td tk h
      split
      · split
        · exact ih _ _ (alistInsert_keys_nodup _ _ _ hcp)
        · exact hcp
      · exact hcp

/-- **C10.**  When `prune_waiting_for_dependencies` drops a dependency
waiter with a `None` verdict — produced only by the excess-size removal of
the minimal `(sequence_number, slot, hash)` waiter, or by depending on
such a waiter — the id is removed from `block_statuses` entirely: it is
not transitioned to `Discarded`, its `new_stale_blocks` record is
unchanged, and a later resubmission of the same id finds a vacant entry
and re-enters the pipeline as a fresh `Incoming` item. -/
theorem c10_size_drop_reentry (st : GraphState) (mx fuel fuel2 : Nat)
    (i : Nat) (hob : HeaderOrBlockE) (deps : List Nat) (seq : Nat)
    (header : BlockHeaderE)
    (hwfd : alistLookup st.block_statuses i =
      some (.waitingForDependencies hob deps seq))
    (hdrop : alistLookup (pwdDecisions st mx fuel) i = some none)
    (hgen : st.genesis_hashes.contains i = false) :
    alistLookup (pruneWaitingForDependencies st mx fuel).block_statuses i
      = none ∧
    alistLookup
        (pruneWaitingForDependencies st mx fuel).new_stale_blocks i =
      alistLookup st.new_stale_blocks i ∧
    (incomingHeaderEntry (pruneWaitingForDependencies st mx fuel) fuel2 i
      header).2 = true ∧
    alistLookup (incomingHeaderEntry
        (pruneWaitingForDependencies st mx fuel) fuel2 i
        header).1.block_statuses i = some (.incoming (.header header)) := by
  have hnd : ((pwdDecisions st mx fuel).map Prod.fst).Nodup := by
    unfold pwdDecisions
    exact pwdLoop_keys_nodup st mx fuel _ _
      (pwdClassify_keys_nodup st st.block_statuses [] [] (by simp))
  unfold pruneWaitingForDependencies
  rcases pwdFinalize_none _ st i hob deps seq hnd hdrop hwfd with
    ⟨h1, h2, h3⟩
  have hgenP : ¬ ((pwdFinalize st
      (pwdDecisions st mx fuel)).genesis_hashes.contains i = true) := by
    rw [h3, hgen]
    simp
  refine ⟨h1, h2, ?_, ?_⟩
  · unfold incomingHeaderEntry
    rw [if_neg hgenP, h1]
  · unfold incomingHeaderEntry
    rw [if_neg hgenP, h1]
    simp [alistLookup_insert]

/-- Dependency waiter dropped in the C10 witness. -/
def c10Header20 : BlockHeaderE := ⟨⟨5, 0⟩, [1, 2], 7⟩

/-- Dependency waiter kept in the C10 witness. -/
def c10Header21 : BlockHeaderE := ⟨⟨6, 0⟩, [1, 2], 7⟩

/-- State with two dependency waiters and `max_dependency_blocks = 1`. -/
def c10St : GraphState :=
  { sequence_counter := 2
    block_statuses :=
      [(20, .waitingForDependencies (.header c10Header20) [20] 0),
       (21, .waitingForDependencies (.header c10Header21) [21] 1)]
    latest_final_blocks_periods := [(1, 0), (2, 0)]
    best_parents := [1, 2]
    gi_head := []
    max_cliques := [[]]
    new_final_blocks := []
    new_stale_blocks := [] }

/-- Witness for `c10_size_drop_reentry`: with `max_dependency_blocks = 1`
and two waiters (sequence numbers 0 and 1), waiter 20 — the minimum by
`(sequence_number, slot, hash)` — is size-dropped, vanishes with no
`Discarded` or stale record, and resubmitting it re-enters as
`Incoming`. -/
theorem c10_size_drop_reentry_witness :
    alistLookup (pruneWaitingForDependencies c10St 1 5).block_statuses 20
      = none ∧
    alistLookup
        (pruneWaitingForDependencies c10St 1 5).new_stale_blocks 20 =
      alistLookup c10St.new_stale_blocks 20 ∧
    (incomingHeaderEntry (pruneWaitingForDependencies c10St 1 5) 5 20
      c10Header20).2 = true ∧
    alistLookup (incomingHeaderEntry
        (pruneWaitingForDependencies c10St 1 5) 5 20
        c10Header20).1.block_statuses 20 =
      some (.incoming (.header c10Header20)) :=
  c10_size_drop_reentry c10St 1 5 5 20 (.header c10Header20) [20] 0
    c10Header20 rfl (by decide) rfl

/-! ## C8: the `gi_head` invariant -/

/-- A block id currently recorded as a non-final active block. -/
def isNonFinalActive (s : List (Nat × BlockStatusE)) (x : Nat) : Bool :=
  match alistLookup s x with
  | some (.active b) => ! b.is_final
  | _ => false

/-- The C8 property of an incompatibility graph over a status map:
symmetric, irreflexive, and mentioning only non-final active ids, as keys
and as set members. -/
def giPairInv (gi : List (Nat × List Nat))
    (s : List (Nat × BlockStatusE)) : Prop :=
  ∀ x l, alistLookup gi x = some l →
    isNonFinalActive s x = true ∧
    x ∉ l ∧
    ∀ y, y ∈ l →
      isNonFinalActive s y = true ∧
      ∃ l2, alistLookup gi y = some l2 ∧ x ∈ l2

/-- See `giPairInv`. -/
def giHeadInv (st : GraphState) : Prop :=
  giPairInv st.gi_head st.block_statuses

theorem setInsert_idem (l : List Nat) (v : Nat) :
    setInsert (setInsert l v) v = setInsert l v := by
  unfold setInsert
  by_cases h : l.contains v = true
  · rw [if_pos h, if_pos h]
  · rw [if_neg h]
    have h2 : (l ++ [v]).contains v = true := by simp [List.elem_iff]
    rw [if_pos h2]

theorem mem_setInsert_iff (l : List Nat) (v y : Nat) :
    y ∈ setInsert l v ↔ y ∈ l ∨ y = v := by
  unfold setInsert
  by_cases h : l.contains v = true
  · rw [if_pos h]
    constructor
    · exact Or.inl
    · rintro (hy | rfl)
      · exact hy
      · exact List.elem_iff.mp h
  · rw [if_neg h]
    simp

/-- `isNonFinalActive` only looks at the children-stripped status. -/
theorem isNonFinalActive_strip (s s' : List (Nat × BlockStatusE)) (x : Nat)
    (h : (alistLookup s' x).map stripChildren =
      (alistLookup s x).map stripChildren) :
    isNonFinalActive s' x = isNonFinalActive s x := by
  unfold isNonFinalActive
  rcases h1 : alistLookup s' x with _ | v1 <;>
    rcases h2 : alistLookup s x with _ | v2 <;> rw [h1, h2] at h
  all_goals first
    | rfl
    | (simp only [Option.map_some', Option.map_none'] at h
       first
        | cases h
        | (simp only [Option.some.injEq] at h
           cases v1 <;> cases v2 <;>
             (simp [stripChildren, BlockStatusE.active.injEq,
               ActiveBlockE.mk.injEq] at h ⊢
              try simp [h])))

/-- Shared removal lemma: deleting a node from `gi_head` in both
directions (the pattern of the stale demotion, block_graph.rs lines
2991-2999, and the finalisation, lines 3113-3120) preserves the C8
property, for any status change that leaves every other id's non-final
active classification intact. -/
theorem giPairInv_removeNode (gi : List (Nat × List Nat))
    (s s' : List (Nat × BlockStatusE)) (n : Nat)
    (hinv : giPairInv gi s)
    (hs : ∀ x, x ≠ n → isNonFinalActive s' x = isNonFinalActive s x) :
    giPairInv (alistUpdateMany (alistRemove gi n)
      ((alistLookup gi n).getD []) (giTrim n)) s' := by
  intro x l hl
  have hgn : alistLookup (alistUpdateMany (alistRemove gi n)
      ((alistLookup gi n).getD []) (giTrim n)) n = none := by
    rcases lookup_updateMany_or (alistRemove gi n)
        ((alistLookup gi n).getD []) (giTrim n) n (giTrim_idem _) with
      hc | hc <;> rw [hc, alistLookup_remove, if_pos rfl]
    rfl
  have hxn : x ≠ n := by
    intro he
    rw [he, hgn] at hl
    cases hl
  have hmain : ∃ l0, alistLookup gi x = some l0 ∧
      (l = l0 ∨ l = giTrim n l0) ∧ n ∉ l := by
    by_cases hxp : x ∈ (alistLookup gi n).getD []
    · rw [lookup_updateMany_mem _ _ _ _ (giTrim_idem _) hxp,
        alistLookup_remove, if_neg hxn] at hl
      rcases hw : alistLookup gi x with _ | l0 <;> rw [hw] at hl
      · cases hl
      · simp only [Option.map_some', Option.some.injEq] at hl
        refine ⟨l0, rfl, Or.inr hl.symm, ?_⟩
        rw [← hl]
        intro hmem
        have := List.mem_filter.mp hmem
        simp at this
    · rw [lookup_updateMany_notMem _ _ _ _ hxp, alistLookup_remove,
        if_neg hxn] at hl
      refine ⟨l, hl, Or.inl rfl, ?_⟩
      intro hn
      rcases (hinv x l hl).2.2 n hn with ⟨_, l2, hl2, hx2⟩
      apply hxp
      rw [hl2]
      exact hx2
  rcases hmain with ⟨l0, hl0, hcase, hnl⟩
  have hx := hinv x l0 hl0
  have hsub : ∀ y, y ∈ l → y ∈ l0 ∧ y ≠ n := by
    intro y hy
    have hyn : y ≠ n := fun he => hnl (he ▸ hy)
    rcases hcase with rfl | rfl
    · exact ⟨hy, hyn⟩
    · exact ⟨(List.mem_filter.mp hy).1, hyn⟩
  refine ⟨?_, ?_, ?_⟩
  · rw [hs x hxn]
    exact hx.1
  · intro hxl
    exact hx.2.1 (hsub x hxl).1
  · intro y hy
    rcases hsub y hy with ⟨hyl0, hyn⟩
    rcases hx.2.2 y hyl0 with ⟨hyact, l2, hl2, hx2⟩
    refine ⟨by rw [hs y hyn]; exact hyact, ?_⟩
    by_cases hyp : y ∈ (alistLookup gi n).getD []
    · refine ⟨giTrim n l2, ?_, ?_⟩
      · rw [lookup_updateMany_mem _ _ _ _ (giTrim_idem _) hyp,
          alistLookup_remove, if_neg hyn, hl2]
        rfl
      · unfold giTrim
        apply List.mem_filter.mpr
        refine ⟨hx2, ?_⟩
        simpa using hxn
    · refine ⟨l2, ?_, hx2⟩
      rw [lookup_updateMany_notMem _ _ _ _ hyp, alistLookup_remove,
        if_neg hyn]
      exact hl2

/-- The `gi_head`-relevant transitions a `BlockGraph` makes through the
public entry points (`incoming_header`, `incoming_block`, `slot_tick`,
`prune`), each guarded as in the source:
* `addBlock` — `add_block_to_graph` inserts the new block as a non-final
  `Active` (lines 2788-2801, `is_final: false` at 2797) and registers both
  directions of its incompatibilities (2840-2846); the ok path requires
  every member of `incomp` to already be a `gi_head` key
  (`.ok_or(ConsensusError::MissingBlock)?`, 2843), and the block was not
  in `block_statuses` (`process` removed its `Incoming` entry, 1547-1551);
* `markStale` — the stale demotion (2983-3038) as `markOneStale`;
* `markFinal` — the finalisation (3113-3158) as `markOneFinal`;
* `demoteFinal` — `prune_active` turns a final active block into
  `Discarded{Final}` (3390-3411);
* `updateActive` — the children/descendants maintenance of active blocks
  (2803-2833) never changes `is_final`;
* `nonActive` — every other status insertion, transition or removal
  involves no `Active` entry on either side (1300-1318, 1468-1537,
  3543-3599, 3605-3656). -/
inductive GiStep : GraphState → GraphState → Prop
  | addBlock (st : GraphState) (hash : Nat) (incomp : List Nat)
      (ab : ActiveBlockE)
      (hnew : alistLookup st.block_statuses hash = none)
      (hsub : ∀ a ∈ incomp, (alistLookup st.gi_head a).isSome = true)
      (hnf : ab.is_final = false) :
      GiStep st { st with
        block_statuses := alistInsert st.block_statuses hash (.active ab)
        gi_head := alistInsert (alistUpdateMany st.gi_head incomp
          (fun l => setInsert l hash)) hash incomp }
  | markStale (st st' : GraphState) (h : Nat)
      (hok : markOneStale st h = .ok st') : GiStep st st'
  | markFinal (st st' : GraphState) (h : Nat)
      (hok : markOneFinal st h = .ok st') : GiStep st st'
  | demoteFinal (st : GraphState) (h : Nat) (ab : ActiveBlockE)
      (hact : alistLookup st.block_statuses h = some (.active ab))
      (hfin : ab.is_final = true) :
      GiStep st { st with
        block_statuses := alistInsert st.block_statuses h
          (.discarded ab.slot .final st.sequence_counter)
        sequence_counter := st.sequence_counter + 1 }
  | updateActive (st : GraphState) (h : Nat) (ab ab2 : ActiveBlockE)
      (hact : alistLookup st.block_statuses h = some (.active ab))
      (hfin : ab2.is_final = ab.is_final) :
      GiStep st { st with
        block_statuses := alistInsert st.block_statuses h (.active ab2) }
  | nonActive (st : GraphState) (h : Nat) (new : Option BlockStatusE)
      (hold : ∀ b : ActiveBlockE,
        alistLookup st.block_statuses h ≠ some (.active b))
      (hnew : ∀ b : ActiveBlockE, new ≠ some (.active b)) :
      GiStep st { st with
        block_statuses :=
          match new with
          | some v => alistInsert st.block_statuses h v
          | none => alistRemove st.block_statuses h }

/-- States reachable through the public entry points, from the
constructor state (`gi_head` starts empty, block_graph.rs line 1005). -/
inductive GiReach : GraphState → Prop
  | init (st : GraphState) (h : st.gi_head = []) : GiReach st
  | step (s t : GraphState) (hr : GiReach s) (hs : GiStep s t) : GiReach t

/-- Invariant preservation for the block-insertion step. -/
theorem giStep_addBlock_preserves (st : GraphState) (hash : Nat)
    (incomp : List Nat) (ab : ActiveBlockE)
    (hnew : alistLookup st.block_statuses hash = none)
    (hsub : ∀ a ∈ incomp, (alistLookup st.gi_head a).isSome = true)
    (hnf : ab.is_final = false)
    (hinv : giHeadInv st) :
    giPairInv
      (alistInsert (alistUpdateMany st.gi_head incomp
        (fun l => setInsert l hash)) hash incomp)
      (alistInsert st.block_statuses hash (.active ab)) := by
  have hidem : ∀ v, setInsert (setInsert v hash) hash = setInsert v hash :=
    fun v => setInsert_idem v hash
  have hkey : ∀ l0, alistLookup st.gi_head hash = some l0 → False := by
    intro l0 hl0
    have h1 := (hinv hash l0 hl0).1
    unfold isNonFinalActive at h1
    rw [hnew] at h1
    cases h1
  have hhi : hash ∉ incomp := by
    intro hmem
    have h1 := hsub hash hmem
    rcases hw : alistLookup st.gi_head hash with _ | l0
    · rw [hw] at h1
      cases h1
    · exact hkey l0 hw
  have hsA : ∀ y, y ≠ hash →
      isNonFinalActive (alistInsert st.block_statuses hash (.active ab)) y
        = isNonFinalActive st.block_statuses y := by
    intro y hy
    unfold isNonFinalActive
    rw [alistLookup_insert, if_neg hy]
  have hact : isNonFinalActive
      (alistInsert st.block_statuses hash (.active ab)) hash = true := by
    unfold isNonFinalActive
    rw [alistLookup_insert, if_pos rfl]
    simp [hnf]
  have hnotmem : ∀ x l0, alistLookup st.gi_head x = some l0 →
      hash ∉ l0 := by
    intro x l0 hl0 hmem
    rcases (hinv x l0 hl0).2.2 hash hmem with ⟨_, l2, hl2, _⟩
    exact hkey l2 hl2
  have hOldMem : ∀ x0 y l0, alistLookup st.gi_head x0 = some l0 →
      y ∈ l0 →
      isNonFinalActive (alistInsert st.block_statuses hash (.active ab)) y
        = true ∧
      ∃ l2, alistLookup (alistInsert (alistUpdateMany st.gi_head incomp
          (fun l => setInsert l hash)) hash incomp) y = some l2 ∧
        x0 ∈ l2 := by
    intro x0 y l0 hl0 hy
    have hyh : y ≠ hash := fun he => hnotmem x0 l0 hl0 (he ▸ hy)
    rcases (hinv x0 l0 hl0).2.2 y hy with ⟨hyact, l2, hl2, hx2⟩
    refine ⟨by rw [hsA y hyh]; exact hyact, ?_⟩
    rw [alistLookup_insert, if_neg hyh]
    by_cases hyi : y ∈ incomp
    · rw [lookup_updateMany_mem _ _ _ _ hidem hyi, hl2]
      exact ⟨setInsert l2 hash, rfl,
        (mem_setInsert_iff l2 hash x0).mpr (Or.inl hx2)⟩
    · rw [lookup_updateMany_notMem _ _ _ _ hyi]
      exact ⟨l2, hl2, hx2⟩
  intro x l hl
  rw [alistLookup_insert] at hl
  by_cases hxh : x = hash
  · subst hxh
    rw [if_pos rfl] at hl
    injection hl with hl
    subst hl
    refine ⟨hact, hhi, ?_⟩
    intro y hy
    have hyx : y ≠ x := fun he => hhi (he ▸ hy)
    rcases hw : alistLookup st.gi_head y with _ | ly
    · have h1 := hsub y hy
      rw [hw] at h1
      cases h1
    · refine ⟨by rw [hsA y hyx]; exact (hinv y ly hw).1, ?_⟩
      refine ⟨setInsert ly x, ?_, (mem_setInsert_iff ly x x).mpr
        (Or.inr rfl)⟩
      rw [alistLookup_insert, if_neg hyx,
        lookup_updateMany_mem _ _ _ _ hidem hy, hw]
      rfl
  · rw [if_neg hxh] at hl
    by_cases hxi : x ∈ incomp
    · rw [lookup_updateMany_mem _ _ _ _ hidem hxi] at hl
      rcases hw : alistLookup st.gi_head x with _ | l0 <;> rw [hw] at hl
      · cases hl
      · simp only [Option.map_some', Option.some.injEq] at hl
        subst hl
        have hx := hinv x l0 hw
        refine ⟨by rw [hsA x hxh]; exact hx.1, ?_, ?_⟩
        · intro hmem
          rcases (mem_setInsert_iff l0 hash x).mp hmem with h1 | h1
          · exact hx.2.1 h1
          · exact hxh h1
        · intro y hy
          rcases (mem_setInsert_iff l0 hash y).mp hy with h1 | h1
          · exact hOldMem x y l0 hw h1
          · subst h1
            refine ⟨hact, incomp, ?_, hxi⟩
            rw [alistLookup_insert, if_pos rfl]
    · rw [lookup_updateMany_notMem _ _ _ _ hxi] at hl
      have hx := hinv x l hl
      refine ⟨by rw [hsA x hxh]; exact hx.1, hx.2.1, ?_⟩
      intro y hy
      exact hOldMem x y l hl hy

/-- A status change at an id that is not a non-final active block cannot
affect the C8 property. -/
theorem giPairInv_statusChange (gi : List (Nat × List Nat))
    (s s' : List (Nat × BlockStatusE)) (h : Nat)
    (hinv : giPairInv gi s)
    (hnfa : isNonFinalActive s h = false)
    (hs : ∀ y, y ≠ h → isNonFinalActive s' y = isNonFinalActive s y) :
    giPairInv gi s' := by
  intro x l hl
  have hx := hinv x l hl
  have hxh : x ≠ h := by
    intro he
    have h1 := hx.1
    rw [he, hnfa] at h1
    cases h1
  refine ⟨by rw [hs x hxh]; exact hx.1, hx.2.1, ?_⟩
  intro y hy
  rcases hx.2.2 y hy with ⟨hyact, l2, hl2, hx2⟩
  have hyh : y ≠ h := by
    intro he
    rw [he, hnfa] at hyact
    cases hyact
  exact ⟨by rw [hs y hyh]; exact hyact, l2, hl2, hx2⟩

/-- A status change that preserves every id's non-final active
classification cannot affect the C8 property. -/
theorem giPairInv_statusSame (gi : List (Nat × List Nat))
    (s s' : List (Nat × BlockStatusE))
    (hinv : giPairInv gi s)
    (hs : ∀ y, isNonFinalActive s' y = isNonFinalActive s y) :
    giPairInv gi s' := by
  intro x l hl
  have hx := hinv x l hl
  refine ⟨by rw [hs x]; exact hx.1, hx.2.1, ?_⟩
  intro y hy
  rcases hx.2.2 y hy with ⟨hyact, l2, hl2, hx2⟩
  exact ⟨by rw [hs y]; exact hyact, l2, hl2, hx2⟩

/-- Every `gi_head`-relevant transition preserves the C8 property. -/
theorem giStep_preserves (s t : GraphState) (hstep : GiStep s t)
    (hinv : giHeadInv s) : giHeadInv t := by
  cases hstep with
  | addBlock hash incomp ab hnew hsub hnf =>
    exact giStep_addBlock_preserves s hash incomp ab hnew hsub hnf hinv
  | markStale st' h hok =>
    unfold markOneStale at hok
    split at hok
    next ab heq =>
      split at hok
      · cases hok
      · injection hok with hok
        subst hok
        unfold giHeadInv
        rw [markedStale_gi_def]
        apply giPairInv_removeNode _ _ _ _ hinv
        intro x hx
        exact isNonFinalActive_strip _ _ x (markedStale_strip s h ab x hx)
    next => cases hok
  | markFinal st' h hok =>
    unfold markOneFinal at hok
    simp only [] at hok
    split at hok
    next ab heq =>
      injection hok with hok
      subst hok
      unfold giHeadInv
      apply giPairInv_removeNode _ _ _ _ hinv
      intro x hx
      show isNonFinalActive (alistInsert s.block_statuses h
        (.active { ab with is_final := true })) x = _
      unfold isNonFinalActive
      rw [alistLookup_insert, if_neg hx]
    next => cases hok
  | demoteFinal h ab hact hfin =>
    apply giPairInv_statusChange s.gi_head s.block_statuses _ h hinv
    · unfold isNonFinalActive
      rw [hact]
      simp [hfin]
    · intro y hy
      show isNonFinalActive (alistInsert s.block_statuses h
        (.discarded ab.slot .final s.sequence_counter)) y = _
      unfold isNonFinalActive
      rw [alistLookup_insert, if_neg hy]
  | updateActive h ab ab2 hact hfin =>
    apply giPairInv_statusSame s.gi_head s.block_statuses _ hinv
    intro y
    show isNonFinalActive (alistInsert s.block_statuses h
      (.active ab2)) y = _
    unfold isNonFinalActive
    rw [alistLookup_insert]
    by_cases hyh : y = h
    · rw [if_pos hyh, hyh, hact]
      simp [hfin]
    · rw [if_neg hyh]
  | nonActive h new hold hnew =>
    apply giPairInv_statusChange s.gi_head s.block_statuses _ h hinv
    · unfold isNonFinalActive
      rcases hw : alistLookup s.block_statuses h with _ | v
      · rfl
      · cases v <;> first | exact absurd hw (hold _) | rfl
    · intro y hy
      cases new with
      | some v =>
        show isNonFinalActive (alistInsert s.block_statuses h v) y = _
        unfold isNonFinalActive
        rw [alistLookup_insert, if_neg hy]
      | none =>
        show isNonFinalActive (alistRemove s.block_statuses h) y = _
        unfold isNonFinalActive
        rw [alistLookup_remove, if_neg hy]

/-- **C8.**  In every state reachable through the public entry points,
`gi_head` is symmetric (`y ∈ gi_head[x]` iff `x ∈ gi_head[y]`),
irreflexive (`x ∉ gi_head[x]`), and mentions only ids of non-final active
blocks, both as keys and as members of any value set. -/
theorem c8_gi_head_invariant (st : GraphState) (h : GiReach st) :
    giHeadInv st := by
  induction h with
  | init st0 h0 =>
    intro x l hl
    rw [h0] at hl
    cases hl
  | step s t hr hstep ih => exact giStep_preserves s t hstep ih

/-- Empty starting state for the C8 witness. -/
def c8St0 : GraphState :=
  { sequence_counter := 0
    block_statuses := []
    latest_final_blocks_periods := [(0, 0), (0, 0)]
    best_parents := [0, 0]
    gi_head := []
    max_cliques := [[]]
    new_final_blocks := []
    new_stale_blocks := [] }

/-- First block added in the C8 witness. -/
def c8Ab1 : ActiveBlockE :=
  ⟨⟨1, 0⟩, [(0, 0), (0, 0)], [[], []], [], [], false, [[], []]⟩

/-- Second block added in the C8 witness, incompatible with the first. -/
def c8Ab2 : ActiveBlockE :=
  ⟨⟨1, 1⟩, [(0, 0), (0, 0)], [[], []], [], [], false, [[], []]⟩

/-- State after adding block 1 with no incompatibilities. -/
def c8St1 : GraphState :=
  { c8St0 with
    block_statuses := alistInsert c8St0.block_statuses 1 (.active c8Ab1)
    gi_head := alistInsert (alistUpdateMany c8St0.gi_head []
      (fun l => setInsert l 1)) 1 [] }

/-- State after adding block 2, incompatible with block 1. -/
def c8St2 : GraphState :=
  { c8St1 with
    block_statuses := alistInsert c8St1.block_statuses 2 (.active c8Ab2)
    gi_head := alistInsert (alistUpdateMany c8St1.gi_head [1]
      (fun l => setInsert l 2)) 2 [1] }

/-- Witness for `c8_gi_head_invariant`: two `addBlock` steps from the
empty graph. -/
theorem c8_gi_head_invariant_witness : giHeadInv c8St2 :=
  c8_gi_head_invariant c8St2
    (GiReach.step c8St1 c8St2
      (GiReach.step c8St0 c8St1 (GiReach.init c8St0 rfl)
        (GiStep.addBlock c8St0 1 [] c8Ab1 rfl (by simp) rfl))
      (GiStep.addBlock c8St1 2 [1] c8Ab2 (by decide) (by decide) rfl))

/-! ## C5: bootstrap codec (block_graph.rs lines 147-792, ledger.rs)

Byte strings are `List Nat` with every element below 256.  The varint and
fixed-width id encodings live in the models crate, which is not part of
src/.  Modelled from the spec: "Serialisation is length-prefixed with
varint lengths"; varints are the usual base-128 little-endian encoding
with a continuation bit, and block ids / addresses are fixed 32-byte
strings (`BLOCK_ID_SIZE_BYTES` / `ADDRESS_SIZE_BYTES`). -/

/-- Modelled from the spec: unsigned base-128 varint encoding. -/
def vEnc (n : Nat) : List Nat :=
  if h : n < 128 then [n] else (n % 128 + 128) :: vEnc (n / 128)
decreasing_by exact Nat.div_lt_self (by omega) (by omega)

/-- Modelled from the spec: unsigned base-128 varint decoding. -/
def vDec : List Nat → Except String (Nat × List Nat)
  | [] => .error "varint: buffer too small"
  | b :: rest =>
    if b < 128 then .ok (b, rest)
    else
      match vDec rest with
      | .error e => .error e
      | .ok (m, r2) => .ok (b - 128 + 128 * m, r2)

theorem vDec_vEnc (n : Nat) : ∀ r, vDec (vEnc n ++ r) = .ok (n, r) := by
  induction n using Nat.strong_induction_on with
  | _ n ih =>
    intro r
    rw [vEnc]
    by_cases h : n < 128
    · rw [dif_pos h]
      show vDec (n :: r) = _
      unfold vDec
      rw [if_pos h]
    · rw [dif_neg h]
      show vDec ((n % 128 + 128) :: (vEnc (n / 128) ++ r)) = _
      unfold vDec
      rw [if_neg (by omega), ih (n / 128) (Nat.div_lt_self (by omega)
        (by omega)) r]
      have he : n % 128 + 128 - 128 + 128 * (n / 128) = n := by
        have := Nat.mod_add_div n 128
        omega
      show Except.ok (n % 128 + 128 - 128 + 128 * (n / 128), r) =
        Except.ok (n, r)
      rw [he]

/-- Modelled from the spec: fixed-width big-endian byte string of `k`
bytes. -/
def beEncAux : Nat → Nat → List Nat
  | 0, _ => []
  | k + 1, n => (n / 256 ^ k) :: beEncAux k (n % 256 ^ k)

/-- Modelled from the spec: fixed-width big-endian decoding. -/
def beDecAux : Nat → Nat → List Nat → Except String (Nat × List Nat)
  | 0, acc, rest => .ok (acc, rest)
  | _ + 1, _, [] => .error "id: buffer too small"
  | k + 1, acc, b :: rest => beDecAux k (acc * 256 + b) rest

theorem beDecAux_beEncAux (k : Nat) :
    ∀ n acc r, n < 256 ^ k →
      beDecAux k acc (beEncAux k n ++ r) = .ok (acc * 256 ^ k + n, r) := by
  induction k with
  | zero =>
    intro n acc r hn
    have hn0 : n = 0 := by
      have : (256 : Nat) ^ 0 = 1 := rfl
      omega
    subst hn0
    simp [beEncAux, beDecAux]
  | succ k ih =>
    intro n acc r hn
    show beDecAux (k + 1) acc ((n / 256 ^ k) :: (beEncAux k (n % 256 ^ k)
      ++ r)) = _
    unfold beDecAux
    rw [ih (n % 256 ^ k) (acc * 256 + n / 256 ^ k) r
      (Nat.mod_lt _ (Nat.pos_pow_of_pos k (by omega)))]
    have he : (acc * 256 + n / 256 ^ k) * 256 ^ k + n % 256 ^ k =
        acc * 256 ^ (k + 1) + n := by
      have h1 := Nat.mod_add_div n (256 ^ k)
      have h2 : 256 ^ (k + 1) = 256 ^ k * 256 := by ring
      nlinarith [h1, h2]
    rw [he]

/-- The 32-byte block-id / address encoding (`to_bytes`). -/
def idEnc (n : Nat) : List Nat := beEncAux 32 n

/-- The 32-byte block-id / address decoding (`from_bytes` on
`array_from_slice`). -/
def idDec (b : List Nat) : Except String (Nat × List Nat) :=
  beDecAux 32 0 b

theorem idDec_idEnc (n : Nat) (hn : n < 256 ^ 32) :
    ∀ r, idDec (idEnc n ++ r) = .ok (n, r) := by
  intro r
  unfold idDec idEnc
  rw [beDecAux_beEncAux 32 n 0 r hn]
  simp

/-- Item-list encoder for fallible item serializers (the `for` loops of
`to_bytes_compact`). -/
def encListE {α : Type} (enc : α → Except String (List Nat)) :
    List α → Except String (List Nat)
  | [] => .ok []
  | x :: xs =>
    match enc x with
    | .error e => .error e
    | .ok bx =>
      match encListE enc xs with
      | .error e => .error e
      | .ok bxs => .ok (bx ++ bxs)

/-- Count-driven item-list decoder (the `for _ in 0..count` loops of
`from_bytes_compact`). -/
def decCount {α : Type} (dec : List Nat → Except String (α × List Nat)) :
    Nat → List Nat → Except String (List α × List Nat)
  | 0, b => .ok ([], b)
  | n + 1, b =>
    match dec b with
    | .error e => .error e
    | .ok (x, b2) =>
      match decCount dec n b2 with
      | .error e => .error e
      | .ok (xs, b3) => .ok (x :: xs, b3)

theorem decCount_encListE {α : Type}
    (enc : α → Except String (List Nat))
    (dec : List Nat → Except String (α × List Nat)) (l : List α) :
    ∀ bs, encListE enc l = .ok bs →
      (∀ x ∈ l, ∀ bx, enc x = .ok bx → ∀ r, dec (bx ++ r) = .ok (x, r)) →
      ∀ r, decCount dec l.length (bs ++ r) = .ok (l, r) := by
  induction l with
  | nil =>
    intro bs hbs hitem r
    unfold encListE at hbs
    injection hbs with hbs
    subst hbs
    rfl
  | cons x xs ih =>
    intro bs hbs hitem r
    unfold encListE at hbs
    rcases hx : enc x with e | bx <;> rw [hx] at hbs
    · cases hbs
    · rcases hxs : encListE enc xs with e | bxs <;> rw [hxs] at hbs
      · cases hbs
      · injection hbs with hbs
        subst hbs
        show decCount dec (xs.length + 1) (bx ++ bxs ++ r) = _
        unfold decCount
        rw [List.append_assoc,
          hitem x (List.mem_cons_self x xs) bx hx (bxs ++ r)]
        simp only []
        rw [ih bxs hxs (fun y hy => hitem y (List.mem_cons_of_mem x hy)) r]

/-- Modelled from the spec: `Amount` (a u64) is serialized as a varint
(`Amount::to_bytes_compact`, models crate, not in src/). -/
def amountEnc (n : Nat) : List Nat := vEnc n

/-- `LedgerChange::to_bytes_compact` (ledger.rs lines 128-134): an
increment byte then the delta. -/
def ledgerChangeEnc (c : LedgerChange) : List Nat :=
  (if c.balance_increment then 1 else 0) :: amountEnc c.balance_delta

/-- `LedgerChange::from_bytes_compact` (ledger.rs lines 137-166): any
increment byte other than 0 or 1 is an error. -/
def ledgerChangeDec (b : List Nat) :
    Except String (LedgerChange × List Nat) :=
  match b with
  | [] => .error "buffer too small"
  | inc :: rest =>
    if inc = 0 then
      match vDec rest with
      | .error e => .error e
      | .ok (d, r2) => .ok (⟨d, false⟩, r2)
    else if inc = 1 then
      match vDec rest with
      | .error e => .error e
      | .ok (d, r2) => .ok (⟨d, true⟩, r2)
    else .error "wrong boolean balance_increment encoding"

theorem ledgerChangeDec_enc (c : LedgerChange) :
    ∀ r, ledgerChangeDec (ledgerChangeEnc c ++ r) = .ok (c, r) := by
  intro r
  obtain ⟨d, inc⟩ := c
  cases inc <;>
    simp [ledgerChangeEnc, ledgerChangeDec, amountEnc, vDec_vEnc]

/-- `LedgerData::to_bytes_compact` (ledger.rs lines 37-43): the balance
amount. -/
def ledgerDataEnc (d : LedgerData) : List Nat := amountEnc d.balance

/-- `LedgerData::from_bytes_compact` (ledger.rs lines 45-52). -/
def ledgerDataDec (b : List Nat) :
    Except String (LedgerData × List Nat) :=
  match vDec b with
  | .error e => .error e
  | .ok (n, r2) => .ok (⟨n⟩, r2)

theorem ledgerDataDec_enc (d : LedgerData) :
    ∀ r, ledgerDataDec (ledgerDataEnc d ++ r) = .ok (d, r) := by
  intro r
  simp [ledgerDataEnc, ledgerDataDec, amountEnc, vDec_vEnc]

/-- Modelled from the spec: a roll update holds roll purchase and sale
counts (`RollUpdate`, pos.rs, not in src/), serialized as two varints. -/
structure RollUpdateE where
  roll_purchases : Nat
  roll_sales : Nat
  deriving DecidableEq, Repr

/-- Modelled from the spec: `RollUpdate::to_bytes_compact`. -/
def rollUpdateEnc (u : RollUpdateE) : List Nat :=
  vEnc u.roll_purchases ++ vEnc u.roll_sales

/-- Modelled from the spec: `RollUpdate::from_bytes_compact`. -/
def rollUpdateDec (b : List Nat) :
    Except String (RollUpdateE × List Nat) :=
  match vDec b with
  | .error e => .error e
  | .ok (p, r2) =>
    match vDec r2 with
    | .error e => .error e
    | .ok (s, r3) => .ok (⟨p, s⟩, r3)

theorem rollUpdateDec_enc (u : RollUpdateE) :
    ∀ r, rollUpdateDec (rollUpdateEnc u ++ r) = .ok (u, r) := by
  intro r
  obtain ⟨p, s⟩ := u
  simp only [rollUpdateEnc, rollUpdateDec, List.append_assoc, vDec_vEnc]

/-- Modelled from the spec: the block payload stored in an
`ExportActiveBlock` (`Block::to_bytes_compact`, models crate, not in
src/) — a self-delimiting encoding of the header: slot, creator address,
and the parent ids. -/
def blockEnc (b : BlockHeaderE) : List Nat :=
  vEnc b.slot.period ++ vEnc b.slot.thread ++ idEnc b.creator ++
    vEnc b.parents.length ++ (b.parents.map idEnc).flatten

/-- Modelled from the spec: `Block::from_bytes_compact`. -/
def blockDec (b : List Nat) :
    Except String (BlockHeaderE × List Nat) :=
  match vDec b with
  | .error e => .error e
  | .ok (per, r1) =>
    match vDec r1 with
    | .error e => .error e
    | .ok (th, r2) =>
      match idDec r2 with
      | .error e => .error e
      | .ok (creator, r3) =>
        match vDec r3 with
        | .error e => .error e
        | .ok (pc, r4) =>
          match decCount idDec pc r4 with
          | .error e => .error e
          | .ok (ps, r5) => .ok (⟨⟨per, th⟩, ps, creator⟩, r5)

theorem encListE_pure {α : Type} (f : α → List Nat) (l : List α) :
    encListE (fun x => Except.ok (f x)) l = .ok (l.map f).flatten := by
  induction l with
  | nil => rfl
  | cons x t ih =>
    simp only [List.map_cons, List.flatten_cons]
    unfold encListE
    rw [ih]

theorem blockDec_enc (b : BlockHeaderE)
    (hc : b.creator < 256 ^ 32)
    (hp : ∀ p ∈ b.parents, p < 256 ^ 32) :
    ∀ r, blockDec (blockEnc b ++ r) = .ok (b, r) := by
  intro r
  obtain ⟨⟨per, th⟩, parents, creator⟩ := b
  simp only [blockEnc, blockDec, List.append_assoc, vDec_vEnc]
  rw [idDec_idEnc creator hc]
  simp only [vDec_vEnc]
  rw [decCount_encListE (fun p => .ok (idEnc p)) idDec parents
    ((parents.map idEnc).flatten) ?henc ?hitem r]
  case henc => exact encListE_pure idEnc parents
  case hitem =>
    intro x hx bx hbx r2
    injection hbx with hbx
    subst hbx
    exact idDec_idEnc x (hp x hx) r2

/-- `u32::try_from` fails at 2^32. -/
def u32Max : Nat := 4294967296

/-- The serialization context fields read by the bootstrap codec
(`with_serialization_context`, models crate). -/
structure SerializationCtx where
  parent_count : Nat
  max_bootstrap_blocks : Nat
  max_bootstrap_cliques : Nat
  max_bootstrap_children : Nat
  max_bootstrap_deps : Nat
  max_bootstrap_pos_entries : Nat
  deriving DecidableEq, Repr

/-- An `(id, period)` pair: 32-byte id then varint period. -/
def pairEnc (p : Nat × Nat) : List Nat := idEnc p.1 ++ vEnc p.2

/-- See `pairEnc`. -/
def pairDec (b : List Nat) : Except String ((Nat × Nat) × List Nat) :=
  match idDec b with
  | .error e => .error e
  | .ok (h, r1) =>
    match vDec r1 with
    | .error e => .error e
    | .ok (p, r2) => .ok ((h, p), r2)

theorem pairDec_enc (p : Nat × Nat) (h : p.1 < 256 ^ 32) :
    ∀ r, pairDec (pairEnc p ++ r) = .ok (p, r) := by
  intro r
  obtain ⟨x, y⟩ := p
  unfold pairEnc pairDec
  rw [List.append_assoc, idDec_idEnc x h]
  simp only []
  rw [vDec_vEnc]

/-- One `children` map (block_graph.rs lines 178-190 / 291-308):
varint count then `(id, period)` pairs; the count must fit a `u32` when
serializing and stay within `max_bootstrap_children` when
deserializing. -/
def childMapEnc (m : List (Nat × Nat)) : Except String (List Nat) :=
  if m.length < u32Max then
    .ok (vEnc m.length ++ (m.map pairEnc).flatten)
  else .error "too many entry in children map in ActiveBlock"

/-- See `childMapEnc`. -/
def childMapDec (maxChildren : Nat) (b : List Nat) :
    Except String (List (Nat × Nat) × List Nat) :=
  match vDec b with
  | .error e => .error e
  | .ok (c, r1) =>
    if maxChildren < c then .error "too many children to deserialize"
    else decCount pairDec c r1

theorem childMapDec_enc (maxChildren : Nat) (m : List (Nat × Nat))
    (h1 : m.length < u32Max) (h2 : m.length ≤ maxChildren)
    (h3 : ∀ p ∈ m, p.1 < 256 ^ 32) :
    ∀ bs, childMapEnc m = .ok bs →
    ∀ r, childMapDec maxChildren (bs ++ r) = .ok (m, r) := by
  intro bs hbs r
  unfold childMapEnc at hbs
  rw [if_pos h1] at hbs
  injection hbs with hbs
  subst hbs
  unfold childMapDec
  rw [List.append_assoc, vDec_vEnc]
  simp only []
  rw [if_neg (by omega)]
  exact decCount_encListE (fun p => .ok (pairEnc p)) pairDec m _
    (encListE_pure pairEnc m)
    (fun x hx bx hbx r2 => by
      injection hbx with hbx
      subst hbx
      exact pairDec_enc x (h3 x hx) r2) r

/-- An `(address, LedgerChange)` entry (block_graph.rs lines 218-221 /
344-350). -/
def blcPairEnc (p : Nat × LedgerChange) : List Nat :=
  idEnc p.1 ++ ledgerChangeEnc p.2

/-- See `blcPairEnc`. -/
def blcPairDec (b : List Nat) :
    Except String ((Nat × LedgerChange) × List Nat) :=
  match idDec b with
  | .error e => .error e
  | .ok (a, r1) =>
    match ledgerChangeDec r1 with
    | .error e => .error e
    | .ok (c, r2) => .ok ((a, c), r2)

theorem blcPairDec_enc (p : Nat × LedgerChange) (h : p.1 < 256 ^ 32) :
    ∀ r, blcPairDec (blcPairEnc p ++ r) = .ok (p, r) := by
  intro r
  obtain ⟨a, c⟩ := p
  unfold blcPairEnc blcPairDec
  rw [List.append_assoc, idDec_idEnc a h]
  simp only []
  rw [ledgerChangeDec_enc]

/-- One `block_ledger_change` map (block_graph.rs lines 210-222 /
335-352). -/
def blcMapEnc (m : List (Nat × LedgerChange)) :
    Except String (List Nat) :=
  if m.length < u32Max then
    .ok (vEnc m.length ++ (m.map blcPairEnc).flatten)
  else .error "too many entry in block_ledger_change map in ActiveBlock"

/-- See `blcMapEnc`. -/
def blcMapDec (maxChildren : Nat) (b : List Nat) :
    Except String (List (Nat × LedgerChange) × List Nat) :=
  match vDec b with
  | .error e => .error e
  | .ok (c, r1) =>
    if maxChildren < c then
      .error "too many block_ledger_change to deserialize"
    else decCount blcPairDec c r1

theorem blcMapDec_enc (maxChildren : Nat) (m : List (Nat × LedgerChange))
    (h1 : m.length < u32Max) (h2 : m.length ≤ maxChildren)
    (h3 : ∀ p ∈ m, p.1 < 256 ^ 32) :
    ∀ bs, blcMapEnc m = .ok bs →
    ∀ r, blcMapDec maxChildren (bs ++ r) = .ok (m, r) := by
  intro bs hbs r
  unfold blcMapEnc at hbs
  rw [if_pos h1] at hbs
  injection hbs with hbs
  subst hbs
  unfold blcMapDec
  rw [List.append_assoc, vDec_vEnc]
  simp only []
  rw [if_neg (by omega)]
  exact decCount_encListE (fun p => .ok (blcPairEnc p)) blcPairDec m _
    (encListE_pure blcPairEnc m)
    (fun x hx bx hbx r2 => by
      injection hbx with hbx
      subst hbx
      exact blcPairDec_enc x (h3 x hx) r2) r

/-- An `(address, RollUpdate)` entry (block_graph.rs lines 229-232 /
364-370). -/
def rollPairEnc (p : Nat × RollUpdateE) : List Nat :=
  idEnc p.1 ++ rollUpdateEnc p.2

/-- See `rollPairEnc`. -/
def rollPairDec (b : List Nat) :
    Except String ((Nat × RollUpdateE) × List Nat) :=
  match idDec b with
  | .error e => .error e
  | .ok (a, r1) =>
    match rollUpdateDec r1 with
    | .error e => .error e
    | .ok (u, r2) => .ok ((a, u), r2)

theorem rollPairDec_enc (p : Nat × RollUpdateE) (h : p.1 < 256 ^ 32) :
    ∀ r, rollPairDec (rollPairEnc p ++ r) = .ok (p, r) := by
  intro r
  obtain ⟨a, u⟩ := p
  unfold rollPairEnc rollPairDec
  rw [List.append_assoc, idDec_idEnc a h]
  simp only []
  rw [rollUpdateDec_enc]

/-- An `(address, LedgerData)` entry of the ledger export
(ledger.rs lines 829-835 / 849-857). -/
def ledgerPairEnc (p : Nat × LedgerData) : List Nat :=
  idEnc p.1 ++ ledgerDataEnc p.2

/-- See `ledgerPairEnc`. -/
def ledgerPairDec (b : List Nat) :
    Except String ((Nat × LedgerData) × List Nat) :=
  match idDec b with
  | .error e => .error e
  | .ok (a, r1) =>
    match ledgerDataDec r1 with
    | .error e => .error e
    | .ok (d, r2) => .ok ((a, d), r2)

theorem ledgerPairDec_enc (p : Nat × LedgerData) (h : p.1 < 256 ^ 32) :
    ∀ r, ledgerPairDec (ledgerPairEnc p ++ r) = .ok (p, r) := by
  intro r
  obtain ⟨a, d⟩ := p
  unfold ledgerPairEnc ledgerPairDec
  rw [List.append_assoc, idDec_idEnc a h]
  simp only []
  rw [ledgerDataDec_enc]

/-- `ExportActiveBlock` (block_graph.rs lines 43-60): the bootstrap view
of an active block (`descendants`, `operation_set` and
`addresses_to_operations` are dropped; maps become ordered lists). -/
structure ExportActiveBlockE where
  is_final : Bool
  block : BlockHeaderE
  parents : List (Nat × Nat)
  children : List (List (Nat × Nat))
  dependencies : List Nat
  block_ledger_change : List (List (Nat × LedgerChange))
  roll_updates : List (Nat × RollUpdateE)
  deriving DecidableEq, Repr

/-- `ExportActiveBlock::to_bytes_compact` (block_graph.rs lines
147-235): is_final byte, block, parents flag and pairs, then
count-prefixed children, dependencies, ledger changes and roll updates
(each count must fit a `u32`). -/
def exportActiveBlockEnc (b : ExportActiveBlockE) :
    Except String (List Nat) :=
  if ¬ b.children.length < u32Max then
    .error "too many children in ActiveBlock"
  else
    match encListE childMapEnc b.children with
    | .error e => .error e
    | .ok childBytes =>
      if ¬ b.dependencies.length < u32Max then
        .error "too many dependencies in ActiveBlock"
      else if ¬ b.block_ledger_change.length < u32Max then
        .error "too many block_ledger_change in ActiveBlock"
      else
        match encListE blcMapEnc b.block_ledger_change with
        | .error e => .error e
        | .ok blcBytes =>
          if ¬ b.roll_updates.length < u32Max then
            .error "too many roll updates in ActiveBlock"
          else
            .ok ((if b.is_final then [1] else [0]) ++
              blockEnc b.block ++
              (if b.parents.isEmpty then [0] else [1]) ++
              (b.parents.map pairEnc).flatten ++
              vEnc b.children.length ++ childBytes ++
              vEnc b.dependencies.length ++
              (b.dependencies.map idEnc).flatten ++
              vEnc b.block_ledger_change.length ++ blcBytes ++
              vEnc b.roll_updates.length ++
              (b.roll_updates.map rollPairEnc).flatten)

/-- `ExportActiveBlock::from_bytes_compact` (block_graph.rs lines
238-385): a nonzero parents flag other than 1 is an error; exactly
`parent_count` parents are read; `children_count` may not exceed
`parent_count`; each children / ledger-change map is bounded by
`max_bootstrap_children`; dependencies by `max_bootstrap_deps`; roll
updates by `max_bootstrap_pos_entries`; `block_ledger_change_count` must
equal `parent_count`. -/
def exportActiveBlockDec (ctx : SerializationCtx) (b : List Nat) :
    Except String (ExportActiveBlockE × List Nat) :=
  match b with
  | [] => .error "buffer too small"
  | isf :: r0 =>
    match blockDec r0 with
    | .error e => .error e
    | .ok (block, r1) =>
      match r1 with
      | [] => .error "buffer too small"
      | hasp :: r2 =>
        match (if hasp = 1 then decCount pairDec ctx.parent_count r2
          else if hasp = 0 then .ok ([], r2)
          else .error "ActiveBlock from_bytes_compact bad has parents flags.") with
        | .error e => .error e
        | .ok (parents, r3) =>
          match vDec r3 with
          | .error e => .error e
          | .ok (cc, r4) =>
            if ctx.parent_count < cc then
              .error "too many threads with children to deserialize"
            else
              match decCount (childMapDec ctx.max_bootstrap_children)
                  cc r4 with
              | .error e => .error e
              | .ok (children, r5) =>
                match vDec r5 with
                | .error e => .error e
                | .ok (dc, r6) =>
                  if ctx.max_bootstrap_deps < dc then
                    .error "too many dependencies to deserialize"
                  else
                    match decCount idDec dc r6 with
                    | .error e => .error e
                    | .ok (deps, r7) =>
                      match vDec r7 with
                      | .error e => .error e
                      | .ok (bc, r8) =>
                        if bc ≠ ctx.parent_count then
                          .error "wrong number of threads to deserialize in block_ledger_change"
                        else
                          match decCount
                              (blcMapDec ctx.max_bootstrap_children)
                              bc r8 with
                          | .error e => .error e
                          | .ok (blc, r9) =>
                            match vDec r9 with
                            | .error e => .error e
                            | .ok (rc, r10) =>
                              if ctx.max_bootstrap_pos_entries < rc then
                                .error "too many roll updates to deserialize"
                              else
                                match decCount rollPairDec rc r10 with
                                | .error e => .error e
                                | .ok (rolls, r11) =>
                                  .ok (⟨!(isf == 0), block, parents,
                                    children, deps, blc, rolls⟩, r11)

/-- The configured bounds under which an `ExportActiveBlock` survives the
bootstrap roundtrip. -/
def exportActiveBlockWf (ctx : SerializationCtx)
    (b : ExportActiveBlockE) : Prop :=
  b.block.creator < 256 ^ 32 ∧
  (∀ p ∈ b.block.parents, p < 256 ^ 32) ∧
  (b.parents = [] ∨ b.parents.length = ctx.parent_count) ∧
  (∀ p ∈ b.parents, p.1 < 256 ^ 32) ∧
  b.children.length < u32Max ∧
  b.children.length ≤ ctx.parent_count ∧
  (∀ m ∈ b.children, m.length < u32Max ∧
    m.length ≤ ctx.max_bootstrap_children ∧ ∀ p ∈ m, p.1 < 256 ^ 32) ∧
  b.dependencies.length < u32Max ∧
  b.dependencies.length ≤ ctx.max_bootstrap_deps ∧
  (∀ d ∈ b.dependencies, d < 256 ^ 32) ∧
  b.block_ledger_change.length < u32Max ∧
  b.block_ledger_change.length = ctx.parent_count ∧
  (∀ m ∈ b.block_ledger_change, m.length < u32Max ∧
    m.length ≤ ctx.max_bootstrap_children ∧ ∀ p ∈ m, p.1 < 256 ^ 32) ∧
  b.roll_updates.length < u32Max ∧
  b.roll_updates.length ≤ ctx.max_bootstrap_pos_entries ∧
  (∀ p ∈ b.roll_updates, p.1 < 256 ^ 32)

theorem encListE_ok {α : Type} (enc : α → Except String (List Nat))
    (f : α → List Nat) (l : List α)
    (h : ∀ x ∈ l, enc x = .ok (f x)) :
    encListE enc l = .ok (l.map f).flatten := by
  induction l with
  | nil => rfl
  | cons x t ih =>
    unfold encListE
    rw [h x (List.mem_cons_self x t),
      ih (fun y hy => h y (List.mem_cons_of_mem x hy))]
    simp only [List.map_cons, List.flatten_cons]

/-- The bootstrap roundtrip for one exported active block: under the
configured bounds, serialization succeeds and deserialization undoes it
exactly, consuming exactly the serialized bytes. -/
theorem exportActiveBlockDec_enc (ctx : SerializationCtx)
    (b : ExportActiveBlockE) (hwf : exportActiveBlockWf ctx b) :
    ∃ bs, exportActiveBlockEnc b = .ok bs ∧
      ∀ r, exportActiveBlockDec ctx (bs ++ r) = .ok (b, r) := by
  obtain ⟨hc, hbpid, hpar, hpid, hcl, hcp, hcm, hdl, hdb, hdid, hbl,
    hbc, hbm, hrl, hrb, hrid⟩ := hwf
  have hchildBytes : encListE childMapEnc b.children =
      .ok (b.children.map
        (fun m => vEnc m.length ++ (m.map pairEnc).flatten)).flatten := by
    apply encListE_ok
    intro m hm
    unfold childMapEnc
    rw [if_pos (hcm m hm).1]
  have hblcBytes : encListE blcMapEnc b.block_ledger_change =
      .ok (b.block_ledger_change.map
        (fun m => vEnc m.length ++ (m.map blcPairEnc).flatten)).flatten := by
    apply encListE_ok
    intro m hm
    unfold blcMapEnc
    rw [if_pos (hbm m hm).1]
  have hface : (if b.is_final then ([1] : List Nat) else [0]) =
      [if b.is_final then 1 else 0] := by
    cases b.is_final <;> rfl
  have hfpars : (if b.parents.isEmpty then ([0] : List Nat) else [1]) =
      [if b.parents.isEmpty then 0 else 1] := by
    cases hpe : b.parents.isEmpty <;> rfl
  have henc : exportActiveBlockEnc b =
      .ok ((if b.is_final then 1 else 0) ::
        (blockEnc b.block ++
          ((if b.parents.isEmpty then 0 else 1) ::
            ((b.parents.map pairEnc).flatten ++
              (vEnc b.children.length ++
                ((b.children.map (fun m =>
                    vEnc m.length ++ (m.map pairEnc).flatten)).flatten ++
                  (vEnc b.dependencies.length ++
                    ((b.dependencies.map idEnc).flatten ++
                      (vEnc b.block_ledger_change.length ++
                        ((b.block_ledger_change.map (fun m =>
                            vEnc m.length ++
                              (m.map blcPairEnc).flatten)).flatten ++
                          (vEnc b.roll_updates.length ++
                            (b.roll_updates.map
                              rollPairEnc).flatten))))))))))) := by
    unfold exportActiveBlockEnc
    rw [if_neg (not_not_intro hcl), hchildBytes]
    simp only []
    rw [if_neg (not_not_intro hdl), if_neg (not_not_intro hbl), hblcBytes]
    simp only []
    rw [if_neg (not_not_intro hrl), hface, hfpars]
    simp only [List.append_assoc, List.cons_append, List.nil_append]
  refine ⟨_, henc, ?_⟩
  intro r
  have hflag : ∀ tail : List Nat,
      (if (if b.parents.isEmpty then (0 : Nat) else 1) = 1 then
        decCount pairDec ctx.parent_count
          ((b.parents.map pairEnc).flatten ++ tail)
      else if (if b.parents.isEmpty then (0 : Nat) else 1) = 0 then
        Except.ok (([] : List (Nat × Nat)),
          (b.parents.map pairEnc).flatten ++ tail)
      else
        Except.error
          "ActiveBlock from_bytes_compact bad has parents flags.") =
      .ok (b.parents, tail) := by
    intro tail
    by_cases hpe : b.parents.isEmpty
    · have hpnil : b.parents = [] := List.isEmpty_iff.mp hpe
      have h0 : (if b.parents.isEmpty then (0 : Nat) else 1) = 0 :=
        if_pos hpe
      rw [h0, if_neg (by omega), if_pos rfl, hpnil]
      simp
    · have hlen : b.parents.length = ctx.parent_count := by
        rcases hpar with hp0 | hp1
        · exact absurd (List.isEmpty_iff.mpr hp0) hpe
        · exact hp1
      have h1 : (if b.parents.isEmpty then (0 : Nat) else 1) = 1 :=
        if_neg hpe
      rw [h1, if_pos rfl, ← hlen,
        decCount_encListE (fun p => .ok (pairEnc p)) pairDec b.parents _
          (encListE_pure pairEnc b.parents)
          (fun x hx bx hbx r2 => by
            injection hbx with hbx
            subst hbx
            exact pairDec_enc x (hpid x hx) r2) tail]
  have hface2 : (!((if b.is_final then (1 : Nat) else 0) == 0)) =
      b.is_final := by
    cases b.is_final <;> rfl
  show exportActiveBlockDec ctx _ = _
  unfold exportActiveBlockDec
  simp only [List.cons_append, List.append_assoc]
  rw [blockDec_enc b.block hc hbpid]
  simp only []
  rw [hflag]
  simp only []
  rw [vDec_vEnc]
  simp only []
  rw [if_neg (by omega)]
  rw [decCount_encListE childMapEnc
    (childMapDec ctx.max_bootstrap_children) b.children _ hchildBytes
    (fun m hm bx hbx r2 => childMapDec_enc ctx.max_bootstrap_children m
      (hcm m hm).1 (hcm m hm).2.1 (hcm m hm).2.2 bx hbx r2)]
  simp only []
  rw [vDec_vEnc]
  simp only []
  rw [if_neg (by omega)]
  rw [decCount_encListE (fun d => .ok (idEnc d)) idDec b.dependencies _
    (encListE_pure idEnc b.dependencies)
    (fun x hx bx hbx r2 => by
      injection hbx with hbx
      subst hbx
      exact idDec_idEnc x (hdid x hx) r2)]
  simp only []
  rw [vDec_vEnc]
  simp only []
  rw [if_neg (by omega)]
  rw [decCount_encListE blcMapEnc
    (blcMapDec ctx.max_bootstrap_children) b.block_ledger_change _
    hblcBytes
    (fun m hm bx hbx r2 => blcMapDec_enc ctx.max_bootstrap_children m
      (hbm m hm).1 (hbm m hm).2.1 (hbm m hm).2.2 bx hbx r2)]
  simp only []
  rw [vDec_vEnc]
  simp only []
  rw [if_neg (by omega)]
  rw [decCount_encListE (fun p => .ok (rollPairEnc p)) rollPairDec
    b.roll_updates _ (encListE_pure rollPairEnc b.roll_updates)
    (fun x hx bx hbx r2 => by
      injection hbx with hbx
      subst hbx
      exact rollPairDec_enc x (hrid x hx) r2)]
  simp only []
  rw [hface2]

/-- One `gi_head` entry (block_graph.rs lines 639-651 / 738-753): id,
varint set count (a `u32`, bounded by `max_bootstrap_blocks` when
deserializing), then the set's ids. -/
def giEntryEnc (p : Nat × List Nat) : Except String (List Nat) :=
  if p.2.length < u32Max then
    .ok (idEnc p.1 ++ vEnc p.2.length ++ (p.2.map idEnc).flatten)
  else .error "too many entry in gi_head set in BootsrapableGraph"

/-- See `giEntryEnc`. -/
def giEntryDec (maxBlocks : Nat) (b : List Nat) :
    Except String ((Nat × List Nat) × List Nat) :=
  match idDec b with
  | .error e => .error e
  | .ok (h, r1) =>
    match vDec r1 with
    | .error e => .error e
    | .ok (c, r2) =>
      if maxBlocks < c then
        .error "too many blocks in a set in gi_head for deserialization context in BootstrapableGraph"
      else
        match decCount idDec c r2 with
        | .error e => .error e
        | .ok (s, r3) => .ok ((h, s), r3)

theorem giEntryDec_enc (maxBlocks : Nat) (p : Nat × List Nat)
    (h0 : p.1 < 256 ^ 32) (h1 : p.2.length < u32Max)
    (h2 : p.2.length ≤ maxBlocks) (h3 : ∀ x ∈ p.2, x < 256 ^ 32) :
    ∀ bs, giEntryEnc p = .ok bs →
    ∀ r, giEntryDec maxBlocks (bs ++ r) = .ok (p, r) := by
  intro bs hbs r
  unfold giEntryEnc at hbs
  rw [if_pos h1] at hbs
  injection hbs with hbs
  subst hbs
  obtain ⟨x, s⟩ := p
  have h2s : s.length ≤ maxBlocks := h2
  have h3s : ∀ y ∈ s, y < 256 ^ 32 := h3
  unfold giEntryDec
  simp only [List.append_assoc]
  rw [idDec_idEnc x h0]
  simp only []
  rw [vDec_vEnc]
  simp only []
  rw [if_neg (by omega)]
  rw [decCount_encListE (fun d => .ok (idEnc d)) idDec s _
    (encListE_pure idEnc s)
    (fun y hy bx hbx r2 => by
      injection hbx with hbx
      subst hbx
      exact idDec_idEnc y (h3s y hy) r2)]

/-- One `max_cliques` entry (block_graph.rs lines 664-675 / 762-775):
varint count (bounded by `max_bootstrap_blocks` when deserializing) then
ids. -/
def cliqueEnc (c : List Nat) : Except String (List Nat) :=
  if c.length < u32Max then
    .ok (vEnc c.length ++ (c.map idEnc).flatten)
  else .error "too many entry in max_cliques set in BootsrapableGraph"

/-- See `cliqueEnc`. -/
def cliqueDec (maxBlocks : Nat) (b : List Nat) :
    Except String (List Nat × List Nat) :=
  match vDec b with
  | .error e => .error e
  | .ok (c, r1) =>
    if maxBlocks < c then
      .error "too many blocks in a clique for deserialization context in BootstrapableGraph"
    else decCount idDec c r1

theorem cliqueDec_enc (maxBlocks : Nat) (c : List Nat)
    (h1 : c.length < u32Max) (h2 : c.length ≤ maxBlocks)
    (h3 : ∀ x ∈ c, x < 256 ^ 32) :
    ∀ bs, cliqueEnc c = .ok bs →
    ∀ r, cliqueDec maxBlocks (bs ++ r) = .ok (c, r) := by
  intro bs hbs r
  unfold cliqueEnc at hbs
  rw [if_pos h1] at hbs
  injection hbs with hbs
  subst hbs
  unfold cliqueDec
  simp only [List.append_assoc]
  rw [vDec_vEnc]
  simp only []
  rw [if_neg (by omega)]
  exact decCount_encListE (fun d => .ok (idEnc d)) idDec c _
    (encListE_pure idEnc c)
    (fun y hy bx hbx r2 => by
      injection hbx with hbx
      subst hbx
      exact idDec_idEnc y (h3 y hy) r2) r

/-- One `active_blocks` entry (block_graph.rs lines 618-621 / 704-710):
id then the exported block. -/
def activeBlockPairEnc (p : Nat × ExportActiveBlockE) :
    Except String (List Nat) :=
  match exportActiveBlockEnc p.2 with
  | .error e => .error e
  | .ok bb => .ok (idEnc p.1 ++ bb)

/-- See `activeBlockPairEnc`. -/
def activeBlockPairDec (ctx : SerializationCtx) (b : List Nat) :
    Except String ((Nat × ExportActiveBlockE) × List Nat) :=
  match idDec b with
  | .error e => .error e
  | .ok (h, r1) =>
    match exportActiveBlockDec ctx r1 with
    | .error e => .error e
    | .ok (blk, r2) => .ok ((h, blk), r2)

theorem activeBlockPairDec_enc (ctx : SerializationCtx)
    (p : Nat × ExportActiveBlockE) (h0 : p.1 < 256 ^ 32)
    (hwf : exportActiveBlockWf ctx p.2) :
    ∀ bs, activeBlockPairEnc p = .ok bs →
    ∀ r, activeBlockPairDec ctx (bs ++ r) = .ok (p, r) := by
  intro bs hbs r
  rcases exportActiveBlockDec_enc ctx p.2 hwf with ⟨bb, hbb, hdec⟩
  unfold activeBlockPairEnc at hbs
  rw [hbb] at hbs
  simp only [] at hbs
  injection hbs with hbs
  subst hbs
  unfold activeBlockPairDec
  simp only [List.append_assoc]
  rw [idDec_idEnc p.1 h0]
  simp only []
  rw [hdec]

theorem encListE_isOk {α : Type} (enc : α → Except String (List Nat))
    (l : List α) (h : ∀ x ∈ l, ∃ bx, enc x = .ok bx) :
    ∃ bs, encListE enc l = .ok bs := by
  induction l with
  | nil => exact ⟨[], rfl⟩
  | cons x t ih =>
    rcases h x (List.mem_cons_self x t) with ⟨bx, hbx⟩
    rcases ih (fun y hy => h y (List.mem_cons_of_mem x hy)) with ⟨bs, hbs⟩
    refine ⟨bx ++ bs, ?_⟩
    unfold encListE
    rw [hbx, hbs]

/-- `BootsrapableGraph` (block_graph.rs lines 547-561). -/
structure BootsrapableGraphE where
  active_blocks : List (Nat × ExportActiveBlockE)
  best_parents : List Nat
  latest_final_blocks_periods : List (Nat × Nat)
  gi_head : List (Nat × List Nat)
  max_cliques : List (List Nat)
  ledger : List (Nat × LedgerData)
  deriving DecidableEq, Repr

/-- `BootsrapableGraph::to_bytes_compact` (block_graph.rs lines
600-682, ledger.rs lines 821-837 for the trailing `LedgerExport`):
count-prefixed active blocks (count checked against a `u32` and
`max_bootstrap_blocks`), the uncounted `best_parents` and
`latest_final_blocks_periods` (always `parent_count` entries each),
count-prefixed `gi_head` and `max_cliques` (the latter checked against
`max_bootstrap_cliques`), then the ledger subset with a varint entry
count. -/
def bootsrapableGraphEnc (ctx : SerializationCtx)
    (g : BootsrapableGraphE) : Except String (List Nat) :=
  if ¬ g.active_blocks.length < u32Max then
    .error "too many active blocks in BootsrapableGraph"
  else if ctx.max_bootstrap_blocks < g.active_blocks.length then
    .error "too many blocks in active_blocks for serialization context in BootstrapableGraph"
  else
    match encListE activeBlockPairEnc g.active_blocks with
    | .error e => .error e
    | .ok abBytes =>
      if ¬ g.gi_head.length < u32Max then
        .error "too many gi_head in BootsrapableGraph"
      else
        match encListE giEntryEnc g.gi_head with
        | .error e => .error e
        | .ok giBytes =>
          if ¬ g.max_cliques.length < u32Max then
            .error "too many max_cliques in BootsrapableGraph"
          else if ctx.max_bootstrap_cliques < g.max_cliques.length then
            .error "too many blocks in max_cliques for serialization context in BootstrapableGraph"
          else
            match encListE cliqueEnc g.max_cliques with
            | .error e => .error e
            | .ok clBytes =>
              .ok (vEnc g.active_blocks.length ++ abBytes ++
                (g.best_parents.map idEnc).flatten ++
                (g.latest_final_blocks_periods.map pairEnc).flatten ++
                vEnc g.gi_head.length ++ giBytes ++
                vEnc g.max_cliques.length ++ clBytes ++
                vEnc g.ledger.length ++
                (g.ledger.map ledgerPairEnc).flatten)

/-- `BootsrapableGraph::from_bytes_compact` (block_graph.rs lines
684-792, ledger.rs lines 840-861): exactly `parent_count` best parents
and latest-final pairs are read; active blocks and `gi_head` are bounded
by `max_bootstrap_blocks`, cliques by `max_bootstrap_cliques`; the
ledger entry count is an unchecked varint. -/
def bootsrapableGraphDec (ctx : SerializationCtx) (b : List Nat) :
    Except String (BootsrapableGraphE × List Nat) :=
  match vDec b with
  | .error e => .error e
  | .ok (abc, r1) =>
    if ctx.max_bootstrap_blocks < abc then
      .error "too many blocks in active_blocks for deserialization context in BootstrapableGraph"
    else
      match decCount (activeBlockPairDec ctx) abc r1 with
      | .error e => .error e
      | .ok (abl, r2) =>
        match decCount idDec ctx.parent_count r2 with
        | .error e => .error e
        | .ok (bps, r3) =>
          match decCount pairDec ctx.parent_count r3 with
          | .error e => .error e
          | .ok (lfs, r4) =>
            match vDec r4 with
            | .error e => .error e
            | .ok (gic, r5) =>
              if ctx.max_bootstrap_blocks < gic then
                .error "too many blocks in gi_head for deserialization context in BootstrapableGraph"
              else
                match decCount (giEntryDec ctx.max_bootstrap_blocks)
                    gic r5 with
                | .error e => .error e
                | .ok (gih, r6) =>
                  match vDec r6 with
                  | .error e => .error e
                  | .ok (mcc, r7) =>
                    if ctx.max_bootstrap_cliques < mcc then
                      .error "too many blocks in max_cliques for deserialization context in BootstrapableGraph"
                    else
                      match decCount
                          (cliqueDec ctx.max_bootstrap_blocks)
                          mcc r7 with
                      | .error e => .error e
                      | .ok (mcs, r8) =>
                        match vDec r8 with
                        | .error e => .error e
                        | .ok (lc, r9) =>
                          match decCount ledgerPairDec lc r9 with
                          | .error e => .error e
                          | .ok (led, r10) =>
                            .ok (⟨abl, bps, lfs, gih, mcs, led⟩, r10)

/-- The configured bounds under which a `BootsrapableGraph` survives the
bootstrap roundtrip. -/
def bootsrapableGraphWf (ctx : SerializationCtx)
    (g : BootsrapableGraphE) : Prop :=
  g.active_blocks.length < u32Max ∧
  g.active_blocks.length ≤ ctx.max_bootstrap_blocks ∧
  (∀ p ∈ g.active_blocks, p.1 < 256 ^ 32 ∧
    exportActiveBlockWf ctx p.2) ∧
  g.best_parents.length = ctx.parent_count ∧
  (∀ x ∈ g.best_parents, x < 256 ^ 32) ∧
  g.latest_final_blocks_periods.length = ctx.parent_count ∧
  (∀ p ∈ g.latest_final_blocks_periods, p.1 < 256 ^ 32) ∧
  g.gi_head.length < u32Max ∧
  g.gi_head.length ≤ ctx.max_bootstrap_blocks ∧
  (∀ p ∈ g.gi_head, p.1 < 256 ^ 32 ∧ p.2.length < u32Max ∧
    p.2.length ≤ ctx.max_bootstrap_blocks ∧ ∀ x ∈ p.2, x < 256 ^ 32) ∧
  g.max_cliques.length < u32Max ∧
  g.max_cliques.length ≤ ctx.max_bootstrap_cliques ∧
  (∀ c ∈ g.max_cliques, c.length < u32Max ∧
    c.length ≤ ctx.max_bootstrap_blocks ∧ ∀ x ∈ c, x < 256 ^ 32) ∧
  (∀ p ∈ g.ledger, p.1 < 256 ^ 32)

/-- **C5.**  For every `BootsrapableGraph` whose collection sizes satisfy
the configured bootstrap bounds, serialization succeeds and
deserializing the result returns the graph unchanged — in particular the
order of `active_blocks`, `best_parents` and
`latest_final_blocks_periods` is preserved — consuming exactly the
serialized bytes. -/
theorem c5_bootstrap_roundtrip (ctx : SerializationCtx)
    (g : BootsrapableGraphE) (hwf : bootsrapableGraphWf ctx g) :
    ∃ bs, bootsrapableGraphEnc ctx g = .ok bs ∧
      ∀ r, bootsrapableGraphDec ctx (bs ++ r) = .ok (g, r) := by
  obtain ⟨habl, habb, hab, hbpl, hbpid, hlfl, hlfid, hgil, hgib, hgim,
    hmcl, hmcb, hmcm, hled⟩ := hwf
  rcases encListE_isOk activeBlockPairEnc g.active_blocks (by
    intro p hp
    rcases exportActiveBlockDec_enc ctx p.2 (hab p hp).2 with
      ⟨bb, hbb, _⟩
    refine ⟨idEnc p.1 ++ bb, ?_⟩
    unfold activeBlockPairEnc
    rw [hbb]) with ⟨abBytes, habBytes⟩
  have hgiBytes : encListE giEntryEnc g.gi_head =
      .ok (g.gi_head.map (fun p =>
        idEnc p.1 ++ (vEnc p.2.length ++ (p.2.map idEnc).flatten))).flatten
      := by
    apply encListE_ok
    intro p hp
    unfold giEntryEnc
    rw [if_pos (hgim p hp).2.1, List.append_assoc]
  have hclBytes : encListE cliqueEnc g.max_cliques =
      .ok (g.max_cliques.map (fun c =>
        vEnc c.length ++ (c.map idEnc).flatten)).flatten := by
    apply encListE_ok
    intro c hc
    unfold cliqueEnc
    rw [if_pos (hmcm c hc).1]
  have henc : bootsrapableGraphEnc ctx g =
      .ok (vEnc g.active_blocks.length ++
        (abBytes ++
          ((g.best_parents.map idEnc).flatten ++
            ((g.latest_final_blocks_periods.map pairEnc).flatten ++
              (vEnc g.gi_head.length ++
                ((g.gi_head.map (fun p => idEnc p.1 ++
                    (vEnc p.2.length ++ (p.2.map idEnc).flatten))).flatten ++
                  (vEnc g.max_cliques.length ++
                    ((g.max_cliques.map (fun c => vEnc c.length ++
                        (c.map idEnc).flatten)).flatten ++
                      (vEnc g.ledger.length ++
                        (g.ledger.map ledgerPairEnc).flatten))))))))) := by
    unfold bootsrapableGraphEnc
    rw [if_neg (not_not_intro habl), if_neg (by omega), habBytes]
    simp only []
    rw [if_neg (not_not_intro hgil), hgiBytes]
    simp only []
    rw [if_neg (not_not_intro hmcl), if_neg (by omega), hclBytes]
    simp only [List.append_assoc]
  refine ⟨_, henc, ?_⟩
  intro r
  unfold bootsrapableGraphDec
  simp only [List.append_assoc]
  rw [vDec_vEnc]
  simp only []
  rw [if_neg (by omega)]
  rw [decCount_encListE activeBlockPairEnc (activeBlockPairDec ctx)
    g.active_blocks _ habBytes
    (fun p hp bx hbx r2 => activeBlockPairDec_enc ctx p (hab p hp).1
      (hab p hp).2 bx hbx r2)]
  simp only []
  nth_rewrite 1 [← hbpl]
  rw [decCount_encListE (fun d => .ok (idEnc d)) idDec
    g.best_parents _ (encListE_pure idEnc g.best_parents)
    (fun x hx bx hbx r2 => by
      injection hbx with hbx
      subst hbx
      exact idDec_idEnc x (hbpid x hx) r2)]
  simp only []
  nth_rewrite 1 [← hlfl]
  rw [decCount_encListE (fun p => .ok (pairEnc p)) pairDec
    g.latest_final_blocks_periods _
    (encListE_pure pairEnc g.latest_final_blocks_periods)
    (fun x hx bx hbx r2 => by
      injection hbx with hbx
      subst hbx
      exact pairDec_enc x (hlfid x hx) r2)]
  simp only []
  rw [vDec_vEnc]
  simp only []
  rw [if_neg (by omega)]
  rw [decCount_encListE giEntryEnc
    (giEntryDec ctx.max_bootstrap_blocks) g.gi_head _ hgiBytes
    (fun p hp bx hbx r2 => giEntryDec_enc ctx.max_bootstrap_blocks p
      (hgim p hp).1 (hgim p hp).2.1 (hgim p hp).2.2.1
      (hgim p hp).2.2.2 bx hbx r2)]
  simp only []
  rw [vDec_vEnc]
  simp only []
  rw [if_neg (by omega)]
  rw [decCount_encListE cliqueEnc
    (cliqueDec ctx.max_bootstrap_blocks) g.max_cliques _ hclBytes
    (fun c hc bx hbx r2 => cliqueDec_enc ctx.max_bootstrap_blocks c
      (hmcm c hc).1 (hmcm c hc).2.1 (hmcm c hc).2.2 bx hbx r2)]
  simp only []
  rw [vDec_vEnc]
  simp only []
  rw [decCount_encListE (fun p => .ok (ledgerPairEnc p)) ledgerPairDec
    g.ledger _ (encListE_pure ledgerPairEnc g.ledger)
    (fun x hx bx hbx r2 => by
      injection hbx with hbx
      subst hbx
      exact ledgerPairDec_enc x (hled x hx) r2)]

/-- Concrete serialization context for the C5 witness. -/
def c5Ctx : SerializationCtx := ⟨2, 10, 10, 10, 10, 10⟩

/-- Concrete exported block for the C5 witness. -/
def c5Block : ExportActiveBlockE :=
  ⟨true, ⟨⟨1, 0⟩, [7, 8], 9⟩, [(7, 0), (8, 0)], [[(2, 1)], []], [7],
    [[(5, ⟨3, true⟩)], []], [(6, ⟨1, 2⟩)]⟩

/-- Concrete graph for the C5 witness. -/
def c5Graph : BootsrapableGraphE :=
  ⟨[(1, c5Block)], [1, 2], [(1, 0), (2, 0)], [(1, [2])], [[1], [2]],
    [(5, ⟨17⟩)]⟩

/-- Witness for `c5_bootstrap_roundtrip` at a concrete graph within the
bounds. -/
theorem c5_bootstrap_roundtrip_witness :
    ∃ bs, bootsrapableGraphEnc c5Ctx c5Graph = .ok bs ∧
      ∀ r, bootsrapableGraphDec c5Ctx (bs ++ r) = .ok (c5Graph, r) :=
  c5_bootstrap_roundtrip c5Ctx c5Graph (by
    unfold bootsrapableGraphWf exportActiveBlockWf
    decide)

/-! ## C7, continued: future-slot classification of incoming blocks
(block_graph.rs lines 2085-2151 and 1543-1637) -/

/-- `BlockOperationsCheckOutcome` (the result of `check_operations`,
block_graph.rs lines 2153-2600).  The operations check is only reached
when the header check proceeds, so the embedded `checkBlock` takes its
outcome as an oracle argument, like the proof-of-stake draw. -/
inductive BlockOperationsCheckOutcome
  | proceed (dependencies : List Nat)
      (block_ledger_changes : List (List (Nat × LedgerChange)))
      (roll_updates : List (Nat × RollUpdateE))
  | discard (reason : DiscardReason)
  | waitForDependencies (deps : List Nat)
  deriving DecidableEq, Repr

/-- `BlockCheckOutcome` (the four-way block-validator result). -/
inductive BlockCheckOutcome
  | proceed (parents_hash_period : List (Nat × Nat))
      (dependencies : List Nat) (incompatibilities : List Nat)
      (inherited_incompatibilities_count : Nat)
      (block_ledger_changes : List (List (Nat × LedgerChange)))
      (roll_updates : List (Nat × RollUpdateE))
  | discard (reason : DiscardReason)
  | waitForSlot
  | waitForDependencies (missing : List Nat)
  deriving DecidableEq, Repr

/-- `check_block` (block_graph.rs lines 2085-2151): run `check_header` on
the block's header, short-circuiting `Discard`, `WaitForDependencies`
and `WaitForSlot` (line 2119) without ever reaching the operations
check; on `Proceed`, run the operations check and merge its
dependencies. -/
def checkBlock (cfg : ConsensusCfg) (st : GraphState)
    (draw : Slot → DrawResult)
    (opsCheck : Except String BlockOperationsCheckOutcome) (fuel : Nat)
    (current_slot : Option Slot) (block_id : Nat)
    (header : BlockHeaderE) : Except String BlockCheckOutcome :=
  match checkHeader cfg st draw fuel current_slot block_id header with
  | .error e => .error e
  | .ok (.discard reason) => .ok (.discard reason)
  | .ok (.waitForDependencies deps) => .ok (.waitForDependencies deps)
  | .ok .waitForSlot => .ok .waitForSlot
  | .ok (.proceed parents deps incomp inherited) =>
    match opsCheck with
    | .error e => .error e
    | .ok (.discard reason) => .ok (.discard reason)
    | .ok (.waitForDependencies deps2) => .ok (.waitForDependencies deps2)
    | .ok (.proceed odeps blc rolls) =>
      .ok (.proceed parents (setUnion deps odeps) incomp inherited blc
        rolls)

/-- Result of the `Incoming(Block)` arm of `process`: `stored` when the
block was re-filed under a new status (block_graph.rs lines 1582-1635),
`valid` when the check proceeded and processing continues into
`add_block_to_graph` (lines 1559-1581). -/
inductive IncomingBlockResult
  | stored (st : GraphState)
  | valid (st : GraphState) (header : BlockHeaderE)
      (parents : List (Nat × Nat)) (deps : List Nat) (incomp : List Nat)
      (inherited : Nat) (blc : List (List (Nat × LedgerChange)))
      (rolls : List (Nat × RollUpdateE))
  deriving DecidableEq, Repr

/-- The `Incoming(Block)` arm of `process` (block_graph.rs lines
1543-1637): remove the incoming block, run `check_block`, and store the
block under the status the outcome dictates (`WaitForDependencies` does
not add self, lines 1582-1593; `WaitForSlot` stores `WaitingForSlot`
with the full block, lines 1601-1606; `Discard` stores `Discarded`,
counting stale blocks, lines 1614-1635). -/
def processIncomingBlock (cfg : ConsensusCfg) (draw : Slot → DrawResult)
    (opsCheck : Except String BlockOperationsCheckOutcome) (fuel : Nat)
    (current_slot : Option Slot) (st : GraphState) (block_id : Nat) :
    Except String IncomingBlockResult :=
  match alistLookup st.block_statuses block_id with
  | some (.incoming (.fullBlock header)) =>
    let st := { st with
      block_statuses := alistRemove st.block_statuses block_id }
    match checkBlock cfg st draw opsCheck fuel current_slot block_id
        header with
    | .error e => .error e
    | .ok (.proceed parents deps incomp inherited blc rolls) =>
      .ok (.valid st header parents deps incomp inherited blc rolls)
    | .ok (.waitForDependencies deps) =>
      let st1 := { st with
        block_statuses := alistInsert st.block_statuses block_id
          (.waitingForDependencies (.fullBlock header) deps
            st.sequence_counter)
        sequence_counter := st.sequence_counter + 1 }
      .ok (.stored (promoteDepTree st1 fuel block_id))
    | .ok .waitForSlot =>
      .ok (.stored { st with
        block_statuses := alistInsert st.block_statuses block_id
          (.waitingForSlot (.fullBlock header)) })
    | .ok (.discard reason) =>
      .ok (.stored { st with
        block_statuses := alistInsert st.block_statuses block_id
          (.discarded header.slot reason st.sequence_counter)
        sequence_counter := st.sequence_counter + 1
        new_stale_blocks :=
          if reason = .stale then
            alistInsert st.new_stale_blocks block_id header.slot
          else st.new_stale_blocks })
  | _ => .error "not an incoming block"

/-- State holding the far-future full block as incoming, for the block
half of the C7 witness. -/
def c7StB : GraphState :=
  { c7St with block_statuses :=
      (97, .incoming (.fullBlock c7GoodHeader)) :: c7St.block_statuses }

/-- **C7** (amended).  If an incoming header — or incoming full block —
passes the structural checks (parent count equals the thread count,
nonzero period, thread in range) and is not immediately stale (its
period exceeds its thread's latest final period), and its period
strictly exceeds
`current_slot.period + future_block_processing_max_periods`, then both
`check_header` and `check_block` return `WaitForSlot` and the admission
pipeline stores the item as `WaitingForSlot` — in particular it is never
classified `WaitingForDependencies`, even with unknown parents, because
the future-slot test precedes parent resolution (and, for a block, the
operations check, whose oracle outcome is never consulted).  The
structural and staleness side conditions are missing from the original
claim; `c7_future_slot_counterexample` shows they are needed. -/
theorem c7_future_slot (cfg : ConsensusCfg) (st : GraphState)
    (draw : Slot → DrawResult)
    (opsCheck : Except String BlockOperationsCheckOutcome) (fuel : Nat)
    (cur : Slot) (block_id : Nat) (header : BlockHeaderE)
    (hlen : header.parents.length = cfg.thread_count)
    (hper : header.slot.period ≠ 0)
    (hth : header.slot.thread < cfg.thread_count)
    (hstale : (st.latest_final_blocks_periods.getD header.slot.thread
      (0, 0)).2 < header.slot.period)
    (hfut : cur.period + cfg.future_block_processing_max_periods <
      header.slot.period) :
    checkHeader cfg st draw fuel (some cur) block_id header =
      .ok .waitForSlot ∧
    checkBlock cfg st draw opsCheck fuel (some cur) block_id header =
      .ok .waitForSlot ∧
    (alistLookup st.block_statuses block_id =
        some (.incoming (.header header)) →
      ∃ st', processIncomingHeader cfg draw fuel (some cur) st block_id =
          .ok st' ∧
        alistLookup st'.block_statuses block_id =
          some (.waitingForSlot (.header header))) ∧
    (alistLookup st.block_statuses block_id =
        some (.incoming (.fullBlock header)) →
      ∃ st', processIncomingBlock cfg draw opsCheck fuel (some cur) st
          block_id = .ok (.stored st') ∧
        alistLookup st'.block_statuses block_id =
          some (.waitingForSlot (.fullBlock header))) := by
  have hch : ∀ s : GraphState,
      s.latest_final_blocks_periods = st.latest_final_blocks_periods →
      checkHeader cfg s draw fuel (some cur) block_id header =
        .ok .waitForSlot := by
    intro s hs
    have h1 : ¬ (header.parents.length ≠ cfg.thread_count ∨
        header.slot.period = 0 ∨ cfg.thread_count ≤ header.slot.thread) := by
      push_neg
      exact ⟨hlen, hper, by omega⟩
    have h2 : ¬ (header.slot.period ≤
        (s.latest_final_blocks_periods.getD header.slot.thread (0, 0)).2) := by
      rw [hs]; omega
    unfold checkHeader
    rw [if_neg h1, if_neg h2, if_pos]
    exact decide_eq_true hfut
  have hcb : ∀ s : GraphState,
      s.latest_final_blocks_periods = st.latest_final_blocks_periods →
      checkBlock cfg s draw opsCheck fuel (some cur) block_id header =
        .ok .waitForSlot := by
    intro s hs
    unfold checkBlock
    rw [hch s hs]
  have hrm : checkHeader cfg
      { st with block_statuses := alistRemove st.block_statuses block_id }
      draw fuel (some cur) block_id header = .ok .waitForSlot := hch _ rfl
  have hrmB : checkBlock cfg
      { st with block_statuses := alistRemove st.block_statuses block_id }
      draw opsCheck fuel (some cur) block_id header = .ok .waitForSlot :=
    hcb _ rfl
  refine ⟨hch st rfl, hcb st rfl, ?_, ?_⟩
  · intro hst
    have hp : processIncomingHeader cfg draw fuel (some cur) st block_id =
        .ok { st with block_statuses := alistInsert (alistRemove st.block_statuses block_id) block_id (.waitingForSlot (.header header)) } := by
      unfold processIncomingHeader
      rw [hst]
      simp only []
      rw [hrm]
    exact ⟨_, hp, by simp [alistLookup_insert]⟩
  · intro hst
    have hp : processIncomingBlock cfg draw opsCheck fuel (some cur) st
        block_id =
        .ok (.stored { st with block_statuses := alistInsert (alistRemove st.block_statuses block_id) block_id (.waitingForSlot (.fullBlock header)) }) := by
      unfold processIncomingBlock
      rw [hst]
      simp only []
      rw [hrmB]
    exact ⟨_, hp, by simp [alistLookup_insert]⟩

/-- Witness for `c7_future_slot`: the well-formed far-future header 99
in `c7St` and the far-future full block 97 in `c7StB` are both
classified `WaitForSlot` and stored `WaitingForSlot` — the operations
check oracle is an error and is never consulted. -/
theorem c7_future_slot_witness :
    checkHeader c7Cfg c7St (fun _ => .addr 7) 32 (some ⟨0, 0⟩) 99
        c7GoodHeader = .ok .waitForSlot ∧
    checkBlock c7Cfg c7StB (fun _ => .addr 7)
        (.error "ops check not reached") 32 (some ⟨0, 0⟩) 97
        c7GoodHeader = .ok .waitForSlot ∧
    (∃ st', processIncomingHeader c7Cfg (fun _ => .addr 7) 32
        (some ⟨0, 0⟩) c7St 99 = .ok st' ∧
      alistLookup st'.block_statuses 99 =
        some (.waitingForSlot (.header c7GoodHeader))) ∧
    (∃ st', processIncomingBlock c7Cfg (fun _ => .addr 7)
        (.error "ops check not reached") 32 (some ⟨0, 0⟩) c7StB 97 =
        .ok (.stored st') ∧
      alistLookup st'.block_statuses 97 =
        some (.waitingForSlot (.fullBlock c7GoodHeader))) := by
  have hH := c7_future_slot c7Cfg c7St (fun _ => .addr 7)
    (.error "ops check not reached") 32 ⟨0, 0⟩ 99 c7GoodHeader
    (by decide) (by decide) (by decide) (by decide) (by decide)
  have hB := c7_future_slot c7Cfg c7StB (fun _ => .addr 7)
    (.error "ops check not reached") 32 ⟨0, 0⟩ 97 c7GoodHeader
    (by decide) (by decide) (by decide) (by decide) (by decide)
  exact ⟨hH.1, hB.2.1, hH.2.2.1 (by decide), hB.2.2.2 (by decide)⟩
